import Mathlib

/-!
TINY6212 SPI-I2C bridge driver: the transfer-translation engine.

A shallow embedding of `src/spi-i2c-tiny6212.c`.

* Bytes are natural numbers; `u8` values stay below 256 by construction.
* `u32`/`int` arithmetic is carried out on `Nat`/`Int` with explicit reduction
  modulo `2^32` (`u32`, `s32`) wherever the C expression is evaluated in a
  32-bit type.
* The I2C transport is an explicit response function together with a log of
  the calls made so far, kept in the `client` field of the session.
* The byte arrays `rbuf`/`wbuf` are lists of declared length 129.  A store
  past the end of the list extends it, so that an out-of-bounds write of the
  C code is observable in the model as a buffer longer than 129.
-/

namespace Tiny6212

/-! ## Constants -/

def TINY6212_BUFSIZ : Nat := 128
def TINY6212_CLOCK : Nat := 8000000

def TINY6212_MODE_CPOL : Nat := 1 <<< 0
def TINY6212_MODE_CPHA : Nat := 1 <<< 1
def TINY6212_MODE_MSB_FIRST : Nat := 1 <<< 2
def TINY6212_MODE_CLOCK_DIV_2 : Nat := 0 <<< 3
def TINY6212_MODE_CLOCK_DIV_4 : Nat := 1 <<< 3
def TINY6212_MODE_CLOCK_DIV_8 : Nat := 2 <<< 3
def TINY6212_MODE_CLOCK_DIV_16 : Nat := 3 <<< 3
def TINY6212_MODE_CLOCK_DIV_32 : Nat := 4 <<< 3
def TINY6212_MODE_CLOCK_DIV_64 : Nat := 5 <<< 3
def TINY6212_MODE_CLOCK_DIV_128 : Nat := 6 <<< 3

def TINY6212_MODE_DEFAULT : Nat := 4

def TINY6212_CMD_TRANSMIT : Nat := 1
def TINY6212_CMD_CONFIGURE : Nat := 2

/-- Host-framework constant `SPI_CPHA` of `linux/spi/spi.h` (clock phase). -/
def SPI_CPHA : Nat := 1
/-- Host-framework constant `SPI_CPOL` of `linux/spi/spi.h` (clock polarity). -/
def SPI_CPOL : Nat := 2
/-- Host-framework constant `SPI_LSB_FIRST` of `linux/spi/spi.h`. -/
def SPI_LSB_FIRST : Nat := 8

/-- Host constant `EIO` of `errno.h`. -/
def EIO_errno : Int := 5
/-- Host constant `EINVAL` of `errno.h`. -/
def EINVAL_errno : Int := 22

/-! ## Machine integers -/

/-- Conversion of a C `int` to `unsigned int` (`u32`). -/
def u32 (x : Int) : Nat := (x % 4294967296).toNat

/-- Conversion of an `unsigned int` value to C `int` (two's complement). -/
def s32 (n : Nat) : Int :=
  if n % 4294967296 < 2147483648 then ((n % 4294967296 : Nat) : Int)
  else ((n % 4294967296 : Nat) : Int) - 4294967296

/-! ## Data model -/

/-- One call on the secondary transport, as the companion sees it: the bytes
of a send, or the requested count of a receive. -/
inductive I2cCall where
  | send (buf : List Nat)
  | recv (count : Nat)
  deriving DecidableEq, Repr

/-- What a transport call reports: the `int` return value and, for a one-byte
receive that delivers data, the byte stored into the caller's buffer. -/
structure I2cResp where
  ret : Int
  data : Nat
  deriving DecidableEq, Repr

/-- The transport: the response to the `k`-th call (counted from the start of
the log) given the call that is made. -/
abbrev I2cBus := Nat → I2cCall → I2cResp

/-- tiny6212 state, `struct tiny6212` (the `master` and `dev` back pointers are
left out).  `client` stands for the I2C client and holds the log of transport
calls made through it. -/
structure tiny6212 where
  ctrl : Nat
  freq : Nat
  client : List I2cCall
  rbuf : List Nat
  wbuf : List Nat
  tlen : Int
  deriving DecidableEq, Repr

/-- Transfer segment, the fields of `struct spi_transfer` read by the driver.
`none` is a `NULL` buffer pointer; `len` is an unsigned 32-bit field. -/
structure spi_transfer where
  tx_buf : Option (List Nat)
  rx_buf : Option (List Nat)
  len : Nat
  speed_hz : Nat
  cs_change : Bool
  deriving DecidableEq, Repr

/-- Message, the fields of `struct spi_message` used by the driver; `mode` is
`m->spi->mode`, `finalized` counts calls of `spi_finalize_current_message`. -/
structure spi_message where
  transfers : List spi_transfer
  mode : Nat
  actual_length : Nat
  status : Int
  finalized : Nat
  deriving DecidableEq, Repr

/-- A segment is well formed when `len` fits 32 bits and each buffer that is
present holds exactly `len` bytes. -/
def spi_transfer.wf (t : spi_transfer) : Prop :=
  t.len < 4294967296 ∧ (t.tx_buf = none ∨ t.tx_buf.map List.length = some t.len) ∧
    (t.rx_buf = none ∨ t.rx_buf.map List.length = some t.len)

instance (t : spi_transfer) : Decidable t.wf :=
  inferInstanceAs (Decidable (_ ∧ _ ∧ _))

/-! ## Memory and transport primitives -/

/-- Store of the bytes `src` into `dst` starting at index `off`
(`memcpy (&dst[off], src, src.length)`, or a single array store). -/
def memcpy (dst : List Nat) (off : Nat) (src : List Nat) : List Nat :=
  dst.take off ++ List.replicate (off - dst.length) 0 ++ src ++ dst.drop (off + src.length)

/-- Transport send of the first `count` bytes of `buf`: the call is logged and
the return value is the one the transport reports. -/
def i2c_master_send (bus : I2cBus) (client : List I2cCall) (buf : List Nat) (count : Int) :
    Int × List I2cCall :=
  ((bus client.length (I2cCall.send (buf.take count.toNat))).ret,
    client ++ [I2cCall.send (buf.take count.toNat)])

/-- Transport receive of up to `count` bytes: return value, delivered byte and
the extended log. -/
def i2c_master_recv (bus : I2cBus) (client : List I2cCall) (count : Int) :
    Int × Nat × List I2cCall :=
  ((bus client.length (I2cCall.recv count.toNat)).ret,
    (bus client.length (I2cCall.recv count.toNat)).data,
    client ++ [I2cCall.recv count.toNat])

/-! ## tiny6212_txrx -/

/-- Lines 54-63 of `tiny6212_txrx`: establish the frame header, copy the
outbound data, and compute the effective flush decision. -/
def txrx_frame (hw : tiny6212) (t : spi_transfer) (do_transfer : Bool) : tiny6212 × Bool :=
  let hw1 : tiny6212 :=
    if hw.tlen = 0 then
      { hw with wbuf := memcpy hw.wbuf 0 [TINY6212_CMD_TRANSMIT], tlen := 1 }
    else hw
  match t.tx_buf with
  | some tx =>
    ({ hw1 with wbuf := memcpy hw1.wbuf hw1.tlen.toNat (tx.take t.len),
                tlen := s32 (u32 hw1.tlen + t.len) },
      do_transfer || t.rx_buf.isSome)
  | none => (hw1, do_transfer)

/-- Lines 65-70 of `tiny6212_txrx`: the flush.  The first component is the
early return value, `none` when execution continues. -/
def txrx_flush (bus : I2cBus) (hw : tiny6212) (do_transfer : Bool) : Option Int × tiny6212 :=
  if do_transfer && decide (hw.tlen > 1) then
    let r := i2c_master_send bus hw.client hw.wbuf hw.tlen
    if r.1 < 0 then (some r.1, { hw with client := r.2 })
    else if r.1 ≠ hw.tlen then (some (- EIO_errno), { hw with client := r.2 })
    else (none, { hw with client := r.2, tlen := 0 })
  else (none, hw)

/-- Lines 74-78 of `tiny6212_txrx`: the receive loop, entered at index `j` with
`k` iterations left. -/
def recv_loop (bus : I2cBus) (hw : tiny6212) (j : Nat) : Nat → Option Int × tiny6212
  | 0 => (none, hw)
  | k + 1 =>
    let r := i2c_master_recv bus hw.client 1
    if r.1 < 0 then (some r.1, { hw with client := r.2.2 })
    else if r.1 = 0 then (some (- EIO_errno), { hw with client := r.2.2 })
    else recv_loop bus { hw with client := r.2.2, rbuf := memcpy hw.rbuf j [r.2.1] } (j + 1) k

/-- The function `tiny6212_txrx`: return value, new session, and the segment
with its receive buffer as left by the call. -/
def tiny6212_txrx (bus : I2cBus) (hw : tiny6212) (t : spi_transfer) (do_transfer : Bool) :
    Int × tiny6212 × spi_transfer :=
  let f := txrx_frame hw t do_transfer
  let s := txrx_flush bus f.1 f.2
  match s.1 with
  | some e => (e, s.2, t)
  | none =>
    match t.rx_buf with
    | some rx =>
      let l := recv_loop bus s.2 0 t.len
      match l.1 with
      | some e => (e, l.2, t)
      | none => (s32 t.len, l.2, { t with rx_buf := some (memcpy rx 0 (l.2.rbuf.take t.len)) })
    | none => (s32 t.len, s.2, t)

/-! ## tiny6212_setup_transfer -/

/-- Lines 94-101: the chain of `F(div)` tests; the divisor field that is
or-ed into the control byte. -/
def clock_div_field (freq hz : Nat) : Nat :=
  if hz ≥ freq / 2 then TINY6212_MODE_CLOCK_DIV_2
  else if hz ≥ freq / 4 then TINY6212_MODE_CLOCK_DIV_4
  else if hz ≥ freq / 8 then TINY6212_MODE_CLOCK_DIV_8
  else if hz ≥ freq / 16 then TINY6212_MODE_CLOCK_DIV_16
  else if hz ≥ freq / 32 then TINY6212_MODE_CLOCK_DIV_32
  else if hz ≥ freq / 64 then TINY6212_MODE_CLOCK_DIV_64
  else TINY6212_MODE_CLOCK_DIV_128

/-- Lines 86-101: the control byte built from the mode flags and the
requested frequency. -/
def setup_ctrl (freq hz mode : Nat) : Nat :=
  let c0 : Nat := 0
  let c1 := if mode &&& SPI_CPOL ≠ 0 then c0 ||| TINY6212_MODE_CPOL else c0
  let c2 := if mode &&& SPI_CPHA ≠ 0 then c1 ||| TINY6212_MODE_CPHA else c1
  let c3 := if mode &&& SPI_LSB_FIRST = 0 then c2 ||| TINY6212_MODE_MSB_FIRST else c2
  c3 ||| clock_div_field freq hz

/-- The function `tiny6212_setup_transfer` (`hz` is a `u32`, `mode` a `u8`). -/
def tiny6212_setup_transfer (bus : I2cBus) (hw : tiny6212) (hz mode : Nat) : Int × tiny6212 :=
  let ctrl := setup_ctrl hw.freq hz mode
  if ctrl = hw.ctrl then (0, hw)
  else
    let r := i2c_master_send bus hw.client [TINY6212_CMD_CONFIGURE, ctrl] 2
    if r.1 < 0 then (r.1, { hw with client := r.2 })
    else (0, { hw with client := r.2, ctrl := ctrl })

/-! ## tiny6212_check_transfer, tiny6212_transfer_one -/

/-- The function `tiny6212_check_transfer`; `t->len-1 + tlen` is evaluated in
`unsigned int`. -/
def tiny6212_check_transfer (t : spi_transfer) (tlen : Int) : Int :=
  if (t.len + 4294967295 + u32 tlen) % 4294967296 > TINY6212_BUFSIZ then - EINVAL_errno else 0

/-- State at the end of one iteration of the loop of `tiny6212_transfer_one`;
the loop breaks exactly when `status < 0`. -/
structure Iter where
  hw : tiny6212
  t : spi_transfer
  actual_length : Nat
  status : Int
  deriving DecidableEq, Repr

/-- Lines 129-146: the loop body for segment `t`; `is_last` is the value of
`list_is_last`, `al` the running `m->actual_length` (an `unsigned`).  The
delay of line 146 is handed to the host scheduler and touches none of the
modelled state. -/
def transfer_body (bus : I2cBus) (mode : Nat) (hw : tiny6212) (al : Nat) (t : spi_transfer)
    (is_last : Bool) : Iter :=
  let st := tiny6212_check_transfer t hw.tlen
  if st < 0 then ⟨hw, t, al, st⟩
  else
    let r := tiny6212_setup_transfer bus hw (t.speed_hz % 4294967296) (mode % 256)
    if r.1 < 0 then ⟨r.2, t, al, r.1⟩
    else
      let do_transfer := t.cs_change || is_last
      if t.len ≠ 0 then
        let x := tiny6212_txrx bus r.2 t do_transfer
        if x.1 < 0 then ⟨x.2.1, x.2.2, al, x.1⟩
        else ⟨x.2.1, x.2.2, (al + u32 x.1) % 4294967296, 0⟩
      else ⟨r.2, t, al, 0⟩

/-- Outcome of the segment loop. -/
structure LoopOut where
  hw : tiny6212
  transfers : List spi_transfer
  actual_length : Nat
  status : Int
  deriving DecidableEq, Repr

/-- Lines 128-147: the walk over the segments that remain.  `more` tells
whether the message holds further segments behind the given list, so that
`list_is_last` is `rest.isEmpty && !more`; the driver runs it on the whole
list with `more = false`. -/
def transfer_loop (bus : I2cBus) (mode : Nat) (more : Bool) :
    tiny6212 → Nat → List spi_transfer → LoopOut
  | hw, al, [] => ⟨hw, [], al, 0⟩
  | hw, al, t :: rest =>
    let it := transfer_body bus mode hw al t (rest.isEmpty && !more)
    if it.status < 0 then ⟨it.hw, it.t :: rest, it.actual_length, it.status⟩
    else
      let o := transfer_loop bus mode more it.hw it.actual_length rest
      ⟨o.hw, it.t :: o.transfers, o.actual_length, o.status⟩

/-- The function `tiny6212_transfer_one`: return value, session and message
after the call. -/
def tiny6212_transfer_one (bus : I2cBus) (hw : tiny6212) (m : spi_message) :
    Int × tiny6212 × spi_message :=
  let o := transfer_loop bus m.mode false { hw with tlen := 0 } m.actual_length m.transfers
  (o.status, o.hw,
    { m with transfers := o.transfers, actual_length := o.actual_length,
             status := o.status, finalized := m.finalized + 1 })

/-- The function `tiny6212_max_transfer_size`. -/
def tiny6212_max_transfer_size : Nat := TINY6212_BUFSIZ

/-- The session as `tiny6212_probe` leaves it: zeroed allocation, base
frequency and default control byte set. -/
def probe_session : tiny6212 :=
  { ctrl := TINY6212_MODE_DEFAULT, freq := TINY6212_CLOCK, client := [],
    rbuf := List.replicate (TINY6212_BUFSIZ + 1) 0,
    wbuf := List.replicate (TINY6212_BUFSIZ + 1) 0, tlen := 0 }

/-! ## Specification-side definitions and concrete inputs -/

/-- Decoding of the divisor field of a control byte (bits 3-5 hold the code
`k` of the divisor `2^(k+1)`), after the names `TINY6212_MODE_CLOCK_DIV_*`. -/
def divisor_of_ctrl (ctrl : Nat) : Nat := 2 ^ ((ctrl >>> 3) % 8 + 1)

/-- The ordered divisor set of the companion. -/
def divisors : List Nat := [2, 4, 8, 16, 32, 64, 128]

/-- The divisor `div` of the first test `F(div)` of lines 95-101 that succeeds,
128 when none does. -/
def selected_div (freq hz : Nat) : Nat :=
  if hz ≥ freq / 2 then 2
  else if hz ≥ freq / 4 then 4
  else if hz ≥ freq / 8 then 8
  else if hz ≥ freq / 16 then 16
  else if hz ≥ freq / 32 then 32
  else if hz ≥ freq / 64 then 64
  else 128

/-- The outbound bytes a segment contributes to the write buffer. -/
def outbound (t : spi_transfer) : List Nat :=
  match t.tx_buf with
  | some tx => tx.take t.len
  | none => []

/-- The write buffer is empty (cursor 0, nothing pending), or it holds the
TRANSMIT header followed by the pending outbound bytes `pend`, the cursor
standing right behind them. -/
def Framed (hw : tiny6212) (pend : List Nat) : Prop :=
  (hw.tlen = 0 ∧ pend = []) ∨
  (hw.tlen = ((1 + pend.length : Nat) : Int) ∧
    hw.wbuf.take (1 + pend.length) = TINY6212_CMD_TRANSMIT :: pend)

instance (hw : tiny6212) (pend : List Nat) : Decidable (Framed hw pend) :=
  inferInstanceAs (Decidable (_ ∨ _))

/-- A CONFIGURE frame: a send of exactly `[0x02, control byte]`. -/
def is_configure : I2cCall → Bool
  | .send [2, _] => true
  | _ => false

/-- A TRANSMIT frame: a send whose first byte is `0x01`. -/
def is_transmit : I2cCall → Bool
  | .send (1 :: _) => true
  | _ => false

/-- A receive call. -/
def is_recv : I2cCall → Bool
  | .recv _ => true
  | _ => false

/-- A write-only segment of nonzero length that does not mark
chip-select-change and whose buffer holds exactly `len` bytes. -/
def write_only (t : spi_transfer) : Prop :=
  t.rx_buf = none ∧ t.tx_buf.map List.length = some t.len ∧ t.len ≠ 0 ∧
    t.cs_change = false

instance (t : spi_transfer) : Decidable (write_only t) :=
  inferInstanceAs (Decidable (_ ∧ _ ∧ _ ∧ _))

/-- A transport on which every send is accepted in full and the receive that
is the `k`-th call delivers the byte `100 + k`. -/
def demo_bus : I2cBus := fun k c =>
  match c with
  | .send b => ⟨(b.length : Int), 0⟩
  | .recv _ => ⟨1, 100 + k⟩

/-- A write-only segment of `n` bytes, each equal to `b`, at full speed. -/
def demo_write (n b : Nat) : spi_transfer :=
  { tx_buf := some (List.replicate n b), rx_buf := none, len := n, speed_hz := 8000000,
    cs_change := false }

/-- A fresh message over the given segments in bus mode 0. -/
def demo_message (ts : List spi_transfer) : spi_message :=
  { transfers := ts, mode := 0, actual_length := 0, status := 0, finalized := 0 }

/-- The loop state on entry to the segment that follows the segments `pre`
of message `m`, the cursor having been reset at the start of the message. -/
def segment_entry (bus : I2cBus) (hw : tiny6212) (m : spi_message) (pre : List spi_transfer) :
    LoopOut :=
  transfer_loop bus m.mode true { hw with tlen := 0 } m.actual_length pre

/-- The session of segment `t` right before the flush decision: configuration
applied, header and outbound data framed. -/
def framed_session (bus : I2cBus) (mode : Nat) (hw : tiny6212) (t : spi_transfer)
    (is_last : Bool) : tiny6212 :=
  (txrx_frame (tiny6212_setup_transfer bus hw (t.speed_hz % 4294967296) (mode % 256)).2 t
    (t.cs_change || is_last)).1

/-- The flush decision of segment `t` after framing. -/
def flush_requested (bus : I2cBus) (mode : Nat) (hw : tiny6212) (t : spi_transfer)
    (is_last : Bool) : Bool :=
  (txrx_frame (tiny6212_setup_transfer bus hw (t.speed_hz % 4294967296) (mode % 256)).2 t
    (t.cs_change || is_last)).2

/-- Between segments of a message the cursor is 0, or it lies in `1..130` and
the write buffer starts with the TRANSMIT header. -/
def Hdr (hw : tiny6212) : Prop :=
  hw.tlen = 0 ∨ (1 ≤ hw.tlen ∧ hw.tlen ≤ 130 ∧ hw.wbuf.head? = some TINY6212_CMD_TRANSMIT)

instance (hw : tiny6212) : Decidable (Hdr hw) :=
  inferInstanceAs (Decidable (_ ∨ _))

/-- Successive messages, dispatched to the driver one at a time by the host
framework; the session is carried from one message to the next. -/
def transfer_messages (bus : I2cBus) : tiny6212 → List spi_message → tiny6212
  | hw, [] => hw
  | hw, m :: ms => transfer_messages bus (tiny6212_transfer_one bus hw m).2.1 ms

/-- A transport that accepts one byte less than requested on every send. -/
def short_bus : I2cBus := fun _ c =>
  match c with
  | .send b => ⟨(b.length : Int) - 1, 0⟩
  | .recv _ => ⟨1, 0⟩

/-- The outcome of the loop body for segment `t` of the message
`m.transfers = pre ++ t :: post`, entered from the state the segments `pre`
leave behind; `t` is the last segment exactly when `post` is empty. -/
def segment_result (bus : I2cBus) (hw : tiny6212) (m : spi_message)
    (pre : List spi_transfer) (t : spi_transfer) (post : List spi_transfer) : Iter :=
  transfer_body bus m.mode (segment_entry bus hw m pre).hw
    (segment_entry bus hw m pre).actual_length t post.isEmpty

/-- A segment of length 0 without buffers. -/
def demo_empty (cs : Bool) : spi_transfer :=
  { tx_buf := none, rx_buf := none, len := 0, speed_hz := 8000000, cs_change := cs }

/-- A read-only segment of `n` bytes at full speed, not marking chip-select-change. -/
def demo_read (n : Nat) : spi_transfer :=
  { tx_buf := none, rx_buf := some (List.replicate n 0), len := n, speed_hz := 8000000,
    cs_change := false }

/-- The session at the start of the read phase of `tiny6212_txrx` (line 72):
header and outbound data framed, flush done when it was due. -/
def recv_entry (bus : I2cBus) (hw : tiny6212) (t : spi_transfer) (d : Bool) : tiny6212 :=
  (txrx_flush bus (txrx_frame hw t d).1 (txrx_frame hw t d).2).2

/-- A transport that accepts every send in full and on which the call of
index 2, when it is a receive, reports zero bytes. -/
def stall_bus : I2cBus := fun k c =>
  match c with
  | .send b => ⟨(b.length : Int), 0⟩
  | .recv _ => if k = 2 then ⟨0, 0⟩ else ⟨1, 100 + k⟩

/-- The payload of a call: the bytes behind the `0x01` header of a TRANSMIT
frame; a CONFIGURE frame or a receive carries none. -/
def payload : I2cCall → List Nat
  | .send (1 :: b) => b
  | _ => []

/-- The payloads of the TRANSMIT frames of a log, concatenated in send order. -/
def payloads (calls : List I2cCall) : List Nat := (calls.map payload).flatten

/-- A call of one of the three shapes the driver is meant to issue: a
CONFIGURE frame, a TRANSMIT frame with at least one payload byte, or a
one-byte receive. -/
def regular_call (c : I2cCall) : Prop :=
  (∃ ctrl, c = I2cCall.send [2, ctrl]) ∨ (∃ x xs, c = I2cCall.send (1 :: x :: xs)) ∨
    c = I2cCall.recv 1

/-- Two sessions agree on everything the driver reads before writing it: the
cached control byte, the base frequency, the transport log, the cursor and
the framed part of the write buffer.  The rest of the write buffer and the
whole scratch buffer may differ. -/
def Agree (a b : tiny6212) : Prop :=
  a.ctrl = b.ctrl ∧ a.freq = b.freq ∧ a.client = b.client ∧ a.tlen = b.tlen ∧
    a.wbuf.take a.tlen.toNat = b.wbuf.take b.tlen.toNat ∧
    a.tlen.toNat ≤ a.wbuf.length ∧ b.tlen.toNat ≤ b.wbuf.length

/-- A session as a failed message may leave it: the cursor in the middle of a
frame and both buffers holding old bytes. -/
def stale_session : tiny6212 :=
  { probe_session with tlen := 57, wbuf := List.replicate (TINY6212_BUFSIZ + 1) 9,
                       rbuf := List.replicate (TINY6212_BUFSIZ + 1) 3 }

/-! ## Lemmas -/

theorem setup_ctrl_flags (freq hz mode : Nat) :
    ∃ f < 8, setup_ctrl freq hz mode = f ||| clock_div_field freq hz ∧
      (f.testBit 0 = true ↔ mode &&& SPI_CPOL ≠ 0) ∧
      (f.testBit 1 = true ↔ mode &&& SPI_CPHA ≠ 0) ∧
      (f.testBit 2 = true ↔ mode &&& SPI_LSB_FIRST = 0) := by
  unfold setup_ctrl
  split_ifs <;> refine ⟨_, ?_, rfl, ?_, ?_, ?_⟩ <;>
    first
    | decide
    | exact iff_of_true (by decide) (by assumption)
    | exact iff_of_false (by decide) (by assumption)

theorem decode_field : ∀ f < 8, ∀ k < 7, ((f ||| (k <<< 3)) >>> 3) % 8 = k ∧
    (f ||| (k <<< 3)) < 64 ∧ (f ||| (k <<< 3)).testBit 0 = f.testBit 0 ∧
    (f ||| (k <<< 3)).testBit 1 = f.testBit 1 ∧ (f ||| (k <<< 3)).testBit 2 = f.testBit 2 := by
  decide

theorem clock_div_field_code (freq hz : Nat) :
    ∃ k < 7, clock_div_field freq hz = k <<< 3 ∧
      (∀ j < k, hz < freq / 2 ^ (j + 1)) ∧ (k < 6 → hz ≥ freq / 2 ^ (k + 1)) := by
  simp only [clock_div_field]
  split_ifs with h2 h4 h8 h16 h32 h64
  · exact ⟨0, by decide, rfl, by simp, fun _ => by simpa using h2⟩
  · refine ⟨1, by decide, rfl, ?_, fun _ => by simpa using h4⟩
    intro j hj
    interval_cases j
    simp only [Nat.zero_add, Nat.pow_one]
    omega
  · refine ⟨2, by decide, rfl, ?_, fun _ => by simpa using h8⟩
    intro j hj; interval_cases j <;> simp <;> omega
  · refine ⟨3, by decide, rfl, ?_, fun _ => by simpa using h16⟩
    intro j hj; interval_cases j <;> simp <;> omega
  · refine ⟨4, by decide, rfl, ?_, fun _ => by simpa using h32⟩
    intro j hj; interval_cases j <;> simp <;> omega
  · refine ⟨5, by decide, rfl, ?_, fun _ => by simpa using h64⟩
    intro j hj; interval_cases j <;> simp <;> omega
  · refine ⟨6, by decide, rfl, ?_, fun h => absurd h (by decide)⟩
    intro j hj; interval_cases j <;> simp <;> omega

theorem setup_ctrl_code (freq hz mode : Nat) :
    ∃ k < 7, divisor_of_ctrl (setup_ctrl freq hz mode) = 2 ^ (k + 1) ∧
      (setup_ctrl freq hz mode >>> 3) % 8 = k ∧
      (∀ j < k, hz < freq / 2 ^ (j + 1)) ∧ (k < 6 → hz ≥ freq / 2 ^ (k + 1)) := by
  obtain ⟨f, hf, hc, -⟩ := setup_ctrl_flags freq hz mode
  obtain ⟨k, hk, hd, hlt, hge⟩ := clock_div_field_code freq hz
  refine ⟨k, hk, ?_, ?_, hlt, hge⟩
  · rw [divisor_of_ctrl, hc, hd, (decode_field f hf k hk).1]
  · rw [hc, hd, (decode_field f hf k hk).1]

theorem mem_divisors (e : Nat) : e ∈ divisors ↔ ∃ j < 7, e = 2 ^ (j + 1) := by
  constructor
  · intro h
    simp only [divisors, List.mem_cons, List.mem_singleton, List.not_mem_nil, or_false] at h
    rcases h with h | h | h | h | h | h | h
    · exact ⟨0, by decide, h⟩
    · exact ⟨1, by decide, h⟩
    · exact ⟨2, by decide, h⟩
    · exact ⟨3, by decide, h⟩
    · exact ⟨4, by decide, h⟩
    · exact ⟨5, by decide, h⟩
    · exact ⟨6, by decide, h⟩
  · rintro ⟨j, hj, rfl⟩
    interval_cases j <;> simp [divisors]

theorem clock_div_field_selected (freq hz : Nat) :
    ∃ k < 7, clock_div_field freq hz = k <<< 3 ∧ selected_div freq hz = 2 ^ (k + 1) := by
  simp only [clock_div_field, selected_div]
  split_ifs
  · exact ⟨0, by decide, rfl, rfl⟩
  · exact ⟨1, by decide, rfl, rfl⟩
  · exact ⟨2, by decide, rfl, rfl⟩
  · exact ⟨3, by decide, rfl, rfl⟩
  · exact ⟨4, by decide, rfl, rfl⟩
  · exact ⟨5, by decide, rfl, rfl⟩
  · exact ⟨6, by decide, rfl, rfl⟩

theorem setup_transfer_eq (bus : I2cBus) (hw : tiny6212) (hz mode : Nat) :
    tiny6212_setup_transfer bus hw hz mode =
      if setup_ctrl hw.freq hz mode = hw.ctrl then (0, hw)
      else if (bus hw.client.length (I2cCall.send [2, setup_ctrl hw.freq hz mode])).ret < 0 then
        ((bus hw.client.length (I2cCall.send [2, setup_ctrl hw.freq hz mode])).ret,
          { hw with client := hw.client ++ [I2cCall.send [2, setup_ctrl hw.freq hz mode]] })
      else
        (0, { hw with client := hw.client ++ [I2cCall.send [2, setup_ctrl hw.freq hz mode]],
                      ctrl := setup_ctrl hw.freq hz mode }) := rfl

theorem setup_transfer_client (bus : I2cBus) (hw : tiny6212) (hz mode : Nat) :
    (tiny6212_setup_transfer bus hw hz mode).2.client =
      if setup_ctrl hw.freq hz mode = hw.ctrl then hw.client
      else hw.client ++ [I2cCall.send [2, setup_ctrl hw.freq hz mode]] := by
  rw [setup_transfer_eq]
  split_ifs <;> rfl

theorem u32_natCast (n : Nat) (h : n < 4294967296) : u32 (n : Int) = n := by
  unfold u32
  omega

theorem s32_of_lt (n : Nat) (h : n < 2147483648) : s32 n = (n : Int) := by
  unfold s32
  have h1 : n % 4294967296 = n := Nat.mod_eq_of_lt (by omega)
  rw [h1, if_pos h]

theorem memcpy_length (dst : List Nat) (off : Nat) (src : List Nat) :
    (memcpy dst off src).length = max dst.length (off + src.length) := by
  simp only [memcpy, List.length_append, List.length_take, List.length_replicate,
    List.length_drop]
  omega

theorem memcpy_take (dst : List Nat) (off : Nat) (src : List Nat) :
    (memcpy dst off src).take (off + src.length) =
      dst.take off ++ List.replicate (off - dst.length) 0 ++ src := by
  unfold memcpy
  rw [List.take_append_eq_append_take, List.take_of_length_le]
  · simp only [List.length_append, List.length_take, List.length_replicate]
    have : off + src.length - (min off dst.length + (off - dst.length) + src.length) = 0 := by
      omega
    rw [this, List.take_zero, List.append_nil]
  · simp only [List.length_append, List.length_take, List.length_replicate]
    omega

theorem memcpy_take_of_prefix (dst : List Nat) (off : Nat) (src p : List Nat)
    (hp : dst.take off = p) (hl : p.length = off) :
    (memcpy dst off src).take (off + src.length) = p ++ src := by
  rw [memcpy_take]
  have : off ≤ dst.length := by
    rw [← hp, List.length_take] at hl
    omega
  rw [Nat.sub_eq_zero_of_le this, hp]
  simp

theorem memcpy_zero_take (dst : List Nat) (src : List Nat) :
    (memcpy dst 0 src).take src.length = src := by
  have := memcpy_take dst 0 src
  simpa using this

theorem outbound_length (t : spi_transfer)
    (hwf : ∀ b, t.tx_buf = some b → b.length = t.len) :
    (outbound t).length = if t.tx_buf.isSome then t.len else 0 := by
  unfold outbound
  cases h : t.tx_buf with
  | none => rfl
  | some tx => simp [hwf tx h]

theorem txrx_frame_spec (hw : tiny6212) (t : spi_transfer) (d : Bool) (pend : List Nat)
    (hF : Framed hw pend) (hcap : pend.length + t.len < 2147483647)
    (hwf : ∀ b, t.tx_buf = some b → b.length = t.len) :
    (txrx_frame hw t d).1.tlen = ((1 + (pend ++ outbound t).length : Nat) : Int) ∧
    (txrx_frame hw t d).1.wbuf.take (1 + (pend ++ outbound t).length) =
      TINY6212_CMD_TRANSMIT :: (pend ++ outbound t) ∧
    (txrx_frame hw t d).1.client = hw.client ∧ (txrx_frame hw t d).1.ctrl = hw.ctrl ∧
    (txrx_frame hw t d).1.freq = hw.freq ∧ (txrx_frame hw t d).1.rbuf = hw.rbuf ∧
    (txrx_frame hw t d).2 = (d || (t.tx_buf.isSome && t.rx_buf.isSome)) := by
  -- the state once the header is established
  have hdr : ∃ h1 : tiny6212, (if hw.tlen = 0 then
        { hw with wbuf := memcpy hw.wbuf 0 [TINY6212_CMD_TRANSMIT], tlen := 1 } else hw) = h1 ∧
      h1.tlen = ((1 + pend.length : Nat) : Int) ∧
      h1.wbuf.take (1 + pend.length) = TINY6212_CMD_TRANSMIT :: pend ∧
      h1.client = hw.client ∧ h1.ctrl = hw.ctrl ∧ h1.freq = hw.freq ∧ h1.rbuf = hw.rbuf := by
    rcases hF with ⟨h0, hp⟩ | ⟨h1, hb⟩
    · subst hp
      refine ⟨_, rfl, ?_⟩
      rw [if_pos h0]
      exact ⟨rfl, memcpy_zero_take hw.wbuf [TINY6212_CMD_TRANSMIT], rfl, rfl, rfl, rfl⟩
    · refine ⟨_, rfl, ?_⟩
      rw [if_neg (by rw [h1]; omega)]
      exact ⟨h1, hb, rfl, rfl, rfl, rfl⟩
  obtain ⟨h1, he, ht, hb, hc1, hc2, hc3, hc4⟩ := hdr
  unfold txrx_frame
  simp only [he]
  cases htx : t.tx_buf with
  | none =>
    simp only [outbound, htx, List.append_nil, Option.isSome_none, Bool.false_and,
      Bool.or_false]
    exact ⟨ht, hb, hc1, hc2, hc3, hc4, trivial⟩
  | some tx =>
    have hl := hwf tx htx
    have hout : outbound t = tx := by
      simp only [outbound, htx]
      exact List.take_of_length_le (by omega)
    simp only [hout, Option.isSome_some, Bool.true_and]
    refine ⟨?_, ?_, hc1, hc2, hc3, hc4, trivial⟩
    · rw [ht, u32_natCast _ (by omega), List.length_append, hl]
      rw [s32_of_lt _ (by omega)]
      congr 1
      omega
    · rw [ht, Int.toNat_ofNat, List.take_of_length_le (le_of_eq hl), List.length_append,
        ← Nat.add_assoc]
      have := memcpy_take_of_prefix h1.wbuf (1 + pend.length) tx (TINY6212_CMD_TRANSMIT :: pend)
        hb (by simp; omega)
      simpa using this

theorem memcpy_full (dst src : List Nat) (h : dst.length ≤ src.length) :
    memcpy dst 0 src = src := by
  unfold memcpy
  simp [List.drop_of_length_le h]

theorem txrx_flush_skip (bus : I2cBus) (hw : tiny6212) (d : Bool)
    (h : d = false ∨ hw.tlen ≤ 1) : txrx_flush bus hw d = (none, hw) := by
  unfold txrx_flush
  rw [if_neg]
  rcases h with h | h
  · simp [h]
  · simp only [Bool.and_eq_true, decide_eq_true_eq, not_and, not_lt]
    exact fun _ => h

theorem txrx_flush_eq (bus : I2cBus) (hw : tiny6212) (d : Bool) (frame : List Nat)
    (hd : d = true) (hlen : hw.tlen = (frame.length : Int)) (h1 : 1 < frame.length)
    (hfr : hw.wbuf.take frame.length = frame) :
    txrx_flush bus hw d =
      if (bus hw.client.length (I2cCall.send frame)).ret < 0 then
        (some (bus hw.client.length (I2cCall.send frame)).ret,
          { hw with client := hw.client ++ [I2cCall.send frame] })
      else if (bus hw.client.length (I2cCall.send frame)).ret ≠ (frame.length : Int) then
        (some (- EIO_errno), { hw with client := hw.client ++ [I2cCall.send frame] })
      else (none, { hw with client := hw.client ++ [I2cCall.send frame], tlen := 0 }) := by
  unfold txrx_flush i2c_master_send
  have hgt : hw.tlen > 1 := by rw [hlen]; omega
  rw [if_pos (by simp [hd, hgt])]
  simp only [hlen, Int.toNat_ofNat, hfr]

theorem recv_loop_ok (bus : I2cBus) (k : Nat) : ∀ (hw : tiny6212) (j : Nat),
    j ≤ hw.rbuf.length →
    (∀ i < k, 0 < (bus (hw.client.length + i) (I2cCall.recv 1)).ret) →
    (recv_loop bus hw j k).1 = none ∧
    (recv_loop bus hw j k).2.client = hw.client ++ List.replicate k (I2cCall.recv 1) ∧
    (recv_loop bus hw j k).2.rbuf.take (j + k) =
      hw.rbuf.take j ++
        (List.range k).map (fun i => (bus (hw.client.length + i) (I2cCall.recv 1)).data) ∧
    (recv_loop bus hw j k).2.tlen = hw.tlen ∧ (recv_loop bus hw j k).2.wbuf = hw.wbuf ∧
    (recv_loop bus hw j k).2.ctrl = hw.ctrl ∧ (recv_loop bus hw j k).2.freq = hw.freq := by
  induction k with
  | zero =>
    intro hw j _ _
    simp [recv_loop]
  | succ k ih =>
    intro hw j hj hbus
    have h0 := hbus 0 (Nat.succ_pos k)
    rw [Nat.add_zero] at h0
    obtain ⟨hw1, hdef⟩ : ∃ hw1 : tiny6212, hw1 = { hw with
        client := hw.client ++ [I2cCall.recv 1],
        rbuf := memcpy hw.rbuf j [(bus hw.client.length (I2cCall.recv 1)).data] } := ⟨_, rfl⟩
    have hstep : recv_loop bus hw j (k + 1) = recv_loop bus hw1 (j + 1) k := by
      simp only [recv_loop, i2c_master_recv, show (1 : Int).toNat = 1 from rfl]
      rw [if_neg (not_lt.2 (le_of_lt h0)), if_neg (ne_of_gt h0), hdef]
    have hlenm := memcpy_length hw.rbuf j [(bus hw.client.length (I2cCall.recv 1)).data]
    have htk := memcpy_take hw.rbuf j [(bus hw.client.length (I2cCall.recv 1)).data]
    simp only [List.length_singleton] at hlenm htk
    have hc1 : hw1.client = hw.client ++ [I2cCall.recv 1] := by rw [hdef]
    have hr1 : hw1.rbuf = memcpy hw.rbuf j [(bus hw.client.length (I2cCall.recv 1)).data] := by
      rw [hdef]
    have hbus2 : ∀ i < k, 0 < (bus (hw1.client.length + i) (I2cCall.recv 1)).ret := by
      intro i hi
      have := hbus (i + 1) (by omega)
      rw [hc1, List.length_append, List.length_singleton]
      rwa [show hw.client.length + 1 + i = hw.client.length + (i + 1) by omega]
    have hj1 : j + 1 ≤ hw1.rbuf.length := by rw [hr1, hlenm]; omega
    obtain ⟨r1, r2, r3, r4, r5, r6, r7⟩ := ih hw1 (j + 1) hj1 hbus2
    rw [hstep]
    refine ⟨r1, ?_, ?_, ?_, ?_, ?_, ?_⟩
    · rw [r2, hc1]
      simp [List.replicate_succ]
    · rw [show j + (k + 1) = j + 1 + k by omega, r3, hr1, htk,
        Nat.sub_eq_zero_of_le hj, List.replicate_zero, List.append_nil,
        List.range_succ_eq_map, List.map_cons, List.map_map, hc1]
      simp only [List.append_assoc, List.singleton_append, Nat.add_zero, List.length_append,
        List.length_singleton]
      congr 2
      apply List.map_congr_left
      intro i _
      simp only [Function.comp, Nat.succ_eq_add_one]
      rw [show hw.client.length + 1 + i = hw.client.length + (i + 1) by omega]
    · rw [r4, hdef]
    · rw [r5, hdef]
    · rw [r6, hdef]
    · rw [r7, hdef]

theorem Framed_congr (hw hw1 : tiny6212) (pend : List Nat) (ht : hw1.tlen = hw.tlen)
    (hb : hw1.wbuf = hw.wbuf) (hF : Framed hw pend) : Framed hw1 pend := by
  unfold Framed at *
  rw [ht, hb]
  exact hF

theorem check_transfer_ok (hw : tiny6212) (t : spi_transfer) (pend : List Nat)
    (hF : Framed hw pend) (hn : 1 ≤ t.len) (hcap : pend.length + t.len ≤ TINY6212_BUFSIZ) :
    tiny6212_check_transfer t hw.tlen = 0 := by
  have hcap2 : pend.length + t.len ≤ 128 := hcap
  unfold tiny6212_check_transfer
  rw [if_neg]
  rcases hF with ⟨h0, -⟩ | ⟨h1, -⟩
  · rw [h0]
    simp only [u32, TINY6212_BUFSIZ]
    omega
  · rw [h1, u32_natCast _ (by omega)]
    simp only [TINY6212_BUFSIZ]
    omega

theorem setup_transfer_ok (bus : I2cBus) (hw : tiny6212) (hz mode : Nat)
    (hsend : ∀ k b, (bus k (I2cCall.send b)).ret = (b.length : Int)) :
    (tiny6212_setup_transfer bus hw hz mode).1 = 0 ∧
    (∃ cfgs, (∀ c ∈ cfgs, is_configure c = true) ∧
      (tiny6212_setup_transfer bus hw hz mode).2.client = hw.client ++ cfgs) ∧
    (tiny6212_setup_transfer bus hw hz mode).2.tlen = hw.tlen ∧
    (tiny6212_setup_transfer bus hw hz mode).2.wbuf = hw.wbuf ∧
    (tiny6212_setup_transfer bus hw hz mode).2.rbuf = hw.rbuf ∧
    (tiny6212_setup_transfer bus hw hz mode).2.freq = hw.freq := by
  rw [setup_transfer_eq]
  by_cases hc : setup_ctrl hw.freq hz mode = hw.ctrl
  · rw [if_pos hc]
    exact ⟨rfl, ⟨[], by simp, by simp⟩, rfl, rfl, rfl, rfl⟩
  · rw [if_neg hc, if_neg (by rw [hsend]; omega)]
    refine ⟨rfl, ⟨[I2cCall.send [2, setup_ctrl hw.freq hz mode]], ?_, rfl⟩, rfl, rfl, rfl, rfl⟩
    intro c hcm
    rw [List.mem_singleton] at hcm
    rw [hcm]
    rfl

theorem txrx_write_only (bus : I2cBus) (hw : tiny6212) (t : spi_transfer) (d : Bool)
    (pend tx : List Nat) (hF : Framed hw pend)
    (htx : t.tx_buf = some tx) (hrx : t.rx_buf = none) (htl : tx.length = t.len)
    (hn : 1 ≤ t.len) (hcap : pend.length + t.len ≤ TINY6212_BUFSIZ)
    (hsend : ∀ k b, (bus k (I2cCall.send b)).ret = (b.length : Int)) :
    (tiny6212_txrx bus hw t d).1 = (t.len : Int) ∧
    (tiny6212_txrx bus hw t d).2.2 = t ∧
    (d = true → (tiny6212_txrx bus hw t d).2.1.client =
        hw.client ++ [I2cCall.send (1 :: (pend ++ tx))] ∧
      (tiny6212_txrx bus hw t d).2.1.tlen = 0) ∧
    (d = false → (tiny6212_txrx bus hw t d).2.1.client = hw.client ∧
      Framed (tiny6212_txrx bus hw t d).2.1 (pend ++ tx)) := by
  have hcap2 : pend.length + t.len ≤ 128 := hcap
  have hwf : ∀ b, t.tx_buf = some b → b.length = t.len := by
    intro b hb
    rw [htx] at hb
    cases hb
    exact htl
  have hout : outbound t = tx := by
    simp only [outbound, htx]
    exact List.take_of_length_le (by omega)
  obtain ⟨f1, f2, f3, -, -, -, f7⟩ := txrx_frame_spec hw t d pend hF (by omega) hwf
  rw [hout] at f1 f2
  have hd : (txrx_frame hw t d).2 = d := by
    rw [f7, htx, hrx]
    simp
  cases d with
  | true =>
    have hfl := txrx_flush_eq bus (txrx_frame hw t true).1 (txrx_frame hw t true).2
      (TINY6212_CMD_TRANSMIT :: (pend ++ tx)) hd
      (by rw [f1, List.length_cons]; congr 1; omega)
      (by simp only [List.length_cons, List.length_append]; omega)
      (by rw [List.length_cons, Nat.add_comm]; exact f2)
    rw [if_neg (by rw [hsend]; omega), if_neg (by rw [hsend]; simp)] at hfl
    have hres : tiny6212_txrx bus hw t true = (s32 t.len,
        { (txrx_frame hw t true).1 with
          client := (txrx_frame hw t true).1.client ++
            [I2cCall.send (TINY6212_CMD_TRANSMIT :: (pend ++ tx))], tlen := 0 }, t) := by
      unfold tiny6212_txrx
      simp only [hfl, hrx]
    rw [hres]
    refine ⟨s32_of_lt _ (by omega), rfl, fun _ => ⟨?_, rfl⟩, fun h => absurd h (by decide)⟩
    simp only [f3]
    rfl
  | false =>
    have hfl := txrx_flush_skip bus (txrx_frame hw t false).1 (txrx_frame hw t false).2
      (Or.inl hd)
    have hres : tiny6212_txrx bus hw t false = (s32 t.len, (txrx_frame hw t false).1, t) := by
      unfold tiny6212_txrx
      simp only [hfl, hrx]
    rw [hres]
    refine ⟨s32_of_lt _ (by omega), rfl, fun h => absurd h (by decide), fun _ => ⟨f3, ?_⟩⟩
    exact Or.inr ⟨f1, f2⟩

theorem write_only_tx (t : spi_transfer) (h : write_only t) :
    ∃ b, t.tx_buf = some b ∧ b.length = t.len := by
  obtain ⟨-, h2, -, -⟩ := h
  cases htx : t.tx_buf with
  | none => rw [htx] at h2; simp at h2
  | some b =>
    rw [htx] at h2
    simp only [Option.map_some', Option.some.injEq] at h2
    exact ⟨b, rfl, h2⟩

theorem outbound_write_only (t : spi_transfer) (tx : List Nat) (htx : t.tx_buf = some tx)
    (htl : tx.length = t.len) : outbound t = tx := by
  simp only [outbound, htx]
  exact List.take_of_length_le (by omega)

theorem body_write_only (bus : I2cBus) (mode : Nat) (hw : tiny6212) (al : Nat)
    (t : spi_transfer) (is_last : Bool) (pend : List Nat) (hF : Framed hw pend)
    (hwo : write_only t) (hcap : pend.length + t.len ≤ TINY6212_BUFSIZ)
    (hsend : ∀ k b, (bus k (I2cCall.send b)).ret = (b.length : Int)) :
    (transfer_body bus mode hw al t is_last).status = 0 ∧
    (transfer_body bus mode hw al t is_last).t = t ∧
    (transfer_body bus mode hw al t is_last).actual_length = (al + t.len) % 4294967296 ∧
    ∃ cfgs, (∀ c ∈ cfgs, is_configure c = true) ∧
      (is_last = true →
        (transfer_body bus mode hw al t is_last).hw.client =
          hw.client ++ cfgs ++ [I2cCall.send (1 :: (pend ++ outbound t))] ∧
        (transfer_body bus mode hw al t is_last).hw.tlen = 0) ∧
      (is_last = false →
        (transfer_body bus mode hw al t is_last).hw.client = hw.client ++ cfgs ∧
        Framed (transfer_body bus mode hw al t is_last).hw (pend ++ outbound t)) := by
  obtain ⟨tx, htx, htl⟩ := write_only_tx t hwo
  obtain ⟨hrx, -, hn0, hcs⟩ := hwo
  have hn : 1 ≤ t.len := Nat.pos_of_ne_zero hn0
  have hcap2 : pend.length + t.len ≤ 128 := hcap
  have hchk := check_transfer_ok hw t pend hF hn hcap
  obtain ⟨s1, ⟨cfgs, hcf, s2⟩, s3, s4, -, -⟩ :=
    setup_transfer_ok bus hw (t.speed_hz % 4294967296) (mode % 256) hsend
  have hF1 := Framed_congr hw _ pend s3 s4 hF
  obtain ⟨x1, x2, x3, x4⟩ := txrx_write_only bus
    (tiny6212_setup_transfer bus hw (t.speed_hz % 4294967296) (mode % 256)).2 t
    (t.cs_change || is_last) pend tx hF1 htx hrx htl hn hcap hsend
  have hres : transfer_body bus mode hw al t is_last =
      ⟨(tiny6212_txrx bus (tiny6212_setup_transfer bus hw (t.speed_hz % 4294967296)
          (mode % 256)).2 t (t.cs_change || is_last)).2.1, t,
        (al + t.len) % 4294967296, 0⟩ := by
    unfold transfer_body
    simp only [hchk, s1, lt_self_iff_false, if_false, if_pos hn0, x1, x2]
    rw [if_neg (by omega), u32_natCast _ (by omega)]
  rw [hres, outbound_write_only t tx htx htl]
  refine ⟨rfl, rfl, rfl, cfgs, hcf, ?_, ?_⟩
  · intro hl
    have := x3 (by rw [hcs, hl]; rfl)
    rw [s2] at this
    exact this
  · intro hl
    have := x4 (by rw [hcs, hl]; rfl)
    rw [s2] at this
    exact this

theorem loop_write_only (bus : I2cBus) (mode : Nat) (more : Bool)
    (hsend : ∀ k b, (bus k (I2cCall.send b)).ret = (b.length : Int)) :
    ∀ (ts : List spi_transfer) (hw : tiny6212) (al : Nat) (pend : List Nat),
    Framed hw pend → (∀ t ∈ ts, write_only t) →
    pend.length + (ts.map spi_transfer.len).sum ≤ TINY6212_BUFSIZ →
    al + (ts.map spi_transfer.len).sum < 4294967296 →
    (transfer_loop bus mode more hw al ts).status = 0 ∧
    (transfer_loop bus mode more hw al ts).transfers = ts ∧
    (transfer_loop bus mode more hw al ts).actual_length =
      al + (ts.map spi_transfer.len).sum ∧
    ∃ cfgs, (∀ c ∈ cfgs, is_configure c = true) ∧
      ((more = false ∧ ts ≠ []) →
        (transfer_loop bus mode more hw al ts).hw.client =
          hw.client ++ cfgs ++ [I2cCall.send (1 :: (pend ++ (ts.map outbound).flatten))] ∧
        (transfer_loop bus mode more hw al ts).hw.tlen = 0) ∧
      ((more = true ∨ ts = []) →
        (transfer_loop bus mode more hw al ts).hw.client = hw.client ++ cfgs ∧
        Framed (transfer_loop bus mode more hw al ts).hw (pend ++ (ts.map outbound).flatten))
    := by
  intro ts
  induction ts with
  | nil =>
    intro hw al pend hF _ _ _
    refine ⟨rfl, rfl, rfl, [], by simp, ?_, ?_⟩
    · rintro ⟨-, h⟩
      exact absurd rfl h
    · intro _
      simp only [transfer_loop, List.append_nil, List.map_nil, List.flatten_nil]
      exact ⟨trivial, hF⟩
  | cons t rest ih =>
    intro hw al pend hF hall hcap hal
    simp only [List.map_cons, List.sum_cons] at hcap hal
    have hcap2 : pend.length + (t.len + (rest.map spi_transfer.len).sum) ≤ 128 := hcap
    have hwo := hall t (List.mem_cons_self _ _)
    obtain ⟨b1, b2, b3, cfgs, hcf, b4, b5⟩ := body_write_only bus mode hw al t
      (rest.isEmpty && !more) pend hF hwo (by simp only [TINY6212_BUFSIZ]; omega) hsend
    have hol : (outbound t).length = t.len := by
      obtain ⟨tx, htx, htl⟩ := write_only_tx t hwo
      rw [outbound_write_only t tx htx htl, htl]
    have hstep : transfer_loop bus mode more hw al (t :: rest) =
        ⟨(transfer_loop bus mode more
            (transfer_body bus mode hw al t (rest.isEmpty && !more)).hw
            (transfer_body bus mode hw al t (rest.isEmpty && !more)).actual_length rest).hw,
          t :: (transfer_loop bus mode more
            (transfer_body bus mode hw al t (rest.isEmpty && !more)).hw
            (transfer_body bus mode hw al t (rest.isEmpty && !more)).actual_length
            rest).transfers,
          (transfer_loop bus mode more
            (transfer_body bus mode hw al t (rest.isEmpty && !more)).hw
            (transfer_body bus mode hw al t (rest.isEmpty && !more)).actual_length
            rest).actual_length,
          (transfer_loop bus mode more
            (transfer_body bus mode hw al t (rest.isEmpty && !more)).hw
            (transfer_body bus mode hw al t (rest.isEmpty && !more)).actual_length
            rest).status⟩ := by
      simp only [transfer_loop, b1, b2, lt_self_iff_false, if_false]
    rw [hstep, b3, Nat.mod_eq_of_lt (by omega)]
    simp only [List.map_cons, List.flatten_cons, List.sum_cons]
    cases hlast : (rest.isEmpty && !more) with
    | true =>
      rw [hlast] at b4 b5
      simp only [Bool.and_eq_true, List.isEmpty_iff, Bool.not_eq_true'] at hlast
      obtain ⟨hr, hm⟩ := hlast
      subst hr
      subst hm
      obtain ⟨c1, c2⟩ := b4 rfl
      simp only [transfer_loop, List.map_nil, List.sum_nil, List.flatten_nil, List.append_nil,
        Nat.add_zero, true_and]
      refine ⟨cfgs, hcf, fun _ => ⟨c1, c2⟩, ?_⟩
      rintro (h | h)
      · exact absurd h (by decide)
      · exact absurd h (by simp)
    | false =>
      rw [hlast] at b5
      obtain ⟨c1, c2⟩ := b5 rfl
      obtain ⟨i1, i2, i3, cfgs2, hcf2, i4, i5⟩ := ih
        (transfer_body bus mode hw al t false).hw (al + t.len) (pend ++ outbound t) c2
        (fun u hu => hall u (List.mem_cons_of_mem _ hu))
        (by rw [List.length_append, hol]; simp only [TINY6212_BUFSIZ]; omega) (by omega)
      refine ⟨i1, by rw [i2], by rw [i3]; omega, cfgs ++ cfgs2, ?_, ?_, ?_⟩
      · intro c hc
        rcases List.mem_append.1 hc with h | h
        · exact hcf c h
        · exact hcf2 c h
      · rintro ⟨hm, -⟩
        have hrest : rest ≠ [] := by
          intro hr
          rw [hr, hm] at hlast
          exact absurd hlast (by decide)
        obtain ⟨j1, j2⟩ := i4 ⟨hm, hrest⟩
        refine ⟨?_, j2⟩
        rw [j1, c1]
        simp only [List.append_assoc]
      · rintro (hm | hm)
        · obtain ⟨j1, j2⟩ := i5 (Or.inl hm)
          refine ⟨?_, ?_⟩
          · rw [j1, c1, List.append_assoc]
          · rw [← List.append_assoc]
            exact j2
        · exact absurd hm (by simp)

theorem transfer_loop_cons (bus : I2cBus) (mode : Nat) (more : Bool) (hw : tiny6212) (al : Nat)
    (t : spi_transfer) (rest : List spi_transfer) :
    transfer_loop bus mode more hw al (t :: rest) =
      if (transfer_body bus mode hw al t (rest.isEmpty && !more)).status < 0 then
        ⟨(transfer_body bus mode hw al t (rest.isEmpty && !more)).hw,
          (transfer_body bus mode hw al t (rest.isEmpty && !more)).t :: rest,
          (transfer_body bus mode hw al t (rest.isEmpty && !more)).actual_length,
          (transfer_body bus mode hw al t (rest.isEmpty && !more)).status⟩
      else
        ⟨(transfer_loop bus mode more (transfer_body bus mode hw al t (rest.isEmpty && !more)).hw
            (transfer_body bus mode hw al t (rest.isEmpty && !more)).actual_length rest).hw,
          (transfer_body bus mode hw al t (rest.isEmpty && !more)).t ::
            (transfer_loop bus mode more
              (transfer_body bus mode hw al t (rest.isEmpty && !more)).hw
              (transfer_body bus mode hw al t (rest.isEmpty && !more)).actual_length
              rest).transfers,
          (transfer_loop bus mode more (transfer_body bus mode hw al t (rest.isEmpty && !more)).hw
            (transfer_body bus mode hw al t (rest.isEmpty && !more)).actual_length
            rest).actual_length,
          (transfer_loop bus mode more (transfer_body bus mode hw al t (rest.isEmpty && !more)).hw
            (transfer_body bus mode hw al t (rest.isEmpty && !more)).actual_length
            rest).status⟩ := rfl

/-- Processing `pre ++ post` with `post` nonempty: the segments of `pre` are
processed as segments that are not last; when they all succeed the loop goes
on with `post` from the state reached. -/
theorem transfer_loop_append (bus : I2cBus) (mode : Nat) (more : Bool)
    (post : List spi_transfer) (hpost : post ≠ []) :
    ∀ (pre : List spi_transfer) (hw : tiny6212) (al : Nat),
    (transfer_loop bus mode true hw al pre).status = 0 →
    transfer_loop bus mode more hw al (pre ++ post) =
      ⟨(transfer_loop bus mode more (transfer_loop bus mode true hw al pre).hw
          (transfer_loop bus mode true hw al pre).actual_length post).hw,
        (transfer_loop bus mode true hw al pre).transfers ++
          (transfer_loop bus mode more (transfer_loop bus mode true hw al pre).hw
            (transfer_loop bus mode true hw al pre).actual_length post).transfers,
        (transfer_loop bus mode more (transfer_loop bus mode true hw al pre).hw
          (transfer_loop bus mode true hw al pre).actual_length post).actual_length,
        (transfer_loop bus mode more (transfer_loop bus mode true hw al pre).hw
          (transfer_loop bus mode true hw al pre).actual_length post).status⟩ := by
  intro pre
  induction pre with
  | nil =>
    intro hw al _
    rfl
  | cons t rest ih =>
    intro hw al hst
    have hl : ((rest ++ post).isEmpty && !more) = (rest.isEmpty && !true) := by
      cases rest with
      | nil =>
        cases post with
        | nil => exact absurd rfl hpost
        | cons _ _ => rfl
      | cons _ _ => rfl
    rw [transfer_loop_cons] at hst
    rw [List.cons_append, transfer_loop_cons, hl, transfer_loop_cons]
    by_cases hb : (transfer_body bus mode hw al t (rest.isEmpty && !true)).status < 0
    · rw [if_pos hb] at hst
      simp only at hst
      omega
    · rw [if_neg hb] at hst
      simp only at hst
      rw [if_neg hb, if_neg hb]
      simp only
      rw [ih _ _ hst]
      simp

theorem txrx_short_send (bus : I2cBus) (hw : tiny6212) (t : spi_transfer) (d : Bool)
    (hd : (txrx_frame hw t d).2 = true) (hgt : 1 < (txrx_frame hw t d).1.tlen)
    (h0 : 0 ≤ (bus (txrx_frame hw t d).1.client.length (I2cCall.send
      ((txrx_frame hw t d).1.wbuf.take (txrx_frame hw t d).1.tlen.toNat))).ret)
    (hne : (bus (txrx_frame hw t d).1.client.length (I2cCall.send
      ((txrx_frame hw t d).1.wbuf.take (txrx_frame hw t d).1.tlen.toNat))).ret ≠
      (txrx_frame hw t d).1.tlen) :
    tiny6212_txrx bus hw t d = (- EIO_errno,
      { (txrx_frame hw t d).1 with
        client := (txrx_frame hw t d).1.client ++ [I2cCall.send
          ((txrx_frame hw t d).1.wbuf.take (txrx_frame hw t d).1.tlen.toNat)] }, t) := by
  have hfl : txrx_flush bus (txrx_frame hw t d).1 (txrx_frame hw t d).2 =
      (some (- EIO_errno), { (txrx_frame hw t d).1 with
        client := (txrx_frame hw t d).1.client ++ [I2cCall.send
          ((txrx_frame hw t d).1.wbuf.take (txrx_frame hw t d).1.tlen.toNat)] }) := by
    unfold txrx_flush i2c_master_send
    rw [if_pos (by simp [hd, hgt])]
    simp only
    rw [if_neg (not_lt.2 h0), if_pos hne]
  unfold tiny6212_txrx
  simp only [hfl]

theorem memcpy_head (dst : List Nat) (off : Nat) (src : List Nat) (x : Nat) (hoff : 1 ≤ off)
    (hd : dst.head? = some x) : (memcpy dst off src).head? = some x := by
  cases dst with
  | nil => simp at hd
  | cons a l =>
    obtain ⟨k, rfl⟩ : ∃ k, off = k + 1 := ⟨off - 1, by omega⟩
    simp only [List.head?_cons, Option.some.injEq] at hd
    simp [memcpy, hd]

theorem memcpy_zero_head (dst : List Nat) (x : Nat) (xs : List Nat) :
    (memcpy dst 0 (x :: xs)).head? = some x := by
  simp [memcpy]

theorem txrx_frame_hdr (hw : tiny6212) (t : spi_transfer) (d : Bool) (hH : Hdr hw)
    (hchk : tiny6212_check_transfer t hw.tlen = 0) (hlen : t.len < 4294967296) :
    1 ≤ (txrx_frame hw t d).1.tlen ∧ (txrx_frame hw t d).1.tlen ≤ 130 ∧
    (txrx_frame hw t d).1.wbuf.head? = some TINY6212_CMD_TRANSMIT ∧
    (txrx_frame hw t d).1.client = hw.client ∧ (txrx_frame hw t d).1.ctrl = hw.ctrl ∧
    (txrx_frame hw t d).1.freq = hw.freq ∧ (txrx_frame hw t d).1.rbuf = hw.rbuf := by
  have hc : (t.len + 4294967295 + u32 hw.tlen) % 4294967296 ≤ 128 := by
    unfold tiny6212_check_transfer at hchk
    by_contra hcon
    rw [if_pos (by simp only [TINY6212_BUFSIZ]; omega)] at hchk
    revert hchk
    decide
  unfold txrx_frame
  rcases hH with h0 | ⟨h1, h2, h3⟩
  · rw [if_pos h0]
    rw [h0] at hc
    have hc2 : (t.len + 4294967295) % 4294967296 ≤ 128 := by simpa [u32] using hc
    cases htx : t.tx_buf with
    | none =>
      simp only
      exact ⟨le_refl _, by decide, memcpy_zero_head _ _ _, by trivial, by trivial, by trivial, by trivial⟩
    | some tx =>
      simp only
      have hu : u32 1 = 1 := by decide
      rw [hu, s32_of_lt _ (by omega)]
      refine ⟨by omega, by omega, ?_, by trivial, by trivial, by trivial, by trivial⟩
      exact memcpy_head _ _ _ _ (by decide) (memcpy_zero_head _ _ _)
  · rw [if_neg (by omega)]
    obtain ⟨n, hn⟩ : ∃ n : Nat, hw.tlen = (n : Int) := ⟨hw.tlen.toNat, by omega⟩
    rw [hn] at h1 h2
    rw [hn, u32_natCast _ (by omega)] at hc
    cases htx : t.tx_buf with
    | none =>
      simp only
      rw [hn]
      exact ⟨h1, h2, h3, by trivial, by trivial, by trivial, by trivial⟩
    | some tx =>
      simp only
      rw [hn, u32_natCast _ (by omega), Int.toNat_ofNat]
      have hs : 1 ≤ s32 (n + t.len) ∧ s32 (n + t.len) ≤ 130 := by
        unfold s32
        split_ifs <;> omega
      exact ⟨hs.1, hs.2, memcpy_head _ _ _ _ (by omega) h3, by trivial, by trivial, by trivial, by trivial⟩

theorem txrx_flush_calls (bus : I2cBus) (hw : tiny6212) (d : Bool)
    (hh : hw.wbuf.head? = some TINY6212_CMD_TRANSMIT) :
    (∃ fl, (txrx_flush bus hw d).2.client = hw.client ++ fl ∧
      (fl = [] ∨ ∃ b, fl = [I2cCall.send (1 :: b)])) ∧
    ((txrx_flush bus hw d).2.tlen = hw.tlen ∨ (txrx_flush bus hw d).2.tlen = 0) ∧
    (txrx_flush bus hw d).2.wbuf = hw.wbuf ∧ (txrx_flush bus hw d).2.ctrl = hw.ctrl ∧
    (txrx_flush bus hw d).2.freq = hw.freq ∧ (txrx_flush bus hw d).2.rbuf = hw.rbuf := by
  unfold txrx_flush i2c_master_send
  by_cases hc : (d && decide (hw.tlen > 1)) = true
  · rw [if_pos hc]
    have hgt : hw.tlen > 1 := by
      simp only [Bool.and_eq_true, decide_eq_true_eq] at hc
      exact hc.2
    have hfr : ∃ b, hw.wbuf.take hw.tlen.toNat = 1 :: b := by
      obtain ⟨k, hk⟩ : ∃ k, hw.tlen.toNat = k + 1 := ⟨hw.tlen.toNat - 1, by omega⟩
      cases hwb : hw.wbuf with
      | nil => rw [hwb] at hh; simp at hh
      | cons a l =>
        rw [hwb] at hh
        simp only [List.head?_cons, Option.some.injEq, TINY6212_CMD_TRANSMIT] at hh
        exact ⟨l.take k, by rw [hk, List.take_succ_cons, hh]⟩
    obtain ⟨b, hb⟩ := hfr
    simp only [hb]
    split_ifs
    · exact ⟨⟨_, rfl, Or.inr ⟨b, rfl⟩⟩, Or.inl rfl, rfl, rfl, rfl, rfl⟩
    · exact ⟨⟨_, rfl, Or.inr ⟨b, rfl⟩⟩, Or.inl rfl, rfl, rfl, rfl, rfl⟩
    · exact ⟨⟨_, rfl, Or.inr ⟨b, rfl⟩⟩, Or.inr rfl, rfl, rfl, rfl, rfl⟩
  · rw [if_neg hc]
    exact ⟨⟨[], by simp, Or.inl rfl⟩, Or.inl rfl, rfl, rfl, rfl, rfl⟩

theorem recv_loop_calls (bus : I2cBus) (k : Nat) : ∀ (hw : tiny6212) (j : Nat),
    (∃ n, n ≤ k ∧
      (recv_loop bus hw j k).2.client = hw.client ++ List.replicate n (I2cCall.recv 1)) ∧
    (recv_loop bus hw j k).2.tlen = hw.tlen ∧ (recv_loop bus hw j k).2.wbuf = hw.wbuf ∧
    (recv_loop bus hw j k).2.ctrl = hw.ctrl ∧ (recv_loop bus hw j k).2.freq = hw.freq := by
  induction k with
  | zero =>
    intro hw j
    exact ⟨⟨0, le_refl _, by simp [recv_loop]⟩, rfl, rfl, rfl, rfl⟩
  | succ k ih =>
    intro hw j
    simp only [recv_loop, i2c_master_recv, show (1 : Int).toNat = 1 from rfl]
    split_ifs
    · exact ⟨⟨1, by omega, rfl⟩, rfl, rfl, rfl, rfl⟩
    · exact ⟨⟨1, by omega, rfl⟩, rfl, rfl, rfl, rfl⟩
    · obtain ⟨⟨n, hn, h1⟩, h2, h3, h4, h5⟩ := ih
        { hw with client := hw.client ++ [I2cCall.recv 1],
                  rbuf := memcpy hw.rbuf j [(bus hw.client.length (I2cCall.recv 1)).data] }
        (j + 1)
      refine ⟨⟨n + 1, by omega, ?_⟩, h2, h3, h4, h5⟩
      rw [h1]
      simp [List.replicate_succ]

theorem txrx_session_cases (bus : I2cBus) (hw : tiny6212) (t : spi_transfer) (d : Bool) :
    (tiny6212_txrx bus hw t d).2.1 =
        (txrx_flush bus (txrx_frame hw t d).1 (txrx_frame hw t d).2).2 ∨
    (tiny6212_txrx bus hw t d).2.1 =
        (recv_loop bus (txrx_flush bus (txrx_frame hw t d).1 (txrx_frame hw t d).2).2 0
          t.len).2 := by
  unfold tiny6212_txrx
  simp only
  split
  · exact Or.inl rfl
  · split
    · split
      · exact Or.inr rfl
      · exact Or.inr rfl
    · exact Or.inl rfl

theorem txrx_calls (bus : I2cBus) (hw : tiny6212) (t : spi_transfer) (d : Bool) (hH : Hdr hw)
    (hchk : tiny6212_check_transfer t hw.tlen = 0) (hlen : t.len < 4294967296) :
    Hdr (tiny6212_txrx bus hw t d).2.1 ∧
    (∃ fl n, (tiny6212_txrx bus hw t d).2.1.client =
        hw.client ++ fl ++ List.replicate n (I2cCall.recv 1) ∧
      (fl = [] ∨ ∃ b, fl = [I2cCall.send (1 :: b)]) ∧ n ≤ t.len) ∧
    (tiny6212_txrx bus hw t d).2.1.ctrl = hw.ctrl ∧
    (tiny6212_txrx bus hw t d).2.1.freq = hw.freq := by
  obtain ⟨f1, f2, f3, f4, f5, f6, -⟩ := txrx_frame_hdr hw t d hH hchk hlen
  obtain ⟨⟨fl, s1, s2⟩, s3, s4, s5, s6, -⟩ :=
    txrx_flush_calls bus (txrx_frame hw t d).1 (txrx_frame hw t d).2 f3
  have hHs : Hdr (txrx_flush bus (txrx_frame hw t d).1 (txrx_frame hw t d).2).2 := by
    rcases s3 with h | h
    · exact Or.inr ⟨by rw [h]; exact f1, by rw [h]; exact f2, by rw [s4]; exact f3⟩
    · exact Or.inl h
  obtain ⟨⟨n, hn, r1⟩, r2, r3, r4, r5⟩ := recv_loop_calls bus t.len
    (txrx_flush bus (txrx_frame hw t d).1 (txrx_frame hw t d).2).2 0
  rcases txrx_session_cases bus hw t d with h | h
  · rw [h]
    exact ⟨hHs, ⟨fl, 0, by rw [s1, f4]; simp, s2, Nat.zero_le _⟩, by rw [s5, f5],
      by rw [s6, f6]⟩
  · rw [h]
    refine ⟨?_, ⟨fl, n, by rw [r1, s1, f4], s2, hn⟩, by rw [r4, s5, f5], by rw [r5, s6, f6]⟩
    unfold Hdr at hHs ⊢
    rw [r2, r3]
    exact hHs

theorem setup_transfer_calls (bus : I2cBus) (hw : tiny6212) (hz mode : Nat) :
    (tiny6212_setup_transfer bus hw hz mode).2.tlen = hw.tlen ∧
    (tiny6212_setup_transfer bus hw hz mode).2.wbuf = hw.wbuf ∧
    (tiny6212_setup_transfer bus hw hz mode).2.freq = hw.freq ∧
    (setup_ctrl hw.freq hz mode = hw.ctrl →
      tiny6212_setup_transfer bus hw hz mode = (0, hw)) ∧
    (setup_ctrl hw.freq hz mode ≠ hw.ctrl →
      (tiny6212_setup_transfer bus hw hz mode).2.client =
        hw.client ++ [I2cCall.send [2, setup_ctrl hw.freq hz mode]] ∧
      ((tiny6212_setup_transfer bus hw hz mode).1 = 0 →
        (tiny6212_setup_transfer bus hw hz mode).2.ctrl = setup_ctrl hw.freq hz mode)) := by
  rw [setup_transfer_eq]
  by_cases hc : setup_ctrl hw.freq hz mode = hw.ctrl
  · rw [if_pos hc]
    exact ⟨rfl, rfl, rfl, fun _ => rfl, fun h => absurd hc h⟩
  · rw [if_neg hc]
    by_cases hr : (bus hw.client.length (I2cCall.send [2, setup_ctrl hw.freq hz mode])).ret < 0
    · rw [if_pos hr]
      refine ⟨rfl, rfl, rfl, fun h => absurd h hc, fun _ => ⟨rfl, fun h => ?_⟩⟩
      simp only at h
      omega
    · rw [if_neg hr]
      exact ⟨rfl, rfl, rfl, fun h => absurd h hc, fun _ => ⟨rfl, fun _ => rfl⟩⟩

theorem Hdr_congr (hw hw1 : tiny6212) (ht : hw1.tlen = hw.tlen) (hb : hw1.wbuf = hw.wbuf)
    (hH : Hdr hw) : Hdr hw1 := by
  unfold Hdr at *
  rw [ht, hb]
  exact hH

theorem check_transfer_cases (t : spi_transfer) (tlen : Int) :
    tiny6212_check_transfer t tlen = 0 ∨ tiny6212_check_transfer t tlen < 0 := by
  unfold tiny6212_check_transfer
  split_ifs
  · exact Or.inr (by decide)
  · exact Or.inl rfl

theorem countP_txrx_calls (fl : List I2cCall) (n : Nat)
    (hfl : fl = [] ∨ ∃ b, fl = [I2cCall.send (1 :: b)]) :
    (fl ++ List.replicate n (I2cCall.recv 1)).countP is_configure = 0 := by
  rw [List.countP_eq_zero]
  intro c hc
  rcases List.mem_append.1 hc with h | h
  · rcases hfl with rfl | ⟨b, rfl⟩
    · simp at h
    · rw [List.mem_singleton] at h
      rw [h]
      simp [is_configure]
  · rw [List.eq_of_mem_replicate h]
    simp [is_configure]

theorem transfer_body_session (bus : I2cBus) (mode : Nat) (hw : tiny6212) (al : Nat)
    (t : spi_transfer) (is_last : Bool) :
    (tiny6212_check_transfer t hw.tlen < 0 →
      (transfer_body bus mode hw al t is_last).hw = hw) ∧
    (tiny6212_check_transfer t hw.tlen = 0 →
      ((transfer_body bus mode hw al t is_last).hw =
          (tiny6212_setup_transfer bus hw (t.speed_hz % 4294967296) (mode % 256)).2 ∨
        (transfer_body bus mode hw al t is_last).hw =
          (tiny6212_txrx bus
            (tiny6212_setup_transfer bus hw (t.speed_hz % 4294967296) (mode % 256)).2 t
            (t.cs_change || is_last)).2.1) ∧
      ((transfer_body bus mode hw al t is_last).status = 0 →
        (tiny6212_setup_transfer bus hw (t.speed_hz % 4294967296) (mode % 256)).1 = 0)) := by
  unfold transfer_body
  constructor
  · intro h
    simp only [h, if_true]
  · intro h
    simp only [h, lt_self_iff_false, if_false]
    split_ifs with h1 h2 h3
    · exact ⟨Or.inl rfl, fun hs => by simp only at hs; omega⟩
    · exact ⟨Or.inr rfl, fun hs => by simp only at hs; omega⟩
    · refine ⟨Or.inr rfl, fun _ => ?_⟩
      have := setup_transfer_eq bus hw (t.speed_hz % 4294967296) (mode % 256)
      rw [this] at h1 ⊢
      split_ifs at h1 ⊢ <;> first | rfl | (simp only at h1; omega)
    · refine ⟨Or.inl rfl, fun _ => ?_⟩
      have := setup_transfer_eq bus hw (t.speed_hz % 4294967296) (mode % 256)
      rw [this] at h1 ⊢
      split_ifs at h1 ⊢ <;> first | rfl | (simp only at h1; omega)

/-- One iteration of the message loop, for any segment and any transport: the
header invariant is kept, the base frequency is untouched, and the calls made
are at most one CONFIGURE frame followed by calls that are not CONFIGURE
frames. -/
theorem transfer_body_calls (bus : I2cBus) (mode : Nat) (hw : tiny6212) (al : Nat)
    (t : spi_transfer) (is_last : Bool) (hH : Hdr hw) (hlen : t.len < 4294967296) :
    Hdr (transfer_body bus mode hw al t is_last).hw ∧
    (transfer_body bus mode hw al t is_last).hw.freq = hw.freq ∧
    ∃ new, (transfer_body bus mode hw al t is_last).hw.client = hw.client ++ new ∧
      (setup_ctrl hw.freq (t.speed_hz % 4294967296) (mode % 256) = hw.ctrl →
        new.countP is_configure = 0 ∧
        (transfer_body bus mode hw al t is_last).hw.ctrl = hw.ctrl) ∧
      (setup_ctrl hw.freq (t.speed_hz % 4294967296) (mode % 256) ≠ hw.ctrl →
        tiny6212_check_transfer t hw.tlen = 0 →
        new.countP is_configure = 1 ∧
        ((transfer_body bus mode hw al t is_last).status = 0 →
          (transfer_body bus mode hw al t is_last).hw.ctrl =
            setup_ctrl hw.freq (t.speed_hz % 4294967296) (mode % 256))) := by
  obtain ⟨b1, b2⟩ := transfer_body_session bus mode hw al t is_last
  obtain ⟨s1, s2, s3, s4, s5⟩ :=
    setup_transfer_calls bus hw (t.speed_hz % 4294967296) (mode % 256)
  rcases check_transfer_cases t hw.tlen with hchk | hchk
  · obtain ⟨b3, b4⟩ := b2 hchk
    have hH1 := Hdr_congr hw _ s1 s2 hH
    obtain ⟨x1, ⟨fl, n, x2, x3, -⟩, x4, x5⟩ := txrx_calls bus
      (tiny6212_setup_transfer bus hw (t.speed_hz % 4294967296) (mode % 256)).2 t
      (t.cs_change || is_last) hH1 (by rw [s1]; exact hchk) hlen
    have hcnt := countP_txrx_calls fl n x3
    rcases b3 with h | h
    · rw [h]
      refine ⟨hH1, s3, ?_⟩
      by_cases hc : setup_ctrl hw.freq (t.speed_hz % 4294967296) (mode % 256) = hw.ctrl
      · rw [s4 hc]
        exact ⟨[], by simp, fun _ => ⟨rfl, rfl⟩, fun h2 => absurd hc h2⟩
      · obtain ⟨c1, c2⟩ := s5 hc
        refine ⟨_, c1, fun h2 => absurd h2 hc, fun _ _ => ⟨by simp [is_configure], ?_⟩⟩
        intro hs
        exact c2 (b4 hs)
    · rw [h]
      refine ⟨x1, by rw [x5, s3], ?_⟩
      by_cases hc : setup_ctrl hw.freq (t.speed_hz % 4294967296) (mode % 256) = hw.ctrl
      · have hs2 : (tiny6212_setup_transfer bus hw (t.speed_hz % 4294967296) (mode % 256)).2 =
            hw := by rw [s4 hc]
        rw [hs2] at x2 x4 ⊢
        exact ⟨fl ++ List.replicate n (I2cCall.recv 1), by rw [x2, List.append_assoc],
          fun _ => ⟨hcnt, x4⟩, fun h2 => absurd hc h2⟩
      · obtain ⟨c1, c2⟩ := s5 hc
        refine ⟨[I2cCall.send [2, setup_ctrl hw.freq (t.speed_hz % 4294967296) (mode % 256)]]
          ++ (fl ++ List.replicate n (I2cCall.recv 1)), ?_, fun h2 => absurd h2 hc,
          fun _ _ => ⟨?_, ?_⟩⟩
        · rw [x2, c1]
          simp only [List.append_assoc]
        · rw [List.countP_append, hcnt]
          simp [is_configure]
        · intro hs
          rw [x4]
          exact c2 (b4 hs)
  · rw [b1 hchk]
    refine ⟨hH, rfl, [], by simp, fun _ => ⟨rfl, rfl⟩, fun _ h2 => ?_⟩
    omega

theorem transfer_body_status (bus : I2cBus) (mode : Nat) (hw : tiny6212) (al : Nat)
    (t : spi_transfer) (is_last : Bool) :
    (transfer_body bus mode hw al t is_last).status ≤ 0 := by
  unfold transfer_body
  simp only
  split_ifs <;> simp only <;> omega

theorem loop_cached_ctrl (bus : I2cBus) (mode : Nat) (more : Bool) :
    ∀ (ts : List spi_transfer) (hw : tiny6212) (al : Nat), Hdr hw →
    (∀ t ∈ ts, t.len < 4294967296 ∧
      setup_ctrl hw.freq (t.speed_hz % 4294967296) (mode % 256) = hw.ctrl) →
    Hdr (transfer_loop bus mode more hw al ts).hw ∧
    (transfer_loop bus mode more hw al ts).hw.freq = hw.freq ∧
    (transfer_loop bus mode more hw al ts).hw.ctrl = hw.ctrl ∧
    ∃ new, (transfer_loop bus mode more hw al ts).hw.client = hw.client ++ new ∧
      new.countP is_configure = 0 := by
  intro ts
  induction ts with
  | nil =>
    intro hw al hH _
    exact ⟨hH, rfl, rfl, [], by simp [transfer_loop], rfl⟩
  | cons t rest ih =>
    intro hw al hH hall
    obtain ⟨hl, hc⟩ := hall t (List.mem_cons_self _ _)
    obtain ⟨b1, b2, new, b3, b4, -⟩ := transfer_body_calls bus mode hw al t
      (rest.isEmpty && !more) hH hl
    obtain ⟨b5, b6⟩ := b4 hc
    rw [transfer_loop_cons]
    split_ifs
    · exact ⟨b1, b2, b6, new, b3, b5⟩
    · obtain ⟨i1, i2, i3, new2, i4, i5⟩ := ih
        (transfer_body bus mode hw al t (rest.isEmpty && !more)).hw
        (transfer_body bus mode hw al t (rest.isEmpty && !more)).actual_length b1
        (fun u hu => by
          rw [b2, b6]
          exact hall u (List.mem_cons_of_mem _ hu))
      refine ⟨i1, by rw [i2, b2], by rw [i3, b6], new ++ new2, ?_, ?_⟩
      · simp only [i4, b3, List.append_assoc]
      · rw [List.countP_append, b5, i5]

theorem transfer_one_cached_ctrl (bus : I2cBus) (hw : tiny6212) (m : spi_message)
    (hall : ∀ t ∈ m.transfers, t.len < 4294967296 ∧
      setup_ctrl hw.freq (t.speed_hz % 4294967296) (m.mode % 256) = hw.ctrl) :
    (tiny6212_transfer_one bus hw m).2.1.freq = hw.freq ∧
    (tiny6212_transfer_one bus hw m).2.1.ctrl = hw.ctrl ∧
    ∃ new, (tiny6212_transfer_one bus hw m).2.1.client = hw.client ++ new ∧
      new.countP is_configure = 0 := by
  obtain ⟨-, h2, h3, h4⟩ := loop_cached_ctrl bus m.mode false m.transfers
    { hw with tlen := 0 } m.actual_length (Or.inl rfl) hall
  exact ⟨h2, h3, h4⟩

theorem transfer_messages_cached_ctrl (bus : I2cBus) :
    ∀ (ms : List spi_message) (hw : tiny6212),
    (∀ m ∈ ms, ∀ t ∈ m.transfers, t.len < 4294967296 ∧
      setup_ctrl hw.freq (t.speed_hz % 4294967296) (m.mode % 256) = hw.ctrl) →
    ∃ new, (transfer_messages bus hw ms).client = hw.client ++ new ∧
      new.countP is_configure = 0 := by
  intro ms
  induction ms with
  | nil =>
    intro hw _
    exact ⟨[], by simp [transfer_messages], rfl⟩
  | cons m rest ih =>
    intro hw hall
    obtain ⟨h1, h2, new, h3, h4⟩ := transfer_one_cached_ctrl bus hw m
      (hall m (List.mem_cons_self _ _))
    obtain ⟨new2, i1, i2⟩ := ih (tiny6212_transfer_one bus hw m).2.1 (fun u hu => by
      rw [h1, h2]
      exact hall u (List.mem_cons_of_mem _ hu))
    refine ⟨new ++ new2, ?_, ?_⟩
    · simp only [transfer_messages, i1, h3, List.append_assoc]
    · rw [List.countP_append, h4, i2]

theorem setup_ctrl_field (freq hz mode : Nat) :
    ∃ k < 7, clock_div_field freq hz = k <<< 3 ∧
      divisor_of_ctrl (setup_ctrl freq hz mode) = 2 ^ (k + 1) := by
  obtain ⟨f, hf, hc, -⟩ := setup_ctrl_flags freq hz mode
  obtain ⟨k, hk, hd, -, -⟩ := clock_div_field_code freq hz
  refine ⟨k, hk, hd, ?_⟩
  rw [divisor_of_ctrl, hc, hd, (decode_field f hf k hk).1]

theorem setup_ctrl_same_divisor (freq hz1 hz2 mode : Nat)
    (h : divisor_of_ctrl (setup_ctrl freq hz1 mode) =
      divisor_of_ctrl (setup_ctrl freq hz2 mode)) :
    setup_ctrl freq hz1 mode = setup_ctrl freq hz2 mode := by
  obtain ⟨k1, -, f1, d1⟩ := setup_ctrl_field freq hz1 mode
  obtain ⟨k2, -, f2, d2⟩ := setup_ctrl_field freq hz2 mode
  rw [d1, d2] at h
  have hk : k1 = k2 := by
    have := Nat.pow_right_injective (le_refl 2) h
    omega
  unfold setup_ctrl
  rw [f1, f2, hk]

theorem two_segments_configure_once (bus : I2cBus) (hw : tiny6212) (m : spi_message)
    (t1 t2 : spi_transfer) (hm : m.transfers = [t1, t2])
    (h1 : 1 ≤ t1.len ∧ t1.len ≤ TINY6212_BUFSIZ) (h2 : t2.len < 4294967296)
    (hne : setup_ctrl hw.freq (t1.speed_hz % 4294967296) (m.mode % 256) ≠ hw.ctrl)
    (heq : setup_ctrl hw.freq (t2.speed_hz % 4294967296) (m.mode % 256) =
      setup_ctrl hw.freq (t1.speed_hz % 4294967296) (m.mode % 256)) :
    ∃ new, (tiny6212_transfer_one bus hw m).2.1.client = hw.client ++ new ∧
      new.countP is_configure = 1 := by
  obtain ⟨hw0, hdef⟩ : ∃ hw0 : tiny6212, hw0 = { hw with tlen := 0 } := ⟨_, rfl⟩
  have hH : Hdr hw0 := Or.inl (by rw [hdef])
  have hF : Framed hw0 [] := Or.inl ⟨by rw [hdef], rfl⟩
  have hfr : hw0.freq = hw.freq := by rw [hdef]
  have hct : hw0.ctrl = hw.ctrl := by rw [hdef]
  have hcl : hw0.client = hw.client := by rw [hdef]
  have hchk := check_transfer_ok hw0 t1 [] hF h1.1 (by simpa using h1.2)
  have hl1 : t1.len < 4294967296 := by
    have := h1.2
    simp only [TINY6212_BUFSIZ] at this
    omega
  rw [← hfr, ← hct] at hne
  rw [← hfr] at heq
  obtain ⟨b1, b2, new, b3, -, b4⟩ := transfer_body_calls bus m.mode hw0 m.actual_length t1
    ([t2].isEmpty && !false) hH hl1
  obtain ⟨b5, b6⟩ := b4 hne hchk
  have hst := transfer_body_status bus m.mode hw0 m.actual_length t1 ([t2].isEmpty && !false)
  have hone : (tiny6212_transfer_one bus hw m).2.1 =
      (transfer_loop bus m.mode false hw0 m.actual_length [t1, t2]).hw := by
    rw [hdef, ← hm]
    rfl
  rw [hone, transfer_loop_cons, ← hcl]
  split_ifs with hb
  · exact ⟨new, b3, b5⟩
  · have hctrl := b6 (by omega)
    obtain ⟨-, -, -, new2, i4, i5⟩ := loop_cached_ctrl bus m.mode false [t2]
      (transfer_body bus m.mode hw0 m.actual_length t1 ([t2].isEmpty && !false)).hw
      (transfer_body bus m.mode hw0 m.actual_length t1 ([t2].isEmpty && !false)).actual_length
      b1
      (fun u hu => by
        rw [List.mem_singleton] at hu
        rw [hu, b2, hctrl]
        exact ⟨h2, heq⟩)
    refine ⟨new ++ new2, ?_, ?_⟩
    · simp only [i4, b3, List.append_assoc]
    · rw [List.countP_append, i5, b5]

/-! ## Outcome of the message loop: all segments succeed, or a first one fails -/

theorem transfer_loop_nil (bus : I2cBus) (mode : Nat) (more : Bool) (hw : tiny6212) (al : Nat) :
    transfer_loop bus mode more hw al [] = ⟨hw, [], al, 0⟩ := rfl

theorem transfer_loop_status (bus : I2cBus) (mode : Nat) (more : Bool) :
    ∀ (ts : List spi_transfer) (hw : tiny6212) (al : Nat),
    (transfer_loop bus mode more hw al ts).status ≤ 0 := by
  intro ts
  induction ts with
  | nil => intro hw al; exact le_refl _
  | cons t rest ih =>
    intro hw al
    rw [transfer_loop_cons]
    split_ifs with h
    · exact le_of_lt h
    · exact ih _ _

/-- The prefix run over `t0 :: pre` when `t0` succeeds as a segment that is
not last. -/
theorem transfer_loop_true_cons (bus : I2cBus) (mode : Nat) (hw : tiny6212) (al : Nat)
    (t0 : spi_transfer) (pre : List spi_transfer)
    (h0 : ¬ (transfer_body bus mode hw al t0 false).status < 0) :
    transfer_loop bus mode true hw al (t0 :: pre) =
      ⟨(transfer_loop bus mode true (transfer_body bus mode hw al t0 false).hw
          (transfer_body bus mode hw al t0 false).actual_length pre).hw,
        (transfer_body bus mode hw al t0 false).t ::
          (transfer_loop bus mode true (transfer_body bus mode hw al t0 false).hw
            (transfer_body bus mode hw al t0 false).actual_length pre).transfers,
        (transfer_loop bus mode true (transfer_body bus mode hw al t0 false).hw
          (transfer_body bus mode hw al t0 false).actual_length pre).actual_length,
        (transfer_loop bus mode true (transfer_body bus mode hw al t0 false).hw
          (transfer_body bus mode hw al t0 false).actual_length pre).status⟩ := by
  rw [transfer_loop_cons]
  have hb : (pre.isEmpty && !true) = false := by simp
  rw [hb, if_neg h0]

/-- Every run of the loop either processes all segments with success, or
stops at a first failing segment, whose outcome is the outcome of the loop. -/
theorem transfer_loop_outcome (bus : I2cBus) (mode : Nat) (more : Bool) :
    ∀ (ts : List spi_transfer) (hw : tiny6212) (al : Nat),
    ((transfer_loop bus mode more hw al ts).status = 0 ∧
      ∀ pre t post, ts = pre ++ t :: post →
        (transfer_loop bus mode true hw al pre).status = 0 ∧
        (transfer_body bus mode (transfer_loop bus mode true hw al pre).hw
          (transfer_loop bus mode true hw al pre).actual_length t
          (post.isEmpty && !more)).status = 0) ∨
    (∃ pre t post, ts = pre ++ t :: post ∧
      (transfer_loop bus mode true hw al pre).status = 0 ∧
      (transfer_body bus mode (transfer_loop bus mode true hw al pre).hw
        (transfer_loop bus mode true hw al pre).actual_length t
        (post.isEmpty && !more)).status < 0 ∧
      transfer_loop bus mode more hw al ts =
        ⟨(transfer_body bus mode (transfer_loop bus mode true hw al pre).hw
            (transfer_loop bus mode true hw al pre).actual_length t
            (post.isEmpty && !more)).hw,
          (transfer_loop bus mode true hw al pre).transfers ++
            (transfer_body bus mode (transfer_loop bus mode true hw al pre).hw
              (transfer_loop bus mode true hw al pre).actual_length t
              (post.isEmpty && !more)).t :: post,
          (transfer_body bus mode (transfer_loop bus mode true hw al pre).hw
            (transfer_loop bus mode true hw al pre).actual_length t
            (post.isEmpty && !more)).actual_length,
          (transfer_body bus mode (transfer_loop bus mode true hw al pre).hw
            (transfer_loop bus mode true hw al pre).actual_length t
            (post.isEmpty && !more)).status⟩) := by
  intro ts
  induction ts with
  | nil =>
    intro hw al
    left
    refine ⟨rfl, ?_⟩
    intro pre t post h
    exact absurd h (by simp)
  | cons t0 rest ih =>
    intro hw al
    by_cases hb : (transfer_body bus mode hw al t0 (rest.isEmpty && !more)).status < 0
    · right
      refine ⟨[], t0, rest, rfl, rfl, hb, ?_⟩
      rw [transfer_loop_cons, if_pos hb]
      rfl
    · have hz : (transfer_body bus mode hw al t0 (rest.isEmpty && !more)).status = 0 :=
        le_antisymm (transfer_body_status _ _ _ _ _ _) (not_lt.1 hb)
      -- when a further segment exists, `t0` was processed as a segment that is not last
      have hnl : rest ≠ [] → (rest.isEmpty && !more) = false := by
        intro hr
        cases rest with
        | nil => exact absurd rfl hr
        | cons _ _ => rfl
      rcases ih (transfer_body bus mode hw al t0 (rest.isEmpty && !more)).hw
        (transfer_body bus mode hw al t0 (rest.isEmpty && !more)).actual_length with
        ⟨hs, hall⟩ | ⟨pre, t, post, hsplit, hpre, hfail, hout⟩
      · left
        constructor
        · rw [transfer_loop_cons, if_neg hb]
          exact hs
        · intro pre t post hsplit
          cases pre with
          | nil =>
            simp only [List.nil_append, List.cons.injEq] at hsplit
            obtain ⟨h1, h2⟩ := hsplit
            subst h1
            subst h2
            exact ⟨rfl, hz⟩
          | cons p pre1 =>
            simp only [List.cons_append, List.cons.injEq] at hsplit
            obtain ⟨h1, h2⟩ := hsplit
            subst h1
            have hne : rest ≠ [] := by rw [h2]; simp
            have hl := hnl hne
            rw [hl] at hb hall
            rw [transfer_loop_true_cons bus mode hw al t0 pre1 hb]
            exact hall pre1 t post h2
      · right
        have hne : rest ≠ [] := by rw [hsplit]; simp
        have hl := hnl hne
        rw [hl] at hb hpre hfail hout
        refine ⟨t0 :: pre, t, post, by rw [hsplit]; rfl, ?_, ?_, ?_⟩
        · rw [transfer_loop_true_cons bus mode hw al t0 pre hb]
          exact hpre
        · rw [transfer_loop_true_cons bus mode hw al t0 pre hb]
          exact hfail
        · rw [transfer_loop_cons, hl, if_neg hb, hout,
            transfer_loop_true_cons bus mode hw al t0 pre hb]
          rfl

/-! ## Outcomes of the phases of `tiny6212_txrx` -/

theorem txrx_flush_cases (bus : I2cBus) (hw : tiny6212) (d : Bool) :
    (¬ (d = true ∧ 1 < hw.tlen) ∧ txrx_flush bus hw d = (none, hw)) ∨
    (d = true ∧ 1 < hw.tlen ∧
      txrx_flush bus hw d =
        if (bus hw.client.length (I2cCall.send (hw.wbuf.take hw.tlen.toNat))).ret < 0 then
          (some (bus hw.client.length (I2cCall.send (hw.wbuf.take hw.tlen.toNat))).ret,
            { hw with client := hw.client ++ [I2cCall.send (hw.wbuf.take hw.tlen.toNat)] })
        else if (bus hw.client.length (I2cCall.send (hw.wbuf.take hw.tlen.toNat))).ret ≠
            hw.tlen then
          (some (- EIO_errno),
            { hw with client := hw.client ++ [I2cCall.send (hw.wbuf.take hw.tlen.toNat)] })
        else
          (none, { hw with client := hw.client ++ [I2cCall.send (hw.wbuf.take hw.tlen.toNat)],
                           tlen := 0 })) := by
  by_cases hc : d = true ∧ 1 < hw.tlen
  · right
    refine ⟨hc.1, hc.2, ?_⟩
    unfold txrx_flush i2c_master_send
    rw [if_pos (by simp [hc.1, hc.2])]
  · left
    refine ⟨hc, ?_⟩
    unfold txrx_flush
    rw [if_neg]
    simp only [Bool.and_eq_true, decide_eq_true_eq, gt_iff_lt]
    exact hc

theorem txrx_of_flush_err (bus : I2cBus) (hw : tiny6212) (t : spi_transfer) (d : Bool) (e : Int)
    (h : (txrx_flush bus (txrx_frame hw t d).1 (txrx_frame hw t d).2).1 = some e) :
    tiny6212_txrx bus hw t d =
      (e, (txrx_flush bus (txrx_frame hw t d).1 (txrx_frame hw t d).2).2, t) := by
  unfold tiny6212_txrx
  simp only [h]

theorem txrx_of_no_rx (bus : I2cBus) (hw : tiny6212) (t : spi_transfer) (d : Bool)
    (h : (txrx_flush bus (txrx_frame hw t d).1 (txrx_frame hw t d).2).1 = none)
    (hrx : t.rx_buf = none) :
    tiny6212_txrx bus hw t d =
      (s32 t.len, (txrx_flush bus (txrx_frame hw t d).1 (txrx_frame hw t d).2).2, t) := by
  unfold tiny6212_txrx
  simp only [h, hrx]

theorem txrx_of_recv_err (bus : I2cBus) (hw : tiny6212) (t : spi_transfer) (d : Bool)
    (rx : List Nat) (e : Int)
    (h : (txrx_flush bus (txrx_frame hw t d).1 (txrx_frame hw t d).2).1 = none)
    (hrx : t.rx_buf = some rx)
    (hr : (recv_loop bus (txrx_flush bus (txrx_frame hw t d).1 (txrx_frame hw t d).2).2 0
      t.len).1 = some e) :
    tiny6212_txrx bus hw t d =
      (e, (recv_loop bus (txrx_flush bus (txrx_frame hw t d).1 (txrx_frame hw t d).2).2 0
        t.len).2, t) := by
  unfold tiny6212_txrx
  simp only [h, hrx, hr]

theorem txrx_of_recv_ok (bus : I2cBus) (hw : tiny6212) (t : spi_transfer) (d : Bool)
    (rx : List Nat)
    (h : (txrx_flush bus (txrx_frame hw t d).1 (txrx_frame hw t d).2).1 = none)
    (hrx : t.rx_buf = some rx)
    (hr : (recv_loop bus (txrx_flush bus (txrx_frame hw t d).1 (txrx_frame hw t d).2).2 0
      t.len).1 = none) :
    tiny6212_txrx bus hw t d =
      (s32 t.len,
        (recv_loop bus (txrx_flush bus (txrx_frame hw t d).1 (txrx_frame hw t d).2).2 0
          t.len).2,
        { t with rx_buf := some (memcpy rx 0
          ((recv_loop bus (txrx_flush bus (txrx_frame hw t d).1 (txrx_frame hw t d).2).2 0
            t.len).2.rbuf.take t.len)) }) := by
  unfold tiny6212_txrx
  simp only [h, hrx, hr]

/-- The receive loop either gets a positive count from all `k` receives, or
stops at the first receive that reports zero or a negative code. -/
theorem recv_loop_outcome (bus : I2cBus) (k : Nat) : ∀ (hw : tiny6212) (j : Nat),
    ((∀ i < k, 0 < (bus (hw.client.length + i) (I2cCall.recv 1)).ret) ∧
      (recv_loop bus hw j k).1 = none) ∨
    (∃ i < k, (∀ p < i, 0 < (bus (hw.client.length + p) (I2cCall.recv 1)).ret) ∧
      (bus (hw.client.length + i) (I2cCall.recv 1)).ret ≤ 0 ∧
      (recv_loop bus hw j k).1 =
        some (if (bus (hw.client.length + i) (I2cCall.recv 1)).ret < 0
          then (bus (hw.client.length + i) (I2cCall.recv 1)).ret else - EIO_errno) ∧
      (recv_loop bus hw j k).2.client =
        hw.client ++ List.replicate (i + 1) (I2cCall.recv 1)) := by
  induction k with
  | zero =>
    intro hw j
    left
    exact ⟨fun i hi => absurd hi (Nat.not_lt_zero i), rfl⟩
  | succ k ih =>
    intro hw j
    by_cases h0 : 0 < (bus hw.client.length (I2cCall.recv 1)).ret
    · obtain ⟨hw1, hdef⟩ : ∃ hw1 : tiny6212, hw1 = { hw with
          client := hw.client ++ [I2cCall.recv 1],
          rbuf := memcpy hw.rbuf j [(bus hw.client.length (I2cCall.recv 1)).data] } := ⟨_, rfl⟩
      have hstep : recv_loop bus hw j (k + 1) = recv_loop bus hw1 (j + 1) k := by
        simp only [recv_loop, i2c_master_recv, show (1 : Int).toNat = 1 from rfl]
        rw [if_neg (not_lt.2 (le_of_lt h0)), if_neg (ne_of_gt h0), hdef]
      have hc1 : hw1.client = hw.client ++ [I2cCall.recv 1] := by rw [hdef]
      have hidx : ∀ i, hw1.client.length + i = hw.client.length + (i + 1) := by
        intro i
        rw [hc1, List.length_append, List.length_singleton]
        omega
      rw [hstep]
      rcases ih hw1 (j + 1) with ⟨hall, hn⟩ | ⟨i, hi, hpre, hle, he, hcl⟩
      · left
        refine ⟨?_, hn⟩
        intro i hi
        cases i with
        | zero => simpa using h0
        | succ p =>
          have := hall p (by omega)
          rwa [hidx] at this
      · right
        refine ⟨i + 1, by omega, ?_, ?_, ?_, ?_⟩
        · intro p hp
          cases p with
          | zero => simpa using h0
          | succ q =>
            have := hpre q (by omega)
            rwa [hidx] at this
        · rwa [hidx] at hle
        · rw [he, hidx]
        · rw [hcl, hc1]
          simp [List.replicate_succ]
    · right
      refine ⟨0, Nat.succ_pos k, fun p hp => absurd hp (Nat.not_lt_zero p), ?_, ?_, ?_⟩
      · simpa using not_lt.1 h0
      · simp only [recv_loop, i2c_master_recv, show (1 : Int).toNat = 1 from rfl, Nat.add_zero]
        split_ifs with h1 h2
        · rfl
        · rfl
        · omega
      · simp only [recv_loop, i2c_master_recv, show (1 : Int).toNat = 1 from rfl]
        split_ifs with h1 h2
        · rfl
        · rfl
        · omega

theorem txrx_frame_fields (hw : tiny6212) (t : spi_transfer) (d : Bool) :
    (txrx_frame hw t d).1.client = hw.client ∧ (txrx_frame hw t d).1.ctrl = hw.ctrl ∧
    (txrx_frame hw t d).1.freq = hw.freq ∧ (txrx_frame hw t d).1.rbuf = hw.rbuf := by
  unfold txrx_frame
  cases t.tx_buf <;> split_ifs <;> exact ⟨rfl, rfl, rfl, rfl⟩

/-- A negative return value of `tiny6212_txrx` for a segment shorter than
`2^31`: the segment is handed back unchanged and the last call of the log is
the one that failed, with a negative code passed through unchanged, or with a
short send or an empty receive reported as `-EIO`. -/
theorem txrx_error (bus : I2cBus) (hw : tiny6212) (t : spi_transfer) (d : Bool)
    (hlen : t.len < 2147483648) (hf : (tiny6212_txrx bus hw t d).1 < 0) :
    (tiny6212_txrx bus hw t d).2.2 = t ∧
    ∃ init c, (tiny6212_txrx bus hw t d).2.1.client = init ++ [c] ∧
      hw.client.length ≤ init.length ∧
      (((bus init.length c).ret < 0 ∧ (tiny6212_txrx bus hw t d).1 = (bus init.length c).ret) ∨
       ((tiny6212_txrx bus hw t d).1 = - EIO_errno ∧ 0 ≤ (bus init.length c).ret ∧
          ((∃ b, c = I2cCall.send b ∧
              (bus init.length c).ret ≠ (tiny6212_txrx bus hw t d).2.1.tlen) ∨
           (c = I2cCall.recv 1 ∧ (bus init.length c).ret = 0)))) := by
  have hs : 0 ≤ s32 t.len := by rw [s32_of_lt _ hlen]; omega
  have hfc := (txrx_frame_fields hw t d).1
  -- the receive phase, entered from a session `S` whose log extends the one of `hw`
  have hrecv : ∀ (S : tiny6212) (rx : List Nat),
      (txrx_flush bus (txrx_frame hw t d).1 (txrx_frame hw t d).2) = (none, S) →
      hw.client.length ≤ S.client.length → t.rx_buf = some rx →
      (tiny6212_txrx bus hw t d).2.2 = t ∧
      ∃ init c, (tiny6212_txrx bus hw t d).2.1.client = init ++ [c] ∧
        hw.client.length ≤ init.length ∧
        (((bus init.length c).ret < 0 ∧
            (tiny6212_txrx bus hw t d).1 = (bus init.length c).ret) ∨
         ((tiny6212_txrx bus hw t d).1 = - EIO_errno ∧ 0 ≤ (bus init.length c).ret ∧
            ((∃ b, c = I2cCall.send b ∧
                (bus init.length c).ret ≠ (tiny6212_txrx bus hw t d).2.1.tlen) ∨
             (c = I2cCall.recv 1 ∧ (bus init.length c).ret = 0)))) := by
    intro S rx hfl hSl hrx
    have h1 : (txrx_flush bus (txrx_frame hw t d).1 (txrx_frame hw t d).2).1 = none := by
      rw [hfl]
    have h2 : (txrx_flush bus (txrx_frame hw t d).1 (txrx_frame hw t d).2).2 = S := by
      rw [hfl]
    rcases recv_loop_outcome bus t.len S 0 with ⟨-, hn⟩ | ⟨i, -, -, hle, he, hcl⟩
    · have hx := txrx_of_recv_ok bus hw t d rx h1 hrx (by rw [h2]; exact hn)
      rw [hx] at hf
      simp only at hf
      omega
    · have hx := txrx_of_recv_err bus hw t d rx _ h1 hrx (by rw [h2]; exact he)
      rw [hx, h2]
      refine ⟨rfl, S.client ++ List.replicate i (I2cCall.recv 1), I2cCall.recv 1, ?_, ?_, ?_⟩
      · rw [hcl, List.replicate_succ', List.append_assoc]
      · rw [List.length_append]
        omega
      · rw [List.length_append, List.length_replicate]
        by_cases hneg : (bus (S.client.length + i) (I2cCall.recv 1)).ret < 0
        · left
          exact ⟨hneg, by simp only [if_pos hneg]⟩
        · right
          refine ⟨by simp only [if_neg hneg], not_lt.1 hneg, Or.inr ⟨rfl, ?_⟩⟩
          omega
  rcases txrx_flush_cases bus (txrx_frame hw t d).1 (txrx_frame hw t d).2 with
    ⟨-, hfl⟩ | ⟨-, -, hfl⟩
  · cases hrx : t.rx_buf with
    | none =>
      have hx := txrx_of_no_rx bus hw t d (by rw [hfl]) hrx
      rw [hx] at hf
      simp only at hf
      omega
    | some rx => exact hrecv _ rx hfl (by rw [hfc]) hrx
  · by_cases hneg : (bus (txrx_frame hw t d).1.client.length (I2cCall.send
        ((txrx_frame hw t d).1.wbuf.take (txrx_frame hw t d).1.tlen.toNat))).ret < 0
    · rw [if_pos hneg] at hfl
      have hx := txrx_of_flush_err bus hw t d _ (by rw [hfl])
      rw [hx, hfl]
      refine ⟨rfl, hw.client, I2cCall.send ((txrx_frame hw t d).1.wbuf.take
        (txrx_frame hw t d).1.tlen.toNat), by simp only [hfc], le_refl _, Or.inl ⟨?_, ?_⟩⟩
      · rw [← hfc]; exact hneg
      · rw [← hfc]
    · rw [if_neg hneg] at hfl
      by_cases hne : (bus (txrx_frame hw t d).1.client.length (I2cCall.send
          ((txrx_frame hw t d).1.wbuf.take (txrx_frame hw t d).1.tlen.toNat))).ret ≠
          (txrx_frame hw t d).1.tlen
      · rw [if_pos hne] at hfl
        have hx := txrx_of_flush_err bus hw t d _ (by rw [hfl])
        rw [hx, hfl]
        refine ⟨rfl, hw.client, I2cCall.send ((txrx_frame hw t d).1.wbuf.take
          (txrx_frame hw t d).1.tlen.toNat), by simp only [hfc], le_refl _,
          Or.inr ⟨rfl, ?_, Or.inl ⟨_, rfl, ?_⟩⟩⟩
        · rw [← hfc]; exact not_lt.1 hneg
        · rw [← hfc]; exact hne
      · rw [if_neg hne] at hfl
        cases hrx : t.rx_buf with
        | none =>
          have hx := txrx_of_no_rx bus hw t d (by rw [hfl]) hrx
          rw [hx] at hf
          simp only at hf
          omega
        | some rx =>
          exact hrecv _ rx hfl (by simp only [hfc, List.length_append]; omega) hrx

/-! ## The five ways through the loop body -/

theorem setup_transfer_ret (bus : I2cBus) (hw : tiny6212) (hz mode : Nat) :
    (tiny6212_setup_transfer bus hw hz mode).1 ≤ 0 := by
  rw [setup_transfer_eq]
  split_ifs with h1 h2
  · exact le_refl _
  · exact le_of_lt h2
  · exact le_refl _

theorem check_transfer_values (t : spi_transfer) (tlen : Int) :
    tiny6212_check_transfer t tlen = 0 ∨ tiny6212_check_transfer t tlen = - EINVAL_errno := by
  unfold tiny6212_check_transfer
  split_ifs
  · exact Or.inr rfl
  · exact Or.inl rfl

/-- The loop body ends in exactly one of five ways: validation fails,
configuration fails, `tiny6212_txrx` fails, `tiny6212_txrx` succeeds, or the
segment is empty and `tiny6212_txrx` is skipped. -/
theorem transfer_body_cases (bus : I2cBus) (mode : Nat) (hw : tiny6212) (al : Nat)
    (t : spi_transfer) (is_last : Bool) :
    (tiny6212_check_transfer t hw.tlen = - EINVAL_errno ∧
      transfer_body bus mode hw al t is_last = ⟨hw, t, al, - EINVAL_errno⟩) ∨
    (tiny6212_check_transfer t hw.tlen = 0 ∧
      (tiny6212_setup_transfer bus hw (t.speed_hz % 4294967296) (mode % 256)).1 < 0 ∧
      transfer_body bus mode hw al t is_last =
        ⟨(tiny6212_setup_transfer bus hw (t.speed_hz % 4294967296) (mode % 256)).2, t, al,
          (tiny6212_setup_transfer bus hw (t.speed_hz % 4294967296) (mode % 256)).1⟩) ∨
    (tiny6212_check_transfer t hw.tlen = 0 ∧
      (tiny6212_setup_transfer bus hw (t.speed_hz % 4294967296) (mode % 256)).1 = 0 ∧
      t.len ≠ 0 ∧
      (tiny6212_txrx bus (tiny6212_setup_transfer bus hw (t.speed_hz % 4294967296)
        (mode % 256)).2 t (t.cs_change || is_last)).1 < 0 ∧
      transfer_body bus mode hw al t is_last =
        ⟨(tiny6212_txrx bus (tiny6212_setup_transfer bus hw (t.speed_hz % 4294967296)
            (mode % 256)).2 t (t.cs_change || is_last)).2.1,
          (tiny6212_txrx bus (tiny6212_setup_transfer bus hw (t.speed_hz % 4294967296)
            (mode % 256)).2 t (t.cs_change || is_last)).2.2, al,
          (tiny6212_txrx bus (tiny6212_setup_transfer bus hw (t.speed_hz % 4294967296)
            (mode % 256)).2 t (t.cs_change || is_last)).1⟩) ∨
    (tiny6212_check_transfer t hw.tlen = 0 ∧
      (tiny6212_setup_transfer bus hw (t.speed_hz % 4294967296) (mode % 256)).1 = 0 ∧
      t.len ≠ 0 ∧
      0 ≤ (tiny6212_txrx bus (tiny6212_setup_transfer bus hw (t.speed_hz % 4294967296)
        (mode % 256)).2 t (t.cs_change || is_last)).1 ∧
      transfer_body bus mode hw al t is_last =
        ⟨(tiny6212_txrx bus (tiny6212_setup_transfer bus hw (t.speed_hz % 4294967296)
            (mode % 256)).2 t (t.cs_change || is_last)).2.1,
          (tiny6212_txrx bus (tiny6212_setup_transfer bus hw (t.speed_hz % 4294967296)
            (mode % 256)).2 t (t.cs_change || is_last)).2.2,
          (al + u32 (tiny6212_txrx bus (tiny6212_setup_transfer bus hw
            (t.speed_hz % 4294967296) (mode % 256)).2 t (t.cs_change || is_last)).1) %
            4294967296, 0⟩) ∨
    (tiny6212_check_transfer t hw.tlen = 0 ∧
      (tiny6212_setup_transfer bus hw (t.speed_hz % 4294967296) (mode % 256)).1 = 0 ∧
      t.len = 0 ∧
      transfer_body bus mode hw al t is_last =
        ⟨(tiny6212_setup_transfer bus hw (t.speed_hz % 4294967296) (mode % 256)).2, t, al,
          0⟩) := by
  have hneg : (- EINVAL_errno) < 0 := by decide
  rcases check_transfer_values t hw.tlen with hc | hc
  · right
    have hsr := setup_transfer_ret bus hw (t.speed_hz % 4294967296) (mode % 256)
    by_cases hs : (tiny6212_setup_transfer bus hw (t.speed_hz % 4294967296) (mode % 256)).1 < 0
    · left
      refine ⟨hc, hs, ?_⟩
      unfold transfer_body
      simp only [hc, lt_self_iff_false, if_false, hs, if_true]
    · have hs0 : (tiny6212_setup_transfer bus hw (t.speed_hz % 4294967296) (mode % 256)).1 = 0 :=
        le_antisymm hsr (not_lt.1 hs)
      right
      by_cases hl : t.len = 0
      · right; right
        refine ⟨hc, hs0, hl, ?_⟩
        unfold transfer_body
        simp only [hc, lt_self_iff_false, if_false, hs, hl, ne_eq, not_true_eq_false]
      · by_cases hx : (tiny6212_txrx bus (tiny6212_setup_transfer bus hw
            (t.speed_hz % 4294967296) (mode % 256)).2 t (t.cs_change || is_last)).1 < 0
        · left
          refine ⟨hc, hs0, hl, hx, ?_⟩
          unfold transfer_body
          simp only [hc, lt_self_iff_false, if_false, hs, hl, ne_eq, not_false_eq_true,
            if_true, hx]
        · right; left
          refine ⟨hc, hs0, hl, not_lt.1 hx, ?_⟩
          unfold transfer_body
          simp only [hc, lt_self_iff_false, if_false, hs, hl, ne_eq, not_false_eq_true,
            if_true, hx]
  · left
    refine ⟨hc, ?_⟩
    unfold transfer_body
    simp only [hc, hneg, if_true]

/-- A failing iteration adds nothing to the transferred total; for a segment
shorter than `2^31` it leaves the segment as it was, and its status is
`-EINVAL` with no transport call made, or the negative code of the last call
of the log, or `-EIO` for a short send or an empty receive as last call. -/
theorem transfer_body_error (bus : I2cBus) (mode : Nat) (hw : tiny6212) (al : Nat)
    (t : spi_transfer) (is_last : Bool)
    (hf : (transfer_body bus mode hw al t is_last).status < 0) :
    (transfer_body bus mode hw al t is_last).actual_length = al ∧
    (t.len < 2147483648 →
      (transfer_body bus mode hw al t is_last).t = t ∧
      (((transfer_body bus mode hw al t is_last).status = - EINVAL_errno ∧
          (transfer_body bus mode hw al t is_last).hw = hw) ∨
        ∃ init c, (transfer_body bus mode hw al t is_last).hw.client = init ++ [c] ∧
          hw.client.length ≤ init.length ∧
          (((bus init.length c).ret < 0 ∧
              (transfer_body bus mode hw al t is_last).status = (bus init.length c).ret) ∨
           ((transfer_body bus mode hw al t is_last).status = - EIO_errno ∧
              0 ≤ (bus init.length c).ret ∧
              ((∃ b, c = I2cCall.send b ∧
                  (bus init.length c).ret ≠ (transfer_body bus mode hw al t is_last).hw.tlen) ∨
               (c = I2cCall.recv 1 ∧ (bus init.length c).ret = 0)))))) := by
  rcases transfer_body_cases bus mode hw al t is_last with
    ⟨-, hb⟩ | ⟨-, hs, hb⟩ | ⟨-, -, -, hx, hb⟩ | ⟨-, -, -, -, hb⟩ | ⟨-, -, -, hb⟩
  · rw [hb]
    exact ⟨rfl, fun _ => ⟨rfl, Or.inl ⟨rfl, rfl⟩⟩⟩
  · rw [hb]
    refine ⟨rfl, fun _ => ⟨rfl, Or.inr ?_⟩⟩
    rw [setup_transfer_eq] at hs ⊢
    by_cases hc : setup_ctrl hw.freq (t.speed_hz % 4294967296) (mode % 256) = hw.ctrl
    · rw [if_pos hc] at hs
      simp only at hs
      omega
    · rw [if_neg hc] at hs ⊢
      by_cases hr : (bus hw.client.length (I2cCall.send
          [2, setup_ctrl hw.freq (t.speed_hz % 4294967296) (mode % 256)])).ret < 0
      · rw [if_pos hr]
        exact ⟨hw.client, I2cCall.send
          [2, setup_ctrl hw.freq (t.speed_hz % 4294967296) (mode % 256)], rfl, le_refl _,
          Or.inl ⟨hr, rfl⟩⟩
      · rw [if_neg hr] at hs
        simp only at hs
        omega
  · rw [hb]
    refine ⟨rfl, fun hlen => ?_⟩
    obtain ⟨e1, init, c, e2, e3, e4⟩ := txrx_error bus _ t (t.cs_change || is_last) hlen hx
    refine ⟨e1, Or.inr ⟨init, c, e2, ?_, e4⟩⟩
    have hcl := setup_transfer_client bus hw (t.speed_hz % 4294967296) (mode % 256)
    have : hw.client.length ≤
        (tiny6212_setup_transfer bus hw (t.speed_hz % 4294967296) (mode % 256)).2.client.length := by
      rw [hcl]
      split_ifs
      · exact le_refl _
      · simp
    omega
  · rw [hb] at hf
    simp only at hf
    omega
  · rw [hb] at hf
    simp only at hf
    omega

/-- The outcome of `tiny6212_transfer_one` in terms of the segments of the
message: all succeed, or a first one fails and its outcome is the outcome of
the message. -/
theorem transfer_one_outcome (bus : I2cBus) (hw : tiny6212) (m : spi_message) :
    ((tiny6212_transfer_one bus hw m).1 = 0 ∧
      ∀ pre t post, m.transfers = pre ++ t :: post →
        (segment_entry bus hw m pre).status = 0 ∧
        (segment_result bus hw m pre t post).status = 0) ∨
    (∃ pre t post, m.transfers = pre ++ t :: post ∧
      (segment_entry bus hw m pre).status = 0 ∧
      (segment_result bus hw m pre t post).status < 0 ∧
      (tiny6212_transfer_one bus hw m).1 = (segment_result bus hw m pre t post).status ∧
      (tiny6212_transfer_one bus hw m).2.1 = (segment_result bus hw m pre t post).hw ∧
      (tiny6212_transfer_one bus hw m).2.2.transfers =
        (segment_entry bus hw m pre).transfers ++
          (segment_result bus hw m pre t post).t :: post ∧
      (tiny6212_transfer_one bus hw m).2.2.actual_length =
        (segment_result bus hw m pre t post).actual_length) := by
  rcases transfer_loop_outcome bus m.mode false m.transfers { hw with tlen := 0 }
    m.actual_length with ⟨hs, hall⟩ | ⟨pre, t, post, hsplit, hpre, hfail, hout⟩
  · left
    refine ⟨hs, ?_⟩
    intro pre t post hsplit
    have := hall pre t post hsplit
    simp only [Bool.not_false, Bool.and_true] at this
    exact this
  · right
    simp only [Bool.not_false, Bool.and_true] at hfail hout
    refine ⟨pre, t, post, hsplit, hpre, hfail, ?_, ?_, ?_, ?_⟩
    · unfold tiny6212_transfer_one
      simp only [hout]
      rfl
    · unfold tiny6212_transfer_one
      simp only [hout]
      rfl
    · unfold tiny6212_transfer_one
      simp only [hout]
      rfl
    · unfold tiny6212_transfer_one
      simp only [hout]
      rfl

theorem transfer_body_ok_iff (bus : I2cBus) (mode : Nat) (hw : tiny6212) (al : Nat)
    (t : spi_transfer) (is_last : Bool) :
    (transfer_body bus mode hw al t is_last).status = 0 ↔
      (tiny6212_check_transfer t hw.tlen = 0 ∧
        (tiny6212_setup_transfer bus hw (t.speed_hz % 4294967296) (mode % 256)).1 = 0 ∧
        (t.len ≠ 0 → 0 ≤ (tiny6212_txrx bus (tiny6212_setup_transfer bus hw
          (t.speed_hz % 4294967296) (mode % 256)).2 t (t.cs_change || is_last)).1)) := by
  have hneg : (- EINVAL_errno) ≠ 0 := by decide
  rcases transfer_body_cases bus mode hw al t is_last with
    ⟨hc, hb⟩ | ⟨hc, hs, hb⟩ | ⟨hc, hs, hl, hx, hb⟩ | ⟨hc, hs, hl, hx, hb⟩ | ⟨hc, hs, hl, hb⟩
  · rw [hb, hc]
    constructor
    · intro h; exact absurd h hneg
    · intro h; exact absurd h.1 hneg
  · rw [hb]
    constructor
    · intro h; simp only at h; omega
    · intro h; omega
  · rw [hb]
    constructor
    · intro h; simp only at h; omega
    · intro h
      have := h.2.2 hl
      omega
  · rw [hb]
    exact ⟨fun _ => ⟨hc, hs, fun _ => hx⟩, fun _ => rfl⟩
  · rw [hb]
    exact ⟨fun _ => ⟨hc, hs, fun h => absurd hl h⟩, fun _ => rfl⟩

/-! ## Return value of `tiny6212_txrx` and the transferred total -/

theorem txrx_ret (bus : I2cBus) (hw : tiny6212) (t : spi_transfer) (d : Bool) :
    (tiny6212_txrx bus hw t d).1 < 0 ∨ (tiny6212_txrx bus hw t d).1 = s32 t.len := by
  have hio : (- EIO_errno) < 0 := by decide
  have hrecv : ∀ (S : tiny6212) (rx : List Nat),
      (txrx_flush bus (txrx_frame hw t d).1 (txrx_frame hw t d).2) = (none, S) →
      t.rx_buf = some rx →
      (tiny6212_txrx bus hw t d).1 < 0 ∨ (tiny6212_txrx bus hw t d).1 = s32 t.len := by
    intro S rx hfl hrx
    have h1 : (txrx_flush bus (txrx_frame hw t d).1 (txrx_frame hw t d).2).1 = none := by
      rw [hfl]
    have h2 : (txrx_flush bus (txrx_frame hw t d).1 (txrx_frame hw t d).2).2 = S := by
      rw [hfl]
    rcases recv_loop_outcome bus t.len S 0 with ⟨-, hn⟩ | ⟨i, -, -, hle, he, -⟩
    · right
      rw [txrx_of_recv_ok bus hw t d rx h1 hrx (by rw [h2]; exact hn)]
    · left
      rw [txrx_of_recv_err bus hw t d rx _ h1 hrx (by rw [h2]; exact he)]
      simp only
      split_ifs with hneg
      · exact hneg
      · exact hio
  rcases txrx_flush_cases bus (txrx_frame hw t d).1 (txrx_frame hw t d).2 with
    ⟨-, hfl⟩ | ⟨-, -, hfl⟩
  · cases hrx : t.rx_buf with
    | none =>
      right
      rw [txrx_of_no_rx bus hw t d (by rw [hfl]) hrx]
    | some rx => exact hrecv _ rx hfl hrx
  · split_ifs at hfl with hneg hne
    · left
      rw [txrx_of_flush_err bus hw t d _ (by rw [hfl])]
      exact hneg
    · left
      rw [txrx_of_flush_err bus hw t d _ (by rw [hfl])]
      exact hio
    · cases hrx : t.rx_buf with
      | none =>
        right
        rw [txrx_of_no_rx bus hw t d (by rw [hfl]) hrx]
      | some rx => exact hrecv _ rx hfl hrx

theorem u32_s32_of_nonneg (n : Nat) (hn : n < 4294967296) (h : 0 ≤ s32 n) : u32 (s32 n) = n := by
  unfold s32 at h ⊢
  have h1 : n % 4294967296 = n := Nat.mod_eq_of_lt hn
  rw [h1] at h ⊢
  split_ifs at h ⊢ with hlt
  · exact u32_natCast n hn
  · omega

/-- A successful iteration adds the length of the segment to the total. -/
theorem transfer_body_ok_total (bus : I2cBus) (mode : Nat) (hw : tiny6212) (al : Nat)
    (t : spi_transfer) (is_last : Bool)
    (hs : (transfer_body bus mode hw al t is_last).status = 0)
    (hlen : t.len < 4294967296) (hal : al + t.len < 4294967296) :
    (transfer_body bus mode hw al t is_last).actual_length = al + t.len := by
  have hneg : (- EINVAL_errno) ≠ 0 := by decide
  rcases transfer_body_cases bus mode hw al t is_last with
    ⟨-, hb⟩ | ⟨-, h1, hb⟩ | ⟨-, -, -, hx, hb⟩ | ⟨-, -, -, hx, hb⟩ | ⟨-, -, hl, hb⟩
  · rw [hb] at hs
    exact absurd hs hneg
  · rw [hb] at hs
    simp only at hs
    omega
  · rw [hb] at hs
    simp only at hs
    omega
  · rw [hb]
    simp only
    rcases txrx_ret bus (tiny6212_setup_transfer bus hw (t.speed_hz % 4294967296)
      (mode % 256)).2 t (t.cs_change || is_last) with h | h
    · omega
    · rw [h] at hx ⊢
      rw [u32_s32_of_nonneg _ hlen hx]
      exact Nat.mod_eq_of_lt hal
  · rw [hb, hl]
    rfl

/-- A run of the loop that succeeds adds the lengths of all its segments. -/
theorem transfer_loop_ok_total (bus : I2cBus) (mode : Nat) (more : Bool) :
    ∀ (ts : List spi_transfer) (hw : tiny6212) (al : Nat),
    (transfer_loop bus mode more hw al ts).status = 0 →
    (∀ t ∈ ts, t.len < 4294967296) →
    al + (ts.map spi_transfer.len).sum < 4294967296 →
    (transfer_loop bus mode more hw al ts).actual_length =
      al + (ts.map spi_transfer.len).sum := by
  intro ts
  induction ts with
  | nil =>
    intro hw al _ _ _
    rfl
  | cons t rest ih =>
    intro hw al hs hlen hal
    simp only [List.map_cons, List.sum_cons] at hal ⊢
    rw [transfer_loop_cons] at hs ⊢
    by_cases hb : (transfer_body bus mode hw al t (rest.isEmpty && !more)).status < 0
    · rw [if_pos hb] at hs
      simp only at hs
      omega
    · rw [if_neg hb] at hs ⊢
      simp only at hs ⊢
      have hz : (transfer_body bus mode hw al t (rest.isEmpty && !more)).status = 0 :=
        le_antisymm (transfer_body_status _ _ _ _ _ _) (not_lt.1 hb)
      have hbt := transfer_body_ok_total bus mode hw al t (rest.isEmpty && !more) hz
        (hlen t (List.mem_cons_self _ _)) (by omega)
      rw [ih _ _ hs (fun u hu => hlen u (List.mem_cons_of_mem _ hu)) (by rw [hbt]; omega), hbt]
      omega

/-! ## The scratch buffer during the receive loop -/

theorem recv_loop_step (bus : I2cBus) (hw : tiny6212) (j k : Nat)
    (h0 : 0 < (bus hw.client.length (I2cCall.recv 1)).ret) :
    recv_loop bus hw j (k + 1) =
      recv_loop bus { hw with client := hw.client ++ [I2cCall.recv 1],
                              rbuf := memcpy hw.rbuf j
                                [(bus hw.client.length (I2cCall.recv 1)).data] } (j + 1) k := by
  simp only [recv_loop, i2c_master_recv, show (1 : Int).toNat = 1 from rfl]
  rw [if_neg (not_lt.2 (le_of_lt h0)), if_neg (ne_of_gt h0)]

theorem recv_loop_stop (bus : I2cBus) (hw : tiny6212) (j k : Nat)
    (h0 : ¬ 0 < (bus hw.client.length (I2cCall.recv 1)).ret) :
    (recv_loop bus hw j (k + 1)).2.rbuf = hw.rbuf := by
  simp only [recv_loop, i2c_master_recv, show (1 : Int).toNat = 1 from rfl]
  split_ifs with h1 h2
  · rfl
  · rfl
  · omega

theorem memcpy_one_take (dst : List Nat) (j x : Nat) (hj : j ≤ dst.length) :
    (memcpy dst j [x]).take (j + 1) = dst.take j ++ [x] := by
  have h := memcpy_take dst j [x]
  simp only [List.length_singleton] at h
  rw [h, Nat.sub_eq_zero_of_le hj, List.replicate_zero, List.append_nil]

/-- The receive loop entered at index `j` never touches the scratch bytes
below `j`. -/
theorem recv_loop_below (bus : I2cBus) (k : Nat) : ∀ (hw : tiny6212) (j : Nat),
    j ≤ hw.rbuf.length → (recv_loop bus hw j k).2.rbuf.take j = hw.rbuf.take j := by
  induction k with
  | zero =>
    intro hw j _
    rfl
  | succ k ih =>
    intro hw j hj
    by_cases h0 : 0 < (bus hw.client.length (I2cCall.recv 1)).ret
    · obtain ⟨hw1, hdef⟩ : ∃ hw1 : tiny6212, hw1 = { hw with
          client := hw.client ++ [I2cCall.recv 1],
          rbuf := memcpy hw.rbuf j [(bus hw.client.length (I2cCall.recv 1)).data] } := ⟨_, rfl⟩
      have hstep := recv_loop_step bus hw j k h0
      rw [← hdef] at hstep
      have hr1 : hw1.rbuf = memcpy hw.rbuf j [(bus hw.client.length (I2cCall.recv 1)).data] := by
        rw [hdef]
      have hl := memcpy_length hw.rbuf j [(bus hw.client.length (I2cCall.recv 1)).data]
      simp only [List.length_singleton] at hl
      have h1 := ih hw1 (j + 1) (by rw [hr1, hl]; omega)
      have h2 := congrArg (List.take j) h1
      rw [List.take_take, List.take_take, Nat.min_eq_left (Nat.le_succ j)] at h2
      rw [hstep, h2, hr1]
      have h3 := congrArg (List.take j) (memcpy_one_take hw.rbuf j
        (bus hw.client.length (I2cCall.recv 1)).data hj)
      rw [List.take_take, Nat.min_eq_left (Nat.le_succ j)] at h3
      rw [h3, List.take_append_of_le_length (by rw [List.length_take]; omega),
        List.take_take, Nat.min_self]
    · rw [recv_loop_stop bus hw j k h0]

/-- The bytes delivered by the first `i` receives, all of them reporting a
positive count, stand at the scratch positions `j .. j+i-1` in order. -/
theorem recv_loop_scratch (bus : I2cBus) (k : Nat) : ∀ (hw : tiny6212) (j i : Nat),
    j ≤ hw.rbuf.length → i ≤ k →
    (∀ p < i, 0 < (bus (hw.client.length + p) (I2cCall.recv 1)).ret) →
    (recv_loop bus hw j k).2.rbuf.take (j + i) =
      hw.rbuf.take j ++
        (List.range i).map (fun p => (bus (hw.client.length + p) (I2cCall.recv 1)).data) := by
  induction k with
  | zero =>
    intro hw j i _ hi _
    have : i = 0 := by omega
    subst this
    simp [recv_loop]
  | succ k ih =>
    intro hw j i hj hi hpos
    cases i with
    | zero =>
      simp only [Nat.add_zero, List.range_zero, List.map_nil, List.append_nil]
      exact recv_loop_below bus (k + 1) hw j hj
    | succ q =>
      have h0 : 0 < (bus hw.client.length (I2cCall.recv 1)).ret := by
        simpa using hpos 0 (Nat.succ_pos q)
      obtain ⟨hw1, hdef⟩ : ∃ hw1 : tiny6212, hw1 = { hw with
          client := hw.client ++ [I2cCall.recv 1],
          rbuf := memcpy hw.rbuf j [(bus hw.client.length (I2cCall.recv 1)).data] } := ⟨_, rfl⟩
      have hstep := recv_loop_step bus hw j k h0
      rw [← hdef] at hstep
      have hr1 : hw1.rbuf = memcpy hw.rbuf j [(bus hw.client.length (I2cCall.recv 1)).data] := by
        rw [hdef]
      have hc1 : hw1.client = hw.client ++ [I2cCall.recv 1] := by rw [hdef]
      have hl := memcpy_length hw.rbuf j [(bus hw.client.length (I2cCall.recv 1)).data]
      simp only [List.length_singleton] at hl
      have h1 := ih hw1 (j + 1) q (by rw [hr1, hl]; omega) (by omega)
        (fun p hp => by
          have := hpos (p + 1) (by omega)
          rw [hc1, List.length_append, List.length_singleton]
          rwa [show hw.client.length + 1 + p = hw.client.length + (p + 1) by omega])
      rw [hstep, show j + (q + 1) = j + 1 + q by omega, h1, hr1,
        memcpy_one_take hw.rbuf j _ hj, hc1, List.range_succ_eq_map, List.map_cons,
        List.map_map]
      simp only [List.length_append, List.length_singleton, List.append_assoc,
        List.singleton_append, Nat.add_zero]
      congr 2
      apply List.map_congr_left
      intro p _
      simp only [Function.comp, Nat.succ_eq_add_one]
      rw [show hw.client.length + 1 + p = hw.client.length + (p + 1) by omega]

/-! ## The selected divisor as a function of the two frequencies -/

theorem divisor_of_setup_ctrl (freq hz mode : Nat) :
    divisor_of_ctrl (setup_ctrl freq hz mode) = selected_div freq hz := by
  obtain ⟨f, hf, hc, -⟩ := setup_ctrl_flags freq hz mode
  obtain ⟨k, hk, hd, hs⟩ := clock_div_field_selected freq hz
  rw [divisor_of_ctrl, hc, hd, (decode_field f hf k hk).1, hs]

theorem selected_div_antitone (freq hz1 hz2 : Nat) (h : hz1 ≤ hz2) :
    selected_div freq hz2 ≤ selected_div freq hz1 := by
  simp only [selected_div]
  split_ifs <;> omega

/-! ## The cursor after a flush that was due -/

theorem txrx_frame_flag (hw : tiny6212) (t : spi_transfer) (d : Bool) :
    (txrx_frame hw t d).2 = (d || (t.tx_buf.isSome && t.rx_buf.isSome)) := by
  unfold txrx_frame
  cases t.tx_buf <;> simp

theorem txrx_tlen (bus : I2cBus) (hw : tiny6212) (t : spi_transfer) (d : Bool) :
    (tiny6212_txrx bus hw t d).2.1.tlen =
      (txrx_flush bus (txrx_frame hw t d).1 (txrx_frame hw t d).2).2.tlen ∧
    (tiny6212_txrx bus hw t d).2.1.wbuf =
      (txrx_flush bus (txrx_frame hw t d).1 (txrx_frame hw t d).2).2.wbuf := by
  obtain ⟨-, r2, r3, -, -⟩ := recv_loop_calls bus t.len
    (txrx_flush bus (txrx_frame hw t d).1 (txrx_frame hw t d).2).2 0
  rcases txrx_session_cases bus hw t d with h | h
  · rw [h]
    exact ⟨rfl, rfl⟩
  · rw [h]
    exact ⟨r2, r3⟩

/-- When `tiny6212_txrx` is entered with a flush requested and does not fail,
nothing is left pending: the cursor is at most 1. -/
theorem txrx_flushed (bus : I2cBus) (hw : tiny6212) (t : spi_transfer) (d : Bool)
    (hd : (txrx_frame hw t d).2 = true) (h0 : 0 ≤ (tiny6212_txrx bus hw t d).1) :
    (tiny6212_txrx bus hw t d).2.1.tlen ≤ 1 := by
  have hio : (- EIO_errno) < 0 := by decide
  rw [(txrx_tlen bus hw t d).1]
  rcases txrx_flush_cases bus (txrx_frame hw t d).1 (txrx_frame hw t d).2 with
    ⟨hn, hfl⟩ | ⟨-, -, hfl⟩
  · rw [hfl]
    simp only
    by_contra hcon
    exact hn ⟨hd, by omega⟩
  · split_ifs at hfl with hneg hne
    · rw [txrx_of_flush_err bus hw t d _ (by rw [hfl])] at h0
      simp only at h0
      omega
    · rw [txrx_of_flush_err bus hw t d _ (by rw [hfl])] at h0
      simp only at h0
      omega
    · rw [hfl]
      exact Int.zero_le_ofNat 1

/-- The end of a message whose last segment is reached: the outcome of the
message is the outcome of the iteration of the last segment. -/
theorem transfer_one_last (bus : I2cBus) (hw : tiny6212) (m : spi_message)
    (pre : List spi_transfer) (t : spi_transfer) (hm : m.transfers = pre ++ [t])
    (hpre : (segment_entry bus hw m pre).status = 0) :
    (tiny6212_transfer_one bus hw m).1 = (segment_result bus hw m pre t []).status ∧
    (tiny6212_transfer_one bus hw m).2.1 = (segment_result bus hw m pre t []).hw := by
  have happ := transfer_loop_append bus m.mode false [t] (by simp) pre
    { hw with tlen := 0 } m.actual_length hpre
  unfold tiny6212_transfer_one
  simp only [hm, happ]
  rw [transfer_loop_cons]
  have hb : (([] : List spi_transfer).isEmpty && !false) = true := rfl
  rw [hb]
  split_ifs with hf
  · exact ⟨rfl, rfl⟩
  · have hz : (transfer_body bus m.mode (transfer_loop bus m.mode true { hw with tlen := 0 }
        m.actual_length pre).hw (transfer_loop bus m.mode true { hw with tlen := 0 }
        m.actual_length pre).actual_length t true).status = 0 :=
      le_antisymm (transfer_body_status _ _ _ _ _ _) (not_lt.1 hf)
    refine ⟨?_, rfl⟩
    simp only [transfer_loop_nil]
    exact hz.symm

/-! ## The calls made by one iteration, in detail -/

theorem memcpy_length_ge (dst : List Nat) (off : Nat) (src : List Nat) :
    dst.length ≤ (memcpy dst off src).length := by
  rw [memcpy_length]
  exact Nat.le_max_left _ _

theorem txrx_frame_wbuf_length (hw : tiny6212) (t : spi_transfer) (d : Bool) :
    hw.wbuf.length ≤ (txrx_frame hw t d).1.wbuf.length := by
  unfold txrx_frame
  cases t.tx_buf with
  | none =>
    simp only
    split_ifs
    · exact memcpy_length_ge _ _ _
    · exact le_refl _
  | some tx =>
    simp only
    split_ifs
    · exact le_trans (memcpy_length_ge _ 0 _) (memcpy_length_ge _ _ _)
    · exact memcpy_length_ge _ _ _

theorem txrx_session_cases_rx (bus : I2cBus) (hw : tiny6212) (t : spi_transfer) (d : Bool) :
    (tiny6212_txrx bus hw t d).2.1 =
        (txrx_flush bus (txrx_frame hw t d).1 (txrx_frame hw t d).2).2 ∨
    (t.rx_buf.isSome = true ∧ (tiny6212_txrx bus hw t d).2.1 =
        (recv_loop bus (txrx_flush bus (txrx_frame hw t d).1 (txrx_frame hw t d).2).2 0
          t.len).2) := by
  cases hrx : t.rx_buf with
  | none =>
    left
    cases hf : (txrx_flush bus (txrx_frame hw t d).1 (txrx_frame hw t d).2).1 with
    | none => rw [txrx_of_no_rx bus hw t d hf hrx]
    | some e => rw [txrx_of_flush_err bus hw t d e hf]
  | some rx =>
    rcases txrx_session_cases bus hw t d with h | h
    · exact Or.inl h
    · exact Or.inr ⟨rfl, h⟩

theorem take_of_header (w : List Nat) (n : Nat) (hh : w.head? = some 1) (hl : 2 ≤ w.length)
    (hn : 2 ≤ n) : ∃ x xs, w.take n = 1 :: x :: xs := by
  cases w with
  | nil => simp at hl
  | cons a l =>
    cases l with
    | nil => simp at hl
    | cons b r =>
      obtain ⟨k, rfl⟩ : ∃ k, n = k + 2 := ⟨n - 2, by omega⟩
      simp only [List.head?_cons, Option.some.injEq] at hh
      exact ⟨b, r.take k, by rw [List.take_succ_cons, List.take_succ_cons, hh]⟩

/-- The calls of `tiny6212_txrx` for a validated segment: at most one
TRANSMIT frame, sent only when the flush is due and the cursor exceeds 1 and
then carrying the header and at least one more byte, followed by one-byte
receives, none of them when the segment has no receive buffer. -/
theorem txrx_calls_detail (bus : I2cBus) (hw : tiny6212) (t : spi_transfer) (d : Bool)
    (hH : Hdr hw) (hwb : 2 ≤ hw.wbuf.length)
    (hchk : tiny6212_check_transfer t hw.tlen = 0) (hlen : t.len < 4294967296) :
    Hdr (tiny6212_txrx bus hw t d).2.1 ∧ 2 ≤ (tiny6212_txrx bus hw t d).2.1.wbuf.length ∧
    ∃ fl n, (tiny6212_txrx bus hw t d).2.1.client =
        hw.client ++ fl ++ List.replicate n (I2cCall.recv 1) ∧
      (fl = [] ∨ ((∃ x xs, fl = [I2cCall.send (1 :: x :: xs)]) ∧
        (d || (t.tx_buf.isSome && t.rx_buf.isSome)) = true ∧
        1 < (txrx_frame hw t d).1.tlen)) ∧
      (t.rx_buf = none → n = 0) ∧ n ≤ t.len := by
  obtain ⟨f1, f2, f3, f4, -, -, -⟩ := txrx_frame_hdr hw t d hH hchk hlen
  have fl2 := le_trans hwb (txrx_frame_wbuf_length hw t d)
  have hHt := (txrx_calls bus hw t d hH hchk hlen).1
  obtain ⟨t1, t2⟩ := txrx_tlen bus hw t d
  obtain ⟨⟨n, hn, r1⟩, -, -, -, -⟩ := recv_loop_calls bus t.len
    (txrx_flush bus (txrx_frame hw t d).1 (txrx_frame hw t d).2).2 0
  -- the flush phase
  have hflush : (txrx_flush bus (txrx_frame hw t d).1 (txrx_frame hw t d).2).2.wbuf =
        (txrx_frame hw t d).1.wbuf ∧
      ∃ fl, (txrx_flush bus (txrx_frame hw t d).1 (txrx_frame hw t d).2).2.client =
          hw.client ++ fl ∧
        (fl = [] ∨ ((∃ x xs, fl = [I2cCall.send (1 :: x :: xs)]) ∧
          (d || (t.tx_buf.isSome && t.rx_buf.isSome)) = true ∧
          1 < (txrx_frame hw t d).1.tlen)) := by
    rcases txrx_flush_cases bus (txrx_frame hw t d).1 (txrx_frame hw t d).2 with
      ⟨-, hfl⟩ | ⟨hd, hgt, hfl⟩
    · rw [hfl]
      exact ⟨rfl, [], by simp [f4], Or.inl rfl⟩
    · obtain ⟨x, xs, hfr⟩ := take_of_header (txrx_frame hw t d).1.wbuf
        (txrx_frame hw t d).1.tlen.toNat f3 fl2 (by omega)
      rw [txrx_frame_flag] at hd
      rw [hfr, f4] at hfl
      split_ifs at hfl <;> rw [hfl] <;>
        exact ⟨rfl, _, rfl, Or.inr ⟨⟨x, xs, rfl⟩, hd, hgt⟩⟩
  obtain ⟨hwf, fl, hc, hfl⟩ := hflush
  refine ⟨hHt, by rw [t2, hwf]; exact fl2, ?_⟩
  rcases txrx_session_cases_rx bus hw t d with h | ⟨hrx, h⟩
  · rw [h]
    exact ⟨fl, 0, by simp [hc], hfl, fun _ => rfl, Nat.zero_le _⟩
  · rw [h]
    refine ⟨fl, n, by rw [r1, hc], hfl, ?_, hn⟩
    intro hnone
    rw [hnone] at hrx
    simp at hrx

/-- The calls of one iteration: at most one CONFIGURE frame, then the calls
of `tiny6212_txrx`; a TRANSMIT frame needs chip-select-change, last position
or a receive buffer. -/
theorem transfer_body_calls_detail (bus : I2cBus) (mode : Nat) (hw : tiny6212) (al : Nat)
    (t : spi_transfer) (is_last : Bool) (hH : Hdr hw) (hwb : 2 ≤ hw.wbuf.length)
    (hlen : t.len < 4294967296) :
    Hdr (transfer_body bus mode hw al t is_last).hw ∧
    2 ≤ (transfer_body bus mode hw al t is_last).hw.wbuf.length ∧
    ∃ cfg fl n, (transfer_body bus mode hw al t is_last).hw.client =
        hw.client ++ cfg ++ fl ++ List.replicate n (I2cCall.recv 1) ∧
      (cfg = [] ∨ ∃ c, cfg = [I2cCall.send [2, c]]) ∧
      (fl = [] ∨ ((∃ x xs, fl = [I2cCall.send (1 :: x :: xs)]) ∧
        (t.cs_change = true ∨ is_last = true ∨ t.rx_buf.isSome = true) ∧
        1 < (framed_session bus mode hw t is_last).tlen)) ∧
      (t.rx_buf = none → n = 0) ∧
      (t.rx_buf = none → t.cs_change = false → is_last = false → fl = []) := by
  obtain ⟨s1, s2, -, s4, s5⟩ := setup_transfer_calls bus hw (t.speed_hz % 4294967296) (mode % 256)
  have hH1 := Hdr_congr hw _ s1 s2 hH
  -- the log after configuration
  have hcfg : ∃ cfg, (tiny6212_setup_transfer bus hw (t.speed_hz % 4294967296)
        (mode % 256)).2.client = hw.client ++ cfg ∧
      (cfg = [] ∨ ∃ c, cfg = [I2cCall.send [2, c]]) := by
    by_cases hc : setup_ctrl hw.freq (t.speed_hz % 4294967296) (mode % 256) = hw.ctrl
    · rw [s4 hc]
      exact ⟨[], by simp, Or.inl rfl⟩
    · exact ⟨_, (s5 hc).1, Or.inr ⟨_, rfl⟩⟩
  obtain ⟨cfg, hc1, hc2⟩ := hcfg
  have hsetup : Hdr (tiny6212_setup_transfer bus hw (t.speed_hz % 4294967296)
        (mode % 256)).2 ∧
      2 ≤ (tiny6212_setup_transfer bus hw (t.speed_hz % 4294967296) (mode % 256)).2.wbuf.length ∧
      ∃ cfg fl n, (tiny6212_setup_transfer bus hw (t.speed_hz % 4294967296)
          (mode % 256)).2.client = hw.client ++ cfg ++ fl ++ List.replicate n (I2cCall.recv 1) ∧
        (cfg = [] ∨ ∃ c, cfg = [I2cCall.send [2, c]]) ∧
        (fl = [] ∨ ((∃ x xs, fl = [I2cCall.send (1 :: x :: xs)]) ∧
          (t.cs_change = true ∨ is_last = true ∨ t.rx_buf.isSome = true) ∧
          1 < (framed_session bus mode hw t is_last).tlen)) ∧
        (t.rx_buf = none → n = 0) ∧
        (t.rx_buf = none → t.cs_change = false → is_last = false → fl = []) :=
    ⟨hH1, by rw [s2]; exact hwb, cfg, [], 0, by simp [hc1], hc2, Or.inl rfl, fun _ => rfl,
      fun _ _ _ => rfl⟩
  have htx : tiny6212_check_transfer t hw.tlen = 0 →
      Hdr (tiny6212_txrx bus (tiny6212_setup_transfer bus hw (t.speed_hz % 4294967296)
        (mode % 256)).2 t (t.cs_change || is_last)).2.1 ∧
      2 ≤ (tiny6212_txrx bus (tiny6212_setup_transfer bus hw (t.speed_hz % 4294967296)
        (mode % 256)).2 t (t.cs_change || is_last)).2.1.wbuf.length ∧
      ∃ cfg fl n, (tiny6212_txrx bus (tiny6212_setup_transfer bus hw
          (t.speed_hz % 4294967296) (mode % 256)).2 t (t.cs_change || is_last)).2.1.client =
          hw.client ++ cfg ++ fl ++ List.replicate n (I2cCall.recv 1) ∧
        (cfg = [] ∨ ∃ c, cfg = [I2cCall.send [2, c]]) ∧
        (fl = [] ∨ ((∃ x xs, fl = [I2cCall.send (1 :: x :: xs)]) ∧
          (t.cs_change = true ∨ is_last = true ∨ t.rx_buf.isSome = true) ∧
          1 < (framed_session bus mode hw t is_last).tlen)) ∧
        (t.rx_buf = none → n = 0) ∧
        (t.rx_buf = none → t.cs_change = false → is_last = false → fl = []) := by
    intro hchk
    obtain ⟨x1, x2, fl, n, x3, x4, x5, -⟩ := txrx_calls_detail bus
      (tiny6212_setup_transfer bus hw (t.speed_hz % 4294967296) (mode % 256)).2 t
      (t.cs_change || is_last) hH1 (by rw [s2]; exact hwb) (by rw [s1]; exact hchk) hlen
    refine ⟨x1, x2, cfg, fl, n, by rw [x3, hc1], hc2, ?_, x5, ?_⟩
    · rcases x4 with h | ⟨h1, h2, h3⟩
      · exact Or.inl h
      · refine Or.inr ⟨h1, ?_, h3⟩
        cases hcs : t.cs_change with
        | true => exact Or.inl rfl
        | false =>
          cases hil : is_last with
          | true => exact Or.inr (Or.inl rfl)
          | false =>
            rw [hcs, hil] at h2
            simp only [Bool.or_self, Bool.false_or, Bool.and_eq_true] at h2
            exact Or.inr (Or.inr h2.2)
    · intro hnone hcs hil
      rcases x4 with h | ⟨-, h2, -⟩
      · exact h
      · rw [hcs, hil, hnone] at h2
        simp at h2
  rcases transfer_body_cases bus mode hw al t is_last with
    ⟨-, e⟩ | ⟨-, -, e⟩ | ⟨hc, -, -, -, e⟩ | ⟨hc, -, -, -, e⟩ | ⟨-, -, -, e⟩
  · rw [e]
    exact ⟨hH, hwb, [], [], 0, by simp, Or.inl rfl, Or.inl rfl, fun _ => rfl,
      fun _ _ _ => rfl⟩
  · rw [e]
    exact hsetup
  · rw [e]
    exact htx hc
  · rw [e]
    exact htx hc
  · rw [e]
    exact hsetup

/-- Over any run of the loop the header invariant and the size of the write
buffer are kept, and no call added to the log is the bare header frame. -/
theorem transfer_loop_no_bare_header (bus : I2cBus) (mode : Nat) (more : Bool) :
    ∀ (ts : List spi_transfer) (hw : tiny6212) (al : Nat), Hdr hw → 2 ≤ hw.wbuf.length →
    (∀ t ∈ ts, t.len < 4294967296) →
    Hdr (transfer_loop bus mode more hw al ts).hw ∧
    2 ≤ (transfer_loop bus mode more hw al ts).hw.wbuf.length ∧
    ∃ new, (transfer_loop bus mode more hw al ts).hw.client = hw.client ++ new ∧
      I2cCall.send [1] ∉ new := by
  intro ts
  induction ts with
  | nil =>
    intro hw al hH hwb _
    exact ⟨hH, hwb, [], by simp [transfer_loop], by simp⟩
  | cons t rest ih =>
    intro hw al hH hwb hlen
    obtain ⟨b1, b2, cfg, fl, n, b3, b4, b5, -, -⟩ := transfer_body_calls_detail bus mode hw al t
      (rest.isEmpty && !more) hH hwb (hlen t (List.mem_cons_self _ _))
    have hnew : I2cCall.send [1] ∉ cfg ++ fl ++ List.replicate n (I2cCall.recv 1) := by
      intro hmem
      rcases List.mem_append.1 hmem with h | h
      · rcases List.mem_append.1 h with h | h
        · rcases b4 with rfl | ⟨c, rfl⟩
          · simp at h
          · simp at h
        · rcases b5 with rfl | ⟨⟨x, xs, rfl⟩, -, -⟩
          · simp at h
          · simp at h
      · have := List.eq_of_mem_replicate h
        simp at this
    rw [transfer_loop_cons]
    split_ifs
    · exact ⟨b1, b2, _, by rw [b3, List.append_assoc, List.append_assoc]
        , by simpa [List.append_assoc] using hnew⟩
    · obtain ⟨i1, i2, new2, i3, i4⟩ := ih
        (transfer_body bus mode hw al t (rest.isEmpty && !more)).hw
        (transfer_body bus mode hw al t (rest.isEmpty && !more)).actual_length b1 b2
        (fun u hu => hlen u (List.mem_cons_of_mem _ hu))
      refine ⟨i1, i2, (cfg ++ fl ++ List.replicate n (I2cCall.recv 1)) ++ new2, ?_, ?_⟩
      · simp only [i3, b3, List.append_assoc]
      · intro hmem
        rcases List.mem_append.1 hmem with h | h
        · exact hnew h
        · exact i4 h

/-! ## Conservation of the outbound bytes -/

theorem payloads_append (a b : List I2cCall) : payloads (a ++ b) = payloads a ++ payloads b := by
  simp [payloads]

theorem payloads_nil : payloads [] = [] := rfl

theorem payloads_recv (n : Nat) : payloads (List.replicate n (I2cCall.recv 1)) = [] := by
  induction n with
  | zero => rfl
  | succ n ih =>
    rw [List.replicate_succ, show I2cCall.recv 1 :: List.replicate n (I2cCall.recv 1) =
      [I2cCall.recv 1] ++ List.replicate n (I2cCall.recv 1) from rfl, payloads_append, ih]
    rfl

/-- What `tiny6212_txrx` does with the pending bytes when it does not fail:
the bytes that leave in a TRANSMIT frame followed by those still pending are
the bytes that were pending followed by the outbound bytes of the segment. -/
theorem txrx_conservation (bus : I2cBus) (hw : tiny6212) (t : spi_transfer) (d : Bool)
    (pend : List Nat) (hF : Framed hw pend) (hcap : pend.length + t.len < 2147483647)
    (hwf : ∀ b, t.tx_buf = some b → b.length = t.len)
    (h0 : 0 ≤ (tiny6212_txrx bus hw t d).1) :
    ∃ new pend1, (tiny6212_txrx bus hw t d).2.1.client = hw.client ++ new ∧
      Framed (tiny6212_txrx bus hw t d).2.1 pend1 ∧
      payloads new ++ pend1 = pend ++ outbound t ∧
      (∀ c ∈ new, regular_call c) ∧
      (d = true → pend1 = []) ∧ (pend1 = [] ∨ pend1 = pend ++ outbound t) := by
  have hio : (- EIO_errno) < 0 := by decide
  obtain ⟨f1, f2, f3, -, -, -, f7⟩ := txrx_frame_spec hw t d pend hF hcap hwf
  obtain ⟨t1, t2⟩ := txrx_tlen bus hw t d
  obtain ⟨⟨n, -, r1⟩, -, -, -, -⟩ := recv_loop_calls bus t.len
    (txrx_flush bus (txrx_frame hw t d).1 (txrx_frame hw t d).2).2 0
  -- the flush phase
  have hflush : ∃ fl pend1,
      (txrx_flush bus (txrx_frame hw t d).1 (txrx_frame hw t d).2).2.client = hw.client ++ fl ∧
      Framed (txrx_flush bus (txrx_frame hw t d).1 (txrx_frame hw t d).2).2 pend1 ∧
      payloads fl ++ pend1 = pend ++ outbound t ∧ (∀ c ∈ fl, regular_call c) ∧
      (d = true → pend1 = []) ∧ (pend1 = [] ∨ pend1 = pend ++ outbound t) := by
    rcases txrx_flush_cases bus (txrx_frame hw t d).1 (txrx_frame hw t d).2 with
      ⟨hn, hfl⟩ | ⟨-, hgt, hfl⟩
    · rw [hfl]
      refine ⟨[], pend ++ outbound t, by simp [f3], Or.inr ⟨f1, f2⟩, rfl, by simp, ?_, Or.inr rfl⟩
      intro hd
      have hle : ¬ 1 < (txrx_frame hw t d).1.tlen := by
        intro hlt
        exact hn ⟨by rw [f7, hd]; rfl, hlt⟩
      rw [f1] at hle
      have : (pend ++ outbound t).length = 0 := by omega
      exact List.length_eq_zero.1 this
    · have hfr : (txrx_frame hw t d).1.wbuf.take (txrx_frame hw t d).1.tlen.toNat =
          1 :: (pend ++ outbound t) := by
        rw [f1, Int.toNat_ofNat]
        exact f2
      rw [hfr, f3] at hfl
      split_ifs at hfl with hneg hne
      · rw [txrx_of_flush_err bus hw t d _ (by rw [hfl])] at h0
        simp only at h0
        omega
      · rw [txrx_of_flush_err bus hw t d _ (by rw [hfl])] at h0
        simp only at h0
        omega
      · rw [hfl]
        refine ⟨[I2cCall.send (1 :: (pend ++ outbound t))], [], rfl, Or.inl ⟨rfl, rfl⟩, ?_, ?_,
          fun _ => rfl, Or.inl rfl⟩
        · simp [payloads, payload]
        · intro c hc
          rw [List.mem_singleton] at hc
          rw [hc]
          rw [f1] at hgt
          cases hp : pend ++ outbound t with
          | nil =>
            rw [hp] at hgt
            simp at hgt
          | cons x xs => exact Or.inr (Or.inl ⟨x, xs, rfl⟩)
  obtain ⟨fl, pend1, c1, c2, c3, c4, c5, c6⟩ := hflush
  have hF1 : Framed (tiny6212_txrx bus hw t d).2.1 pend1 := Framed_congr _ _ pend1 t1 t2 c2
  rcases txrx_session_cases bus hw t d with h | h
  · refine ⟨fl, pend1, by rw [h, c1], hF1, c3, c4, c5, c6⟩
  · refine ⟨fl ++ List.replicate n (I2cCall.recv 1), pend1, by rw [h, r1, c1, List.append_assoc],
      hF1, ?_, ?_, c5, c6⟩
    · rw [payloads_append, payloads_recv, List.append_nil]
      exact c3
    · intro c hc
      rcases List.mem_append.1 hc with hm | hm
      · exact c4 c hm
      · exact Or.inr (Or.inr (List.eq_of_mem_replicate hm))

theorem check_transfer_cap (hw : tiny6212) (t : spi_transfer) (pend : List Nat)
    (hF : Framed hw pend) (hp : pend.length ≤ 128) (h1 : 1 ≤ t.len) (h2 : t.len ≤ 128)
    (hchk : tiny6212_check_transfer t hw.tlen = 0) : pend.length + t.len ≤ 128 := by
  unfold tiny6212_check_transfer at hchk
  have hneg : (- EINVAL_errno) ≠ 0 := by decide
  split_ifs at hchk with hc
  · exact absurd hchk hneg
  · simp only [TINY6212_BUFSIZ] at hc
    rcases hF with ⟨-, hnil⟩ | ⟨ht, -⟩
    · rw [hnil]
      simpa using h2
    · rw [ht, u32_natCast _ (by omega)] at hc
      omega

theorem outbound_length_le (t : spi_transfer) : (outbound t).length ≤ t.len := by
  unfold outbound
  cases t.tx_buf with
  | none => exact Nat.zero_le _
  | some tx =>
    simp only [List.length_take]
    exact Nat.min_le_left _ _

/-- One successful iteration over a segment of length `1..128`. -/
theorem transfer_body_conservation (bus : I2cBus) (mode : Nat) (hw : tiny6212) (al : Nat)
    (t : spi_transfer) (is_last : Bool) (pend : List Nat)
    (hF : Framed hw pend) (hp : pend.length ≤ 128) (h1 : 1 ≤ t.len) (h2 : t.len ≤ 128)
    (hwf : ∀ b, t.tx_buf = some b → b.length = t.len)
    (hs : (transfer_body bus mode hw al t is_last).status = 0) :
    ∃ new pend1, (transfer_body bus mode hw al t is_last).hw.client = hw.client ++ new ∧
      Framed (transfer_body bus mode hw al t is_last).hw pend1 ∧ pend1.length ≤ 128 ∧
      payloads new ++ pend1 = pend ++ outbound t ∧ (∀ c ∈ new, regular_call c) ∧
      ((t.cs_change || is_last) = true → pend1 = []) := by
  have hneg : (- EINVAL_errno) ≠ 0 := by decide
  obtain ⟨s1, s2, -, s4, s5⟩ := setup_transfer_calls bus hw (t.speed_hz % 4294967296) (mode % 256)
  have hF1 := Framed_congr hw _ pend s1 s2 hF
  rcases transfer_body_cases bus mode hw al t is_last with
    ⟨-, e⟩ | ⟨-, hn, e⟩ | ⟨-, -, -, hx, e⟩ | ⟨hc, -, -, hx, e⟩ | ⟨-, -, h0, e⟩
  · rw [e] at hs
    exact absurd hs hneg
  · rw [e] at hs
    simp only at hs
    omega
  · rw [e] at hs
    simp only at hs
    omega
  · have hcap := check_transfer_cap hw t pend hF hp h1 h2 hc
    obtain ⟨new, pend1, c1, c2, c3, c4, c5, c6⟩ := txrx_conservation bus
      (tiny6212_setup_transfer bus hw (t.speed_hz % 4294967296) (mode % 256)).2 t
      (t.cs_change || is_last) pend hF1 (by omega) hwf hx
    have hol := outbound_length_le t
    have hp1 : pend1.length ≤ 128 := by
      rcases c6 with h | h
      · rw [h]
        exact Nat.zero_le _
      · rw [h, List.length_append]
        omega
    rw [e]
    by_cases hcc : setup_ctrl hw.freq (t.speed_hz % 4294967296) (mode % 256) = hw.ctrl
    · have hcl : (tiny6212_setup_transfer bus hw (t.speed_hz % 4294967296)
          (mode % 256)).2.client = hw.client := by rw [s4 hcc]
      exact ⟨new, pend1, by simp only [c1, hcl], c2, hp1, c3, c4, c5⟩
    · refine ⟨[I2cCall.send [2, setup_ctrl hw.freq (t.speed_hz % 4294967296) (mode % 256)]]
        ++ new, pend1, ?_, c2, hp1, ?_, ?_, c5⟩
      · simp only [c1, (s5 hcc).1, List.append_assoc]
      · rw [payloads_append]
        exact c3
      · intro c hc
        rcases List.mem_append.1 hc with hm | hm
        · rw [List.mem_singleton] at hm
          exact Or.inl ⟨_, hm⟩
        · exact c4 c hm
  · omega

/-- A run of the loop that succeeds over segments of length `1..128`: the
payloads sent followed by the bytes still pending are the bytes pending at
the start followed by the outbound bytes of the segments, and nothing is
pending behind the last segment of the message. -/
theorem transfer_loop_conservation (bus : I2cBus) (mode : Nat) (more : Bool) :
    ∀ (ts : List spi_transfer) (hw : tiny6212) (al : Nat) (pend : List Nat),
    Framed hw pend → pend.length ≤ 128 →
    (∀ t ∈ ts, 1 ≤ t.len ∧ t.len ≤ 128 ∧ ∀ b, t.tx_buf = some b → b.length = t.len) →
    (transfer_loop bus mode more hw al ts).status = 0 →
    ∃ new pend1, (transfer_loop bus mode more hw al ts).hw.client = hw.client ++ new ∧
      Framed (transfer_loop bus mode more hw al ts).hw pend1 ∧ pend1.length ≤ 128 ∧
      payloads new ++ pend1 = pend ++ (ts.map outbound).flatten ∧
      (∀ c ∈ new, regular_call c) ∧
      (ts = [] → pend1 = pend) ∧ (more = false → ts ≠ [] → pend1 = []) := by
  intro ts
  induction ts with
  | nil =>
    intro hw al pend hF hp _ _
    exact ⟨[], pend, by simp [transfer_loop], hF, hp, by simp [payloads], by simp,
      fun _ => rfl, fun _ h => absurd rfl h⟩
  | cons t rest ih =>
    intro hw al pend hF hp hall hs
    obtain ⟨h1, h2, hwf⟩ := hall t (List.mem_cons_self _ _)
    rw [transfer_loop_cons] at hs ⊢
    by_cases hb : (transfer_body bus mode hw al t (rest.isEmpty && !more)).status < 0
    · rw [if_pos hb] at hs
      simp only at hs
      omega
    · rw [if_neg hb] at hs ⊢
      simp only at hs ⊢
      have hz : (transfer_body bus mode hw al t (rest.isEmpty && !more)).status = 0 :=
        le_antisymm (transfer_body_status _ _ _ _ _ _) (not_lt.1 hb)
      obtain ⟨new, pend1, b1, b2, b3, b4, b5, b6⟩ := transfer_body_conservation bus mode hw al t
        (rest.isEmpty && !more) pend hF hp h1 h2 hwf hz
      obtain ⟨new2, pend2, i1, i2, i3, i4, i5, i6, i7⟩ := ih _ _ pend1 b2 b3
        (fun u hu => hall u (List.mem_cons_of_mem _ hu)) hs
      refine ⟨new ++ new2, pend2, ?_, i2, i3, ?_, ?_, fun h => absurd h (by simp), ?_⟩
      · rw [i1, b1, List.append_assoc]
      · rw [payloads_append, List.append_assoc, i4, ← List.append_assoc, b4]
        simp
      · intro c hc
        rcases List.mem_append.1 hc with hm | hm
        · exact b5 c hm
        · exact i5 c hm
      · intro hm _
        by_cases hr : rest = []
        · rw [i6 hr]
          apply b6
          rw [hr, hm]
          simp
        · exact i7 hm hr

/-! ## Independence from what earlier messages left in the buffers -/

theorem s32_toNat_le (n : Nat) : (s32 n).toNat ≤ n := by
  unfold s32
  have := Nat.mod_le n 4294967296
  split_ifs <;> omega

theorem spi_transfer.wf_tx (t : spi_transfer) (h : t.wf) :
    ∀ b, t.tx_buf = some b → b.length = t.len := by
  intro b hb
  rcases h.2.1 with h1 | h1
  · rw [hb] at h1
    simp at h1
  · rw [hb] at h1
    simpa using h1

theorem take_eq_of_le {l1 l2 : List Nat} {n m : Nat} (hnm : n ≤ m)
    (h : l1.take m = l2.take m) : l1.take n = l2.take n := by
  have := congrArg (List.take n) h
  rwa [List.take_take, List.take_take, Nat.min_eq_left hnm] at this

/-- Copying the same bytes behind equal framed parts gives equal framed
parts, up to any cursor that does not pass the end of the copy. -/
theorem memcpy_agree (w1 w2 src : List Nat) (off n : Nat) (h : w1.take off = w2.take off)
    (h1 : off ≤ w1.length) (h2 : off ≤ w2.length) (hn : n ≤ off + src.length) :
    (memcpy w1 off src).take n = (memcpy w2 off src).take n ∧
    n ≤ (memcpy w1 off src).length ∧ n ≤ (memcpy w2 off src).length := by
  have e1 := memcpy_take w1 off src
  have e2 := memcpy_take w2 off src
  rw [Nat.sub_eq_zero_of_le h1, List.replicate_zero, List.append_nil] at e1
  rw [Nat.sub_eq_zero_of_le h2, List.replicate_zero, List.append_nil] at e2
  refine ⟨take_eq_of_le hn (by rw [e1, e2, h]), ?_, ?_⟩
  · rw [memcpy_length]
    omega
  · rw [memcpy_length]
    omega

theorem txrx_frame_agree (a b : tiny6212) (t : spi_transfer) (d : Bool) (hA : Agree a b)
    (hH : Hdr a) (hchk : tiny6212_check_transfer t a.tlen = 0) (hwf : t.wf) :
    Agree (txrx_frame a t d).1 (txrx_frame b t d).1 ∧
    (txrx_frame a t d).2 = (txrx_frame b t d).2 := by
  obtain ⟨a1, a2, a3, a4, a5, a6, a7⟩ := hA
  have hHb : Hdr b := by
    rcases hH with h | ⟨h1, h2, h3⟩
    · exact Or.inl (by rw [← a4]; exact h)
    · refine Or.inr ⟨by rw [← a4]; exact h1, by rw [← a4]; exact h2, ?_⟩
      obtain ⟨k, hk⟩ : ∃ k, a.tlen.toNat = k + 1 := ⟨a.tlen.toNat - 1, by omega⟩
      rw [← a4, hk] at a5
      cases hwa : a.wbuf with
      | nil => rw [hwa] at h3; simp at h3
      | cons x xs =>
        cases hwb : b.wbuf with
        | nil => rw [hwb, ← a4] at a7; simp at a7; omega
        | cons y ys =>
          rw [hwa, hwb] at a5
          rw [hwa] at h3
          simp only [List.take_succ_cons, List.cons.injEq] at a5
          simp only [List.head?_cons, Option.some.injEq] at h3 ⊢
          rw [← a5.1]
          exact h3
  obtain ⟨fa1, -, -, fa4, fa5, fa6, -⟩ := txrx_frame_hdr a t d hH hchk hwf.1
  obtain ⟨-, -, -, fb4, fb5, fb6, -⟩ := txrx_frame_hdr b t d hHb (by rw [← a4]; exact hchk) hwf.1
  have hflag : (txrx_frame a t d).2 = (txrx_frame b t d).2 := by
    rw [txrx_frame_flag, txrx_frame_flag]
  refine ⟨⟨by rw [fa5, fb5, a1], by rw [fa6, fb6, a2], by rw [fa4, fb4, a3], ?_⟩, hflag⟩
  -- the cursor and the framed part
  have hwtx := spi_transfer.wf_tx t hwf
  unfold txrx_frame
  by_cases h0 : a.tlen = 0
  · have h0b : b.tlen = 0 := by rw [← a4]; exact h0
    rw [if_pos h0, if_pos h0b]
    have hh := memcpy_agree a.wbuf b.wbuf [TINY6212_CMD_TRANSMIT] 0 1 (by simp)
      (Nat.zero_le _) (Nat.zero_le _) (by simp)
    cases htx : t.tx_buf with
    | none =>
      simp only
      exact ⟨by trivial, hh.1, hh.2.1, hh.2.2⟩
    | some tx =>
      simp only
      have hl := hwtx tx htx
      rw [show (1 : Int).toNat = 1 from rfl, List.take_of_length_le (le_of_eq hl)]
      have hle : (s32 (u32 1 + t.len)).toNat ≤ 1 + tx.length := by
        have := s32_toNat_le (u32 1 + t.len)
        have hu : u32 1 = 1 := by decide
        rw [hu] at this ⊢
        omega
      have := memcpy_agree _ _ tx 1 (s32 (u32 1 + t.len)).toNat hh.1 hh.2.1 hh.2.2 hle
      exact ⟨by trivial, this.1, this.2.1, this.2.2⟩
  · have h0b : ¬ b.tlen = 0 := by rw [← a4]; exact h0
    rw [if_neg h0, if_neg h0b]
    cases htx : t.tx_buf with
    | none =>
      simp only
      exact ⟨a4, a5, a6, a7⟩
    | some tx =>
      simp only
      have hl := hwtx tx htx
      rw [List.take_of_length_le (le_of_eq hl), ← a4]
      rw [← a4] at a5 a7
      have hpos : 0 ≤ a.tlen := by
        rcases hH with h | ⟨h1, -, -⟩
        · omega
        · omega
      have hle : (s32 (u32 a.tlen + t.len)).toNat ≤ a.tlen.toNat + tx.length := by
        have := s32_toNat_le (u32 a.tlen + t.len)
        have hu : u32 a.tlen ≤ a.tlen.toNat := by
          unfold u32
          omega
        omega
      have := memcpy_agree a.wbuf b.wbuf tx a.tlen.toNat (s32 (u32 a.tlen + t.len)).toNat a5 a6 a7
        hle
      exact ⟨by trivial, this.1, this.2.1, this.2.2⟩

theorem txrx_flush_agree (bus : I2cBus) (a b : tiny6212) (d : Bool) (hA : Agree a b) :
    (txrx_flush bus a d).1 = (txrx_flush bus b d).1 ∧
    Agree (txrx_flush bus a d).2 (txrx_flush bus b d).2 := by
  obtain ⟨a1, a2, a3, a4, a5, a6, a7⟩ := hA
  rcases txrx_flush_cases bus a d with ⟨hn, ha⟩ | ⟨hd, hgt, ha⟩
  · rcases txrx_flush_cases bus b d with ⟨-, hb⟩ | ⟨hd2, hgt2, -⟩
    · rw [ha, hb]
      exact ⟨rfl, a1, a2, a3, a4, a5, a6, a7⟩
    · exact absurd ⟨hd2, by rw [a4]; exact hgt2⟩ hn
  · rcases txrx_flush_cases bus b d with ⟨hn2, -⟩ | ⟨-, -, hb⟩
    · exact absurd ⟨hd, by rw [← a4]; exact hgt⟩ hn2
    · have e : bus b.client.length (I2cCall.send (b.wbuf.take b.tlen.toNat)) =
          bus a.client.length (I2cCall.send (a.wbuf.take a.tlen.toNat)) := by rw [a3, a5]
      have ec : b.client ++ [I2cCall.send (b.wbuf.take b.tlen.toNat)] =
          a.client ++ [I2cCall.send (a.wbuf.take a.tlen.toNat)] := by rw [a3, a5]
      have a5p : a.wbuf.take a.tlen.toNat = b.wbuf.take a.tlen.toNat := by rw [a5, a4]
      have a7p : a.tlen.toNat ≤ b.wbuf.length := by rw [a4]; exact a7
      have ecp : a.client ++ [I2cCall.send (a.wbuf.take a.tlen.toNat)] =
          b.client ++ [I2cCall.send (b.wbuf.take a.tlen.toNat)] := by rw [a3, a5p]
      rw [ha, hb, e, ← a4]
      by_cases h1 : (bus a.client.length (I2cCall.send (a.wbuf.take a.tlen.toNat))).ret < 0
      · rw [if_pos h1, if_pos h1]
        exact ⟨rfl, a1, a2, ecp, rfl, a5p, a6, a7p⟩
      · rw [if_neg h1, if_neg h1]
        by_cases h2 : (bus a.client.length (I2cCall.send (a.wbuf.take a.tlen.toNat))).ret ≠
            a.tlen
        · rw [if_pos h2, if_pos h2]
          exact ⟨rfl, a1, a2, ecp, rfl, a5p, a6, a7p⟩
        · rw [if_neg h2, if_neg h2]
          exact ⟨rfl, a1, a2, ecp, rfl, rfl, Nat.zero_le _, Nat.zero_le _⟩

theorem recv_loop_agree (bus : I2cBus) (k : Nat) (a b : tiny6212) (hc : a.client = b.client) :
    (recv_loop bus a 0 k).1 = (recv_loop bus b 0 k).1 ∧
    (recv_loop bus a 0 k).2.client = (recv_loop bus b 0 k).2.client ∧
    ((recv_loop bus a 0 k).1 = none →
      (recv_loop bus a 0 k).2.rbuf.take k = (recv_loop bus b 0 k).2.rbuf.take k) := by
  rcases recv_loop_outcome bus k a 0 with ⟨halla, hna⟩ | ⟨i, hi, hpa, hla, hea, hca⟩
  · have hallb : ∀ i < k, 0 < (bus (b.client.length + i) (I2cCall.recv 1)).ret := by
      rw [← hc]
      exact halla
    obtain ⟨ra1, ra2, -⟩ := recv_loop_ok bus k a 0 (Nat.zero_le _) halla
    obtain ⟨rb1, rb2, -⟩ := recv_loop_ok bus k b 0 (Nat.zero_le _) hallb
    refine ⟨by rw [ra1, rb1], by rw [ra2, rb2, hc], fun _ => ?_⟩
    have sa := recv_loop_scratch bus k a 0 k (Nat.zero_le _) (le_refl _) halla
    have sb := recv_loop_scratch bus k b 0 k (Nat.zero_le _) (le_refl _) hallb
    simp only [Nat.zero_add, List.take_zero, List.nil_append] at sa sb
    rw [sa, sb, hc]
  · rcases recv_loop_outcome bus k b 0 with ⟨hallb, -⟩ | ⟨q, hq, hpb, hlb, heb, hcb⟩
    · have := hallb i hi
      rw [← hc] at this
      omega
    · rw [← hc] at hpb hlb heb
      have hqi : q = i := by
        rcases Nat.lt_trichotomy q i with h | h | h
        · have := hpa q h
          omega
        · exact h
        · have := hpb i h
          omega
      subst hqi
      refine ⟨by rw [hea, heb], by rw [hca, hcb, hc], fun h => ?_⟩
      rw [hea] at h
      simp at h

theorem txrx_agree (bus : I2cBus) (a b : tiny6212) (t : spi_transfer) (d : Bool)
    (hA : Agree a b) (hH : Hdr a) (hchk : tiny6212_check_transfer t a.tlen = 0) (hwf : t.wf) :
    (tiny6212_txrx bus a t d).1 = (tiny6212_txrx bus b t d).1 ∧
    (tiny6212_txrx bus a t d).2.2 = (tiny6212_txrx bus b t d).2.2 ∧
    Agree (tiny6212_txrx bus a t d).2.1 (tiny6212_txrx bus b t d).2.1 := by
  obtain ⟨hfa, hflag⟩ := txrx_frame_agree a b t d hA hH hchk hwf
  obtain ⟨hf1, hf2⟩ := txrx_flush_agree bus (txrx_frame a t d).1 (txrx_frame b t d).1
    (txrx_frame a t d).2 hfa
  rw [hflag] at hf1 hf2
  -- the receive loop leaves everything but the log and the scratch buffer alone
  have hrecv : Agree
      (recv_loop bus (txrx_flush bus (txrx_frame a t d).1 (txrx_frame a t d).2).2 0 t.len).2
      (recv_loop bus (txrx_flush bus (txrx_frame b t d).1 (txrx_frame b t d).2).2 0 t.len).2 := by
    obtain ⟨-, ra2, ra3, ra4, ra5⟩ := recv_loop_calls bus t.len
      (txrx_flush bus (txrx_frame a t d).1 (txrx_frame a t d).2).2 0
    obtain ⟨-, rb2, rb3, rb4, rb5⟩ := recv_loop_calls bus t.len
      (txrx_flush bus (txrx_frame b t d).1 (txrx_frame b t d).2).2 0
    rw [hflag] at ra2 ra3 ra4 ra5 ⊢
    obtain ⟨g1, g2, g3, g4, g5, g6, g7⟩ := hf2
    refine ⟨by rw [ra4, rb4, g1], by rw [ra5, rb5, g2], ?_, by rw [ra2, rb2, g4],
      by rw [ra2, rb2, ra3, rb3]; exact g5, by rw [ra2, ra3]; exact g6,
      by rw [rb2, rb3]; exact g7⟩
    exact (recv_loop_agree bus t.len _ _ g3).2.1
  cases hfl : (txrx_flush bus (txrx_frame a t d).1 (txrx_frame a t d).2).1 with
  | some e =>
    have hflb : (txrx_flush bus (txrx_frame b t d).1 (txrx_frame b t d).2).1 = some e := by
      rw [← hf1, ← hflag]; exact hfl
    rw [txrx_of_flush_err bus a t d e hfl, txrx_of_flush_err bus b t d e hflb]
    refine ⟨rfl, rfl, ?_⟩
    rw [hflag]
    exact hf2
  | none =>
    have hflb : (txrx_flush bus (txrx_frame b t d).1 (txrx_frame b t d).2).1 = none := by
      rw [← hf1, ← hflag]; exact hfl
    cases hrx : t.rx_buf with
    | none =>
      rw [txrx_of_no_rx bus a t d hfl hrx, txrx_of_no_rx bus b t d hflb hrx]
      refine ⟨rfl, rfl, ?_⟩
      rw [hflag]
      exact hf2
    | some rx =>
      have hcl : (txrx_flush bus (txrx_frame a t d).1 (txrx_frame a t d).2).2.client =
          (txrx_flush bus (txrx_frame b t d).1 (txrx_frame b t d).2).2.client := by
        rw [hflag]
        exact hf2.2.2.1
      obtain ⟨q1, -, q3⟩ := recv_loop_agree bus t.len _ _ hcl
      cases hr : (recv_loop bus (txrx_flush bus (txrx_frame a t d).1
          (txrx_frame a t d).2).2 0 t.len).1 with
      | some e =>
        rw [txrx_of_recv_err bus a t d rx e hfl hrx hr,
          txrx_of_recv_err bus b t d rx e hflb hrx (by rw [← q1]; exact hr)]
        exact ⟨rfl, rfl, hrecv⟩
      | none =>
        rw [txrx_of_recv_ok bus a t d rx hfl hrx hr,
          txrx_of_recv_ok bus b t d rx hflb hrx (by rw [← q1]; exact hr)]
        refine ⟨rfl, ?_, hrecv⟩
        simp only [q3 hr]

theorem setup_transfer_agree (bus : I2cBus) (a b : tiny6212) (hz mode : Nat) (hA : Agree a b) :
    (tiny6212_setup_transfer bus a hz mode).1 = (tiny6212_setup_transfer bus b hz mode).1 ∧
    Agree (tiny6212_setup_transfer bus a hz mode).2 (tiny6212_setup_transfer bus b hz mode).2 := by
  obtain ⟨a1, a2, a3, a4, a5, a6, a7⟩ := hA
  rw [setup_transfer_eq, setup_transfer_eq, ← a1, ← a2, ← a3]
  by_cases h0 : setup_ctrl a.freq hz mode = a.ctrl
  · rw [if_pos h0, if_pos h0]
    exact ⟨rfl, a1, a2, a3, a4, a5, a6, a7⟩
  · rw [if_neg h0, if_neg h0]
    by_cases h1 : (bus a.client.length (I2cCall.send [2, setup_ctrl a.freq hz mode])).ret < 0
    · rw [if_pos h1, if_pos h1]
      exact ⟨rfl, rfl, rfl, rfl, a4, a5, a6, a7⟩
    · rw [if_neg h1, if_neg h1]
      exact ⟨rfl, rfl, rfl, rfl, a4, a5, a6, a7⟩

theorem transfer_body_agree (bus : I2cBus) (mode : Nat) (a b : tiny6212) (al : Nat)
    (t : spi_transfer) (il : Bool) (hA : Agree a b) (hH : Hdr a) (hwf : t.wf) :
    (transfer_body bus mode a al t il).t = (transfer_body bus mode b al t il).t ∧
    (transfer_body bus mode a al t il).actual_length =
      (transfer_body bus mode b al t il).actual_length ∧
    (transfer_body bus mode a al t il).status = (transfer_body bus mode b al t il).status ∧
    Agree (transfer_body bus mode a al t il).hw (transfer_body bus mode b al t il).hw ∧
    Hdr (transfer_body bus mode a al t il).hw := by
  obtain ⟨s1, s2⟩ := setup_transfer_agree bus a b (t.speed_hz % 4294967296) (mode % 256) hA
  obtain ⟨c1, c2, -⟩ := setup_transfer_calls bus a (t.speed_hz % 4294967296) (mode % 256)
  have hHs : Hdr (tiny6212_setup_transfer bus a (t.speed_hz % 4294967296) (mode % 256)).2 :=
    Hdr_congr a _ c1 c2 hH
  have hT := (transfer_body_calls bus mode a al t il hH hwf.1).1
  refine ⟨?_, ?_, ?_, ?_, hT⟩ <;> clear hT
  all_goals
    simp only [transfer_body]
    rw [← hA.2.2.2.1]
    by_cases h0 : tiny6212_check_transfer t a.tlen < 0
    · simp only [if_pos h0]
      try exact hA
    · simp only [if_neg h0]
      rw [← s1]
      by_cases h1 : (tiny6212_setup_transfer bus a (t.speed_hz % 4294967296) (mode % 256)).1 < 0
      · simp only [if_pos h1]
        try exact s2
      · simp only [if_neg h1]
        by_cases h2 : t.len ≠ 0
        · simp only [if_pos h2]
          have hchk : tiny6212_check_transfer t
              (tiny6212_setup_transfer bus a (t.speed_hz % 4294967296) (mode % 256)).2.tlen
                = 0 := by
            rw [c1]
            rcases check_transfer_cases t a.tlen with h | h
            · exact h
            · exact absurd h h0
          obtain ⟨x1, x2, x3⟩ := txrx_agree bus _ _ t (t.cs_change || il) s2 hHs hchk hwf
          rw [← x1, ← x2]
          by_cases h3 : (tiny6212_txrx bus
              (tiny6212_setup_transfer bus a (t.speed_hz % 4294967296) (mode % 256)).2 t
              (t.cs_change || il)).1 < 0
          · simp only [if_pos h3]
            try exact x3
          · simp only [if_neg h3]
            try exact x3
        · simp only [if_neg h2]
          try exact s2

theorem transfer_loop_agree (bus : I2cBus) (mode : Nat) (more : Bool) (ts : List spi_transfer) :
    ∀ (a b : tiny6212) (al : Nat), Agree a b → Hdr a → (∀ t ∈ ts, t.wf) →
      (transfer_loop bus mode more a al ts).transfers =
        (transfer_loop bus mode more b al ts).transfers ∧
      (transfer_loop bus mode more a al ts).actual_length =
        (transfer_loop bus mode more b al ts).actual_length ∧
      (transfer_loop bus mode more a al ts).status =
        (transfer_loop bus mode more b al ts).status ∧
      Agree (transfer_loop bus mode more a al ts).hw (transfer_loop bus mode more b al ts).hw := by
  induction ts with
  | nil =>
    intro a b al hA _ _
    exact ⟨rfl, rfl, rfl, hA⟩
  | cons t rest ih =>
    intro a b al hA hH hwf
    obtain ⟨b1, b2, b3, b4, b5⟩ := transfer_body_agree bus mode a b al t
      (rest.isEmpty && !more) hA hH (hwf t (List.mem_cons_self _ _))
    rw [transfer_loop_cons, transfer_loop_cons, ← b1, ← b2, ← b3]
    by_cases h : (transfer_body bus mode a al t (rest.isEmpty && !more)).status < 0
    · rw [if_pos h, if_pos h]
      exact ⟨rfl, rfl, rfl, b4⟩
    · rw [if_neg h, if_neg h]
      obtain ⟨i1, i2, i3, i4⟩ := ih _ _
        (transfer_body bus mode a al t (rest.isEmpty && !more)).actual_length b4 b5
        (fun u hu => hwf u (List.mem_cons_of_mem _ hu))
      exact ⟨by simp only [i1], i2, i3, i4⟩

/-! ## What a flush sends -/

/-- A call of `tiny6212_txrx` that is asked to flush and does not fail sends
the whole write buffer up to the cursor in one frame whenever the cursor is
above 1, and issues receives only behind that frame. -/
theorem txrx_sent (bus : I2cBus) (hw : tiny6212) (t : spi_transfer) (d : Bool)
    (hd : (txrx_frame hw t d).2 = true) (h0 : 0 ≤ (tiny6212_txrx bus hw t d).1) :
    ∃ n, (tiny6212_txrx bus hw t d).2.1.client = hw.client ++
        (if 1 < (txrx_frame hw t d).1.tlen then
          [I2cCall.send ((txrx_frame hw t d).1.wbuf.take (txrx_frame hw t d).1.tlen.toNat)]
        else []) ++ List.replicate n (I2cCall.recv 1) := by
  have hio : (- EIO_errno) < 0 := by decide
  obtain ⟨f1, -⟩ := txrx_frame_fields hw t d
  obtain ⟨⟨n, -, r1⟩, -⟩ := recv_loop_calls bus t.len
    (txrx_flush bus (txrx_frame hw t d).1 (txrx_frame hw t d).2).2 0
  have hflush : (txrx_flush bus (txrx_frame hw t d).1 (txrx_frame hw t d).2).2.client =
      hw.client ++ (if 1 < (txrx_frame hw t d).1.tlen then
          [I2cCall.send ((txrx_frame hw t d).1.wbuf.take (txrx_frame hw t d).1.tlen.toNat)]
        else []) := by
    rcases txrx_flush_cases bus (txrx_frame hw t d).1 (txrx_frame hw t d).2 with
      ⟨hn, hfl⟩ | ⟨-, hgt, hfl⟩
    · have hle : ¬ 1 < (txrx_frame hw t d).1.tlen := fun hlt => hn ⟨hd, hlt⟩
      rw [hfl, if_neg hle, List.append_nil]
      exact f1
    · rw [if_pos hgt]
      split_ifs at hfl with hneg hne
      · rw [txrx_of_flush_err bus hw t d _ (by rw [hfl])] at h0
        simp only at h0
        omega
      · rw [txrx_of_flush_err bus hw t d _ (by rw [hfl])] at h0
        simp only at h0
        omega
      · rw [hfl, f1]
  rcases txrx_session_cases bus hw t d with h | h
  · exact ⟨0, by rw [h, hflush]; simp⟩
  · exact ⟨n, by rw [h, r1, hflush]⟩

/-- An iteration over a segment of nonzero length that marks
chip-select-change or is last, ending without error. -/
theorem transfer_body_sent (bus : I2cBus) (mode : Nat) (hw : tiny6212) (al : Nat)
    (t : spi_transfer) (is_last : Bool) (hl : t.len ≠ 0)
    (hd : (t.cs_change || is_last) = true)
    (hs : (transfer_body bus mode hw al t is_last).status = 0) :
    ∃ cfg n, (cfg = [] ∨ ∃ c, cfg = [I2cCall.send [2, c]]) ∧
      (transfer_body bus mode hw al t is_last).hw.client = hw.client ++ cfg ++
        (if 1 < (framed_session bus mode hw t is_last).tlen then
          [I2cCall.send ((framed_session bus mode hw t is_last).wbuf.take
            (framed_session bus mode hw t is_last).tlen.toNat)]
        else []) ++ List.replicate n (I2cCall.recv 1) := by
  have hneg : (- EINVAL_errno) ≠ 0 := by decide
  obtain ⟨-, -, -, s4, s5⟩ := setup_transfer_calls bus hw (t.speed_hz % 4294967296) (mode % 256)
  have hcfg : ∃ cfg, (cfg = [] ∨ ∃ c, cfg = [I2cCall.send [2, c]]) ∧
      (tiny6212_setup_transfer bus hw (t.speed_hz % 4294967296) (mode % 256)).2.client =
        hw.client ++ cfg := by
    by_cases hcc : setup_ctrl hw.freq (t.speed_hz % 4294967296) (mode % 256) = hw.ctrl
    · exact ⟨[], Or.inl rfl, by rw [s4 hcc, List.append_nil]⟩
    · exact ⟨_, Or.inr ⟨_, rfl⟩, (s5 hcc).1⟩
  obtain ⟨cfg, hc1, hc2⟩ := hcfg
  rcases transfer_body_cases bus mode hw al t is_last with
    ⟨-, e⟩ | ⟨-, h1, e⟩ | ⟨-, -, -, hx, e⟩ | ⟨-, -, -, hx, e⟩ | ⟨-, -, h0, e⟩
  · rw [e] at hs
    exact absurd hs hneg
  · rw [e] at hs
    simp only at hs
    omega
  · rw [e] at hs
    simp only at hs
    omega
  · obtain ⟨n, hn⟩ := txrx_sent bus
      (tiny6212_setup_transfer bus hw (t.speed_hz % 4294967296) (mode % 256)).2 t
      (t.cs_change || is_last) (by rw [txrx_frame_flag, hd]; rfl) hx
    refine ⟨cfg, n, hc1, ?_⟩
    rw [e]
    simp only
    rw [hn, hc2]
    rfl
  · exact absurd h0 hl

/-- An iteration over a segment of length 0 never reaches `tiny6212_txrx`:
cursor, write buffer, total and segment stay as they are and the only call
possible is a CONFIGURE frame. -/
theorem transfer_body_empty (bus : I2cBus) (mode : Nat) (hw : tiny6212) (al : Nat)
    (t : spi_transfer) (is_last : Bool) (hl : t.len = 0) :
    (transfer_body bus mode hw al t is_last).hw.tlen = hw.tlen ∧
    (transfer_body bus mode hw al t is_last).hw.wbuf = hw.wbuf ∧
    (transfer_body bus mode hw al t is_last).actual_length = al ∧
    (transfer_body bus mode hw al t is_last).t = t ∧
    ∃ cfg, (cfg = [] ∨ ∃ c, cfg = [I2cCall.send [2, c]]) ∧
      (transfer_body bus mode hw al t is_last).hw.client = hw.client ++ cfg := by
  obtain ⟨s1, s2, -, s4, s5⟩ := setup_transfer_calls bus hw (t.speed_hz % 4294967296) (mode % 256)
  have hcfg : ∃ cfg, (cfg = [] ∨ ∃ c, cfg = [I2cCall.send [2, c]]) ∧
      (tiny6212_setup_transfer bus hw (t.speed_hz % 4294967296) (mode % 256)).2.client =
        hw.client ++ cfg := by
    by_cases hcc : setup_ctrl hw.freq (t.speed_hz % 4294967296) (mode % 256) = hw.ctrl
    · exact ⟨[], Or.inl rfl, by rw [s4 hcc, List.append_nil]⟩
    · exact ⟨_, Or.inr ⟨_, rfl⟩, (s5 hcc).1⟩
  rcases transfer_body_cases bus mode hw al t is_last with
    ⟨-, e⟩ | ⟨-, h1, e⟩ | ⟨-, -, h0, -, -⟩ | ⟨-, -, h0, -, -⟩ | ⟨-, -, -, e⟩
  · rw [e]
    exact ⟨rfl, rfl, rfl, rfl, [], Or.inl rfl, (List.append_nil _).symm⟩
  · rw [e]
    exact ⟨s1, s2, rfl, rfl, hcfg⟩
  · exact absurd hl h0
  · exact absurd hl h0
  · rw [e]
    exact ⟨s1, s2, rfl, rfl, hcfg⟩

/-- One successful iteration over a segment of length at most 128, the
length 0 included. -/
theorem transfer_body_conservation_le (bus : I2cBus) (mode : Nat) (hw : tiny6212) (al : Nat)
    (t : spi_transfer) (is_last : Bool) (pend : List Nat)
    (hF : Framed hw pend) (hp : pend.length ≤ 128) (h2 : t.len ≤ 128)
    (hwf : ∀ b, t.tx_buf = some b → b.length = t.len)
    (hs : (transfer_body bus mode hw al t is_last).status = 0) :
    ∃ new pend1, (transfer_body bus mode hw al t is_last).hw.client = hw.client ++ new ∧
      Framed (transfer_body bus mode hw al t is_last).hw pend1 ∧ pend1.length ≤ 128 ∧
      payloads new ++ pend1 = pend ++ outbound t ∧ (∀ c ∈ new, regular_call c) ∧
      (t.len ≠ 0 → (t.cs_change || is_last) = true → pend1 = []) := by
  by_cases hl : t.len = 0
  · obtain ⟨e1, e2, -, -, cfg, hc, e5⟩ := transfer_body_empty bus mode hw al t is_last hl
    have ho : outbound t = [] := by
      have := outbound_length_le t
      rw [hl] at this
      exact List.length_eq_zero.1 (Nat.le_zero.1 this)
    refine ⟨cfg, pend, e5, Framed_congr hw _ pend e1 e2 hF, hp, ?_, ?_, fun h => absurd hl h⟩
    · rw [ho, List.append_nil]
      rcases hc with h | ⟨c, h⟩
      · rw [h]
        rfl
      · rw [h]
        rfl
    · intro c hcm
      rcases hc with h | ⟨c1, h⟩
      · rw [h] at hcm
        simp at hcm
      · rw [h, List.mem_singleton] at hcm
        exact Or.inl ⟨c1, hcm⟩
  · obtain ⟨new, pend1, b1, b2, b3, b4, b5, b6⟩ := transfer_body_conservation bus mode hw al t
      is_last pend hF hp (Nat.pos_of_ne_zero hl) h2 hwf hs
    exact ⟨new, pend1, b1, b2, b3, b4, b5, fun _ => b6⟩

/-- A run of the loop that succeeds over segments of length at most 128. -/
theorem transfer_loop_conservation_le (bus : I2cBus) (mode : Nat) (more : Bool) :
    ∀ (ts : List spi_transfer) (hw : tiny6212) (al : Nat) (pend : List Nat),
    Framed hw pend → pend.length ≤ 128 →
    (∀ t ∈ ts, t.len ≤ 128 ∧ ∀ b, t.tx_buf = some b → b.length = t.len) →
    (transfer_loop bus mode more hw al ts).status = 0 →
    ∃ new pend1, (transfer_loop bus mode more hw al ts).hw.client = hw.client ++ new ∧
      Framed (transfer_loop bus mode more hw al ts).hw pend1 ∧ pend1.length ≤ 128 ∧
      payloads new ++ pend1 = pend ++ (ts.map outbound).flatten ∧
      (∀ c ∈ new, regular_call c) := by
  intro ts
  induction ts with
  | nil =>
    intro hw al pend hF hp _ _
    exact ⟨[], pend, by simp [transfer_loop], hF, hp, by simp [payloads], by simp⟩
  | cons t rest ih =>
    intro hw al pend hF hp hall hs
    obtain ⟨h2, hwf⟩ := hall t (List.mem_cons_self _ _)
    rw [transfer_loop_cons] at hs ⊢
    by_cases hb : (transfer_body bus mode hw al t (rest.isEmpty && !more)).status < 0
    · rw [if_pos hb] at hs
      simp only at hs
      omega
    · rw [if_neg hb] at hs ⊢
      simp only at hs ⊢
      have hz : (transfer_body bus mode hw al t (rest.isEmpty && !more)).status = 0 :=
        le_antisymm (transfer_body_status _ _ _ _ _ _) (not_lt.1 hb)
      obtain ⟨new, pend1, b1, b2, b3, b4, b5, -⟩ := transfer_body_conservation_le bus mode hw
        al t (rest.isEmpty && !more) pend hF hp h2 hwf hz
      obtain ⟨new2, pend2, i1, i2, i3, i4, i5⟩ := ih _ _ pend1 b2 b3
        (fun u hu => hall u (List.mem_cons_of_mem _ hu)) hs
      refine ⟨new ++ new2, pend2, ?_, i2, i3, ?_, ?_⟩
      · rw [i1, b1, List.append_assoc]
      · rw [payloads_append, List.append_assoc, i4, ← List.append_assoc, b4]
        simp
      · intro c hc
        rcases List.mem_append.1 hc with hm | hm
        · exact b5 c hm
        · exact i5 c hm

/-! ## The claims -/

/-- Claim C1, write batching.  A nonempty message made only of write-only
segments of nonzero length without chip-select-change, whose lengths sum to at
most 128, on a transport that accepts every send in full: the driver returns
and stores status 0, the transferred total grows by the sum of the lengths,
the calls added to the log are CONFIGURE frames followed by one single send,
the frame `0x01` followed by all outbound bytes in segment order, and the
segments before the last one cause CONFIGURE frames only. -/
theorem write_batching (bus : I2cBus) (hw : tiny6212) (m : spi_message)
    (hne : m.transfers ≠ [])
    (hseg : ∀ t ∈ m.transfers, write_only t)
    (hsum : (m.transfers.map spi_transfer.len).sum ≤ TINY6212_BUFSIZ)
    (hsend : ∀ k b, (bus k (I2cCall.send b)).ret = (b.length : Int))
    (hal : m.actual_length + (m.transfers.map spi_transfer.len).sum < 4294967296) :
    (tiny6212_transfer_one bus hw m).1 = 0 ∧
    (tiny6212_transfer_one bus hw m).2.2.status = 0 ∧
    (tiny6212_transfer_one bus hw m).2.2.actual_length =
      m.actual_length + (m.transfers.map spi_transfer.len).sum ∧
    (∃ cfgs, (∀ c ∈ cfgs, is_configure c = true) ∧
      (tiny6212_transfer_one bus hw m).2.1.client =
        hw.client ++ cfgs ++
          [I2cCall.send (1 :: (m.transfers.map (fun t => t.tx_buf.getD [])).flatten)]) ∧
    (∃ cfgs, (∀ c ∈ cfgs, is_configure c = true) ∧
      (transfer_loop bus m.mode true { hw with tlen := 0 } m.actual_length
        m.transfers.dropLast).hw.client = hw.client ++ cfgs) := by
  have hF : Framed { hw with tlen := 0 } [] := Or.inl ⟨rfl, rfl⟩
  have hmap : m.transfers.map (fun t => t.tx_buf.getD []) = m.transfers.map outbound := by
    apply List.map_congr_left
    intro t ht
    obtain ⟨tx, htx, htl⟩ := write_only_tx t (hseg t ht)
    rw [outbound_write_only t tx htx htl, htx]
    rfl
  obtain ⟨a1, -, a3, cfgs, hcf, a4, -⟩ := loop_write_only bus m.mode false hsend m.transfers
    { hw with tlen := 0 } m.actual_length [] hF hseg (by simpa using hsum) hal
  obtain ⟨a5, -⟩ := a4 ⟨rfl, hne⟩
  have hpre : (m.transfers.dropLast.map spi_transfer.len).sum ≤
      (m.transfers.map spi_transfer.len).sum := by
    have h := List.dropLast_append_getLast hne
    conv_rhs => rw [← h]
    simp
  obtain ⟨-, -, -, cfgs2, hcf2, -, p5⟩ := loop_write_only bus m.mode true hsend
    m.transfers.dropLast { hw with tlen := 0 } m.actual_length [] hF
    (fun t ht => hseg t (List.mem_of_mem_dropLast ht))
    (by simp only [List.length_nil, Nat.zero_add]; omega) (by omega)
  obtain ⟨p6, -⟩ := p5 (Or.inl rfl)
  refine ⟨a1, a1, a3, ⟨cfgs, hcf, ?_⟩, ⟨cfgs2, hcf2, p6⟩⟩
  rw [hmap]
  simpa using a5

theorem write_batching_witness :
    (tiny6212_transfer_one demo_bus probe_session
      (demo_message [demo_write 10 7, demo_write 20 8, demo_write 5 9])).2.2.actual_length = 35 ∧
    (∃ cfgs, (∀ c ∈ cfgs, is_configure c = true) ∧
      (tiny6212_transfer_one demo_bus probe_session
        (demo_message [demo_write 10 7, demo_write 20 8, demo_write 5 9])).2.1.client =
        [] ++ cfgs ++ [I2cCall.send (1 :: (List.replicate 10 7 ++ (List.replicate 20 8 ++
          (List.replicate 5 9 ++ []))))]) :=
  have h := write_batching demo_bus probe_session
    (demo_message [demo_write 10 7, demo_write 20 8, demo_write 5 9])
    (by decide)
    (by decide) (by decide) (fun _ _ => rfl) (by decide)
  ⟨h.2.2.1, h.2.2.2.1⟩

/-- Claim C2, full-duplex segment.  With `pend` the outbound bytes still
pending in the write buffer, a segment with both buffers of length `n ≥ 1`
that fits the capacity makes `tiny6212_txrx`, for either value of the flush
hint, send the frame `0x01 :: pend ++ tx`, then issue `n` one-byte receives;
the receive buffer ends up holding the `n` delivered bytes in order, the
cursor is 0 and `n` is returned. -/
theorem full_duplex_segment (bus : I2cBus) (hw : tiny6212) (t : spi_transfer) (d : Bool)
    (pend tx rx : List Nat)
    (htx : t.tx_buf = some tx) (hrx : t.rx_buf = some rx)
    (htl : tx.length = t.len) (hrl : rx.length = t.len) (hn : 1 ≤ t.len)
    (hF : Framed hw pend) (hcap : pend.length + t.len ≤ TINY6212_BUFSIZ)
    (hsend : ∀ k b, (bus k (I2cCall.send b)).ret = (b.length : Int))
    (hrecv : ∀ k, 0 < (bus k (I2cCall.recv 1)).ret) :
    (tiny6212_txrx bus hw t d).1 = (t.len : Int) ∧
    (tiny6212_txrx bus hw t d).2.1.tlen = 0 ∧
    (tiny6212_txrx bus hw t d).2.1.client =
      hw.client ++ [I2cCall.send (1 :: (pend ++ tx))] ++ List.replicate t.len (I2cCall.recv 1) ∧
    (tiny6212_txrx bus hw t d).2.2.rx_buf =
      some ((List.range t.len).map
        (fun j => (bus (hw.client.length + 1 + j) (I2cCall.recv 1)).data)) := by
  have hcap2 : pend.length + t.len ≤ 128 := hcap
  have hwf : ∀ b, t.tx_buf = some b → b.length = t.len := by
    intro b hb
    rw [htx] at hb
    cases hb
    exact htl
  have hout : outbound t = tx := by
    simp only [outbound, htx]
    exact List.take_of_length_le (by omega)
  obtain ⟨f1, f2, f3, -, -, -, f7⟩ := txrx_frame_spec hw t d pend hF (by omega) hwf
  rw [hout] at f1 f2
  have hd : (txrx_frame hw t d).2 = true := by
    rw [f7, htx, hrx]
    simp
  have hfl := txrx_flush_eq bus (txrx_frame hw t d).1 (txrx_frame hw t d).2
    (TINY6212_CMD_TRANSMIT :: (pend ++ tx)) hd
    (by rw [f1, List.length_cons]; congr 1; omega)
    (by simp only [List.length_cons, List.length_append]; omega)
    (by rw [List.length_cons, Nat.add_comm]; exact f2)
  rw [if_neg (by rw [hsend]; omega), if_neg (by rw [hsend]; simp)] at hfl
  obtain ⟨hw2, hdef⟩ : ∃ hw2 : tiny6212, hw2 = { (txrx_frame hw t d).1 with
      client := (txrx_frame hw t d).1.client ++
        [I2cCall.send (TINY6212_CMD_TRANSMIT :: (pend ++ tx))], tlen := 0 } := ⟨_, rfl⟩
  rw [← hdef] at hfl
  have hc2 : hw2.client = hw.client ++ [I2cCall.send (1 :: (pend ++ tx))] := by
    rw [hdef, ← f3]; rfl
  have ht2 : hw2.tlen = 0 := by rw [hdef]
  obtain ⟨r1, r2, r3, r4, -, -, -⟩ := recv_loop_ok bus t.len hw2 0 (Nat.zero_le _)
    (fun i _ => hrecv _)
  have hres : tiny6212_txrx bus hw t d = ((s32 t.len), (recv_loop bus hw2 0 t.len).2,
      { t with rx_buf := some (memcpy rx 0 ((recv_loop bus hw2 0 t.len).2.rbuf.take t.len)) }) := by
    unfold tiny6212_txrx
    simp only [hfl, hrx, r1]
  rw [hres]
  refine ⟨s32_of_lt _ (by omega), by rw [r4, ht2], by rw [r2, hc2], ?_⟩
  simp only [Nat.zero_add, List.take_zero, List.nil_append] at r3
  simp only [r3, hc2, List.length_append, List.length_singleton]
  rw [memcpy_full _ _ (by simp [hrl])]

theorem full_duplex_segment_witness :
    (tiny6212_txrx demo_bus probe_session
      { tx_buf := some (List.replicate 10 3), rx_buf := some (List.replicate 10 0), len := 10,
        speed_hz := 1000000, cs_change := false } false).2.1.client =
      [I2cCall.send [1, 3, 3, 3, 3, 3, 3, 3, 3, 3, 3]] ++ List.replicate 10 (I2cCall.recv 1) ∧
    (tiny6212_txrx demo_bus probe_session
      { tx_buf := some (List.replicate 10 3), rx_buf := some (List.replicate 10 0), len := 10,
        speed_hz := 1000000, cs_change := false } false).2.2.rx_buf =
      some [101, 102, 103, 104, 105, 106, 107, 108, 109, 110] :=
  have h := full_duplex_segment demo_bus probe_session
    { tx_buf := some (List.replicate 10 3), rx_buf := some (List.replicate 10 0), len := 10,
      speed_hz := 1000000, cs_change := false } false [] (List.replicate 10 3)
    (List.replicate 10 0) rfl rfl rfl rfl (by decide) (Or.inl ⟨rfl, rfl⟩) (by decide)
    (fun _ _ => rfl) (fun _ => Int.one_pos)
  ⟨h.2.2.1, h.2.2.2⟩

/-- Claim C3, divisor selection.  The divisor encoded in the control byte is a
member of `{2,4,8,16,32,64,128}`; it is the smallest member `e` with
`hz ≥ freq / e` when there is one, and 128 when there is none; whenever
`hz ≥ freq / 128` the selected speed does not exceed `hz`. -/
theorem divisor_selection (freq hz mode : Nat) :
    divisor_of_ctrl (setup_ctrl freq hz mode) ∈ divisors ∧
    (∀ e ∈ divisors, hz ≥ freq / e →
      hz ≥ freq / divisor_of_ctrl (setup_ctrl freq hz mode) ∧
      divisor_of_ctrl (setup_ctrl freq hz mode) ≤ e) ∧
    ((∀ e ∈ divisors, ¬ hz ≥ freq / e) → divisor_of_ctrl (setup_ctrl freq hz mode) = 128) ∧
    (hz ≥ freq / 128 → freq / divisor_of_ctrl (setup_ctrl freq hz mode) ≤ hz) := by
  obtain ⟨k, hk, hd, -, hlt, hge⟩ := setup_ctrl_code freq hz mode
  rw [hd]
  have key : ∀ e ∈ divisors, hz ≥ freq / e → hz ≥ freq / 2 ^ (k + 1) ∧ 2 ^ (k + 1) ≤ e := by
    intro e he hz_e
    obtain ⟨j, hj, rfl⟩ := (mem_divisors e).1 he
    have hkj : k ≤ j := by
      by_contra hcon
      exact absurd hz_e (not_le.2 (hlt j (not_le.1 hcon)))
    constructor
    · rcases Nat.lt_or_ge k 6 with h6 | h6
      · exact hge h6
      · have : j = k := by omega
        rw [← this]; exact hz_e
    · exact Nat.pow_le_pow_right (by decide) (by omega)
  refine ⟨(mem_divisors _).2 ⟨k, hk, rfl⟩, key, ?_, ?_⟩
  · intro hnone
    rcases Nat.lt_or_ge k 6 with h6 | h6
    · exact absurd (hge h6) (hnone _ ((mem_divisors _).2 ⟨k, hk, rfl⟩))
    · have : k = 6 := by omega
      rw [this]; rfl
  · intro h128
    exact (key 128 (by simp [divisors]) h128).1

set_option maxRecDepth 100000 in
/-- Claim C4, evaluated at a first segment of 129 bytes: the advertised maximum
transfer size is 128, yet validation returns 0, the message succeeds and a
frame of 130 bytes is sent. -/
theorem oversize_first_segment_accepted :
    tiny6212_max_transfer_size = 128 ∧
    tiny6212_check_transfer (demo_write 129 7) 0 = 0 ∧
    (tiny6212_transfer_one demo_bus probe_session (demo_message [demo_write 129 7])).1 = 0 ∧
    (tiny6212_transfer_one demo_bus probe_session (demo_message [demo_write 129 7])).2.1.client =
      [I2cCall.send (1 :: List.replicate 129 7)] := by
  decide

set_option maxRecDepth 100000 in
/-- Claim C5, evaluated at a first segment of 129 bytes that is not flushed:
the loop body succeeds and leaves the cursor at 130, the write buffer having
grown from its declared 129 bytes to 130; the cursor is still 130 when the
message ends on the rejection of the next segment. -/
theorem cursor_exceeds_capacity :
    (transfer_body demo_bus 0 probe_session 0 (demo_write 129 7) false).status = 0 ∧
    (transfer_body demo_bus 0 probe_session 0 (demo_write 129 7) false).hw.tlen = 130 ∧
    (transfer_body demo_bus 0 probe_session 0 (demo_write 129 7) false).hw.wbuf.length = 130 ∧
    probe_session.wbuf.length = 129 ∧
    (tiny6212_transfer_one demo_bus probe_session
      (demo_message [demo_write 129 7, demo_write 1 9])).2.1.tlen = 130 := by
  decide

/-- Claim C6, control-byte encoding.  Bit 0 is set iff `SPI_CPOL` is requested,
bit 1 iff `SPI_CPHA` is requested, bit 2 iff `SPI_LSB_FIRST` is not requested;
bits 3-5 hold the code `k` of the selected divisor `2^(k+1)`; bits 6-7 are
clear; and the only call `tiny6212_setup_transfer` can add to the log is the
send of the two bytes `[0x02, control byte]`. -/
theorem control_byte_encoding (bus : I2cBus) (hw : tiny6212) (hz mode : Nat) :
    ((setup_ctrl hw.freq hz mode).testBit 0 = true ↔ mode &&& SPI_CPOL ≠ 0) ∧
    ((setup_ctrl hw.freq hz mode).testBit 1 = true ↔ mode &&& SPI_CPHA ≠ 0) ∧
    ((setup_ctrl hw.freq hz mode).testBit 2 = true ↔ mode &&& SPI_LSB_FIRST = 0) ∧
    (∃ k < 7, (setup_ctrl hw.freq hz mode >>> 3) % 8 = k ∧
      selected_div hw.freq hz = 2 ^ (k + 1)) ∧
    setup_ctrl hw.freq hz mode < 64 ∧
    (tiny6212_setup_transfer bus hw hz mode).2.client =
      (if setup_ctrl hw.freq hz mode = hw.ctrl then hw.client
       else hw.client ++ [I2cCall.send [2, setup_ctrl hw.freq hz mode]]) := by
  obtain ⟨f, hf, hc, b0, b1, b2⟩ := setup_ctrl_flags hw.freq hz mode
  obtain ⟨k, hk, hd, hs⟩ := clock_div_field_selected hw.freq hz
  have hdec := decode_field f hf k hk
  rw [hc, hd]
  refine ⟨?_, ?_, ?_, ⟨k, hk, hdec.1, hs⟩, hdec.2.1, ?_⟩
  · rw [hdec.2.2.1]; exact b0
  · rw [hdec.2.2.2.1]; exact b1
  · rw [hdec.2.2.2.2]; exact b2
  · rw [← hd, ← hc]; exact setup_transfer_client bus hw hz mode

/-- Claim C7, configuration idempotence.  (1) When the computed control byte
equals the cached one, `tiny6212_setup_transfer` returns 0 and leaves the
session, log included, unchanged.  (2) After a successful call the cache holds
the control byte of the request.  (3) From a session whose cache holds the
control byte that all segments of a sequence of messages map to, no CONFIGURE
frame is sent, whatever the transport reports.  (4) From the initial session,
a message of two segments that both map to divisor 4, the first of them
valid, produces exactly one CONFIGURE frame. -/
theorem configuration_idempotence (bus : I2cBus) :
    (∀ (hw : tiny6212) (hz mode : Nat), setup_ctrl hw.freq hz mode = hw.ctrl →
      tiny6212_setup_transfer bus hw hz mode = (0, hw)) ∧
    (∀ (hw : tiny6212) (hz mode : Nat), (tiny6212_setup_transfer bus hw hz mode).1 = 0 →
      (tiny6212_setup_transfer bus hw hz mode).2.ctrl = setup_ctrl hw.freq hz mode ∧
      (tiny6212_setup_transfer bus hw hz mode).2.freq = hw.freq) ∧
    (∀ (hw : tiny6212) (ms : List spi_message),
      (∀ m ∈ ms, ∀ t ∈ m.transfers, t.len < 4294967296 ∧
        setup_ctrl hw.freq (t.speed_hz % 4294967296) (m.mode % 256) = hw.ctrl) →
      ∃ new, (transfer_messages bus hw ms).client = hw.client ++ new ∧
        new.countP is_configure = 0) ∧
    (∀ (m : spi_message) (t1 t2 : spi_transfer), m.transfers = [t1, t2] →
      1 ≤ t1.len ∧ t1.len ≤ TINY6212_BUFSIZ → t2.len < 4294967296 →
      divisor_of_ctrl (setup_ctrl probe_session.freq (t1.speed_hz % 4294967296)
        (m.mode % 256)) = 4 →
      divisor_of_ctrl (setup_ctrl probe_session.freq (t2.speed_hz % 4294967296)
        (m.mode % 256)) = 4 →
      (tiny6212_transfer_one bus probe_session m).2.1.client.countP is_configure = 1) := by
  refine ⟨?_, ?_, ?_, ?_⟩
  · intro hw hz mode h
    exact (setup_transfer_calls bus hw hz mode).2.2.2.1 h
  · intro hw hz mode h
    obtain ⟨-, -, s3, s4, s5⟩ := setup_transfer_calls bus hw hz mode
    refine ⟨?_, s3⟩
    by_cases hc : setup_ctrl hw.freq hz mode = hw.ctrl
    · rw [s4 hc]
      exact hc.symm
    · exact (s5 hc).2 h
  · intro hw ms h
    exact transfer_messages_cached_ctrl bus ms hw h
  · intro m t1 t2 hm h1 h2 hd1 hd2
    have hdef : divisor_of_ctrl probe_session.ctrl = 2 := rfl
    have hne : setup_ctrl probe_session.freq (t1.speed_hz % 4294967296) (m.mode % 256) ≠
        probe_session.ctrl := by
      intro h
      rw [h, hdef] at hd1
      omega
    obtain ⟨new, n1, n2⟩ := two_segments_configure_once bus probe_session m t1 t2 hm h1 h2 hne
      (setup_ctrl_same_divisor _ _ _ _ (by rw [hd2]; exact hd1.symm))
    have hcl : probe_session.client = [] := rfl
    rw [n1, hcl, List.nil_append]
    exact n2

theorem configuration_idempotence_witness :
    (tiny6212_transfer_one demo_bus probe_session
      (demo_message [{ demo_write 4 7 with speed_hz := 2000000 },
        { demo_write 4 8 with speed_hz := 2000000 }])).2.1.client.countP is_configure = 1 :=
  (configuration_idempotence demo_bus).2.2.2
    (demo_message [{ demo_write 4 7 with speed_hz := 2000000 },
      { demo_write 4 8 with speed_hz := 2000000 }])
    { demo_write 4 7 with speed_hz := 2000000 } { demo_write 4 8 with speed_hz := 2000000 }
    rfl (by decide) (by decide) (by decide) (by decide)

/-- Claim C8, configuration update.  When the computed control byte differs
from the cached one, exactly one call is added to the log, the send of the
two-byte CONFIGURE frame; a negative result is returned unchanged and leaves
the cache as it was; a send of both bytes makes the function return 0 with the
cache equal to the new control byte. -/
theorem configure_update (bus : I2cBus) (hw : tiny6212) (hz mode : Nat)
    (hne : setup_ctrl hw.freq hz mode ≠ hw.ctrl) :
    (tiny6212_setup_transfer bus hw hz mode).2.client =
      hw.client ++ [I2cCall.send [2, setup_ctrl hw.freq hz mode]] ∧
    ((bus hw.client.length (I2cCall.send [2, setup_ctrl hw.freq hz mode])).ret < 0 →
      (tiny6212_setup_transfer bus hw hz mode).1 =
        (bus hw.client.length (I2cCall.send [2, setup_ctrl hw.freq hz mode])).ret ∧
      (tiny6212_setup_transfer bus hw hz mode).2.ctrl = hw.ctrl) ∧
    ((bus hw.client.length (I2cCall.send [2, setup_ctrl hw.freq hz mode])).ret = 2 →
      (tiny6212_setup_transfer bus hw hz mode).1 = 0 ∧
      (tiny6212_setup_transfer bus hw hz mode).2.ctrl = setup_ctrl hw.freq hz mode) := by
  rw [setup_transfer_eq, if_neg hne]
  refine ⟨?_, ?_, ?_⟩
  · split_ifs <;> rfl
  · intro h
    rw [if_pos h]
    exact ⟨rfl, rfl⟩
  · intro h
    rw [if_neg (by rw [h]; decide)]
    exact ⟨rfl, rfl⟩

theorem configure_update_witness :
    setup_ctrl probe_session.freq 2000000 0 ≠ probe_session.ctrl ∧
    (tiny6212_setup_transfer (fun _ _ => ⟨2, 0⟩) probe_session 2000000 0).2.client =
      [I2cCall.send [2, 12]] :=
  ⟨by decide, (configure_update (fun _ _ => ⟨2, 0⟩) probe_session 2000000 0 (by decide)).1⟩

/-- Claim C9, short TRANSMIT send.  Let segment `t` follow the segments `pre`,
all processed without error, let it pass validation and configuration and
request a flush of a frame of more than one byte.  When the send reports a
non-negative count other than the cursor, `tiny6212_txrx` returns `-EIO`, the
driver returns and stores `-EIO`, the cursor keeps the value it had at the
send, the failed send is the last call of the log, the transferred total is
the one reached before `t`, and the segments from `t` on are left as they
were. -/
theorem short_transmit_send (bus : I2cBus) (hw : tiny6212) (m : spi_message)
    (pre post : List spi_transfer) (t : spi_transfer)
    (hm : m.transfers = pre ++ t :: post)
    (hpre : (segment_entry bus hw m pre).status = 0)
    (hchk : tiny6212_check_transfer t (segment_entry bus hw m pre).hw.tlen = 0)
    (hcfg : (tiny6212_setup_transfer bus (segment_entry bus hw m pre).hw
      (t.speed_hz % 4294967296) (m.mode % 256)).1 = 0)
    (hlen : t.len ≠ 0)
    (hflush : flush_requested bus m.mode (segment_entry bus hw m pre).hw t post.isEmpty = true)
    (hgt : 1 < (framed_session bus m.mode (segment_entry bus hw m pre).hw t post.isEmpty).tlen)
    (h0 : 0 ≤ (bus
      (framed_session bus m.mode (segment_entry bus hw m pre).hw t post.isEmpty).client.length
      (I2cCall.send
        ((framed_session bus m.mode (segment_entry bus hw m pre).hw t post.isEmpty).wbuf.take
          (framed_session bus m.mode (segment_entry bus hw m pre).hw t
            post.isEmpty).tlen.toNat))).ret)
    (hne : (bus
      (framed_session bus m.mode (segment_entry bus hw m pre).hw t post.isEmpty).client.length
      (I2cCall.send
        ((framed_session bus m.mode (segment_entry bus hw m pre).hw t post.isEmpty).wbuf.take
          (framed_session bus m.mode (segment_entry bus hw m pre).hw t
            post.isEmpty).tlen.toNat))).ret ≠
      (framed_session bus m.mode (segment_entry bus hw m pre).hw t post.isEmpty).tlen) :
    (tiny6212_txrx bus (tiny6212_setup_transfer bus (segment_entry bus hw m pre).hw
      (t.speed_hz % 4294967296) (m.mode % 256)).2 t (t.cs_change || post.isEmpty)).1 =
      - EIO_errno ∧
    (tiny6212_transfer_one bus hw m).1 = - EIO_errno ∧
    (tiny6212_transfer_one bus hw m).2.2.status = - EIO_errno ∧
    (tiny6212_transfer_one bus hw m).2.1.tlen =
      (framed_session bus m.mode (segment_entry bus hw m pre).hw t post.isEmpty).tlen ∧
    (tiny6212_transfer_one bus hw m).2.1.client =
      (framed_session bus m.mode (segment_entry bus hw m pre).hw t post.isEmpty).client ++
        [I2cCall.send
          ((framed_session bus m.mode (segment_entry bus hw m pre).hw t post.isEmpty).wbuf.take
            (framed_session bus m.mode (segment_entry bus hw m pre).hw t
              post.isEmpty).tlen.toNat)] ∧
    (tiny6212_transfer_one bus hw m).2.2.actual_length =
      (segment_entry bus hw m pre).actual_length ∧
    (tiny6212_transfer_one bus hw m).2.2.transfers =
      (segment_entry bus hw m pre).transfers ++ t :: post := by
  unfold segment_entry at hpre
  have happ := transfer_loop_append bus m.mode false (t :: post) (by simp) pre
    { hw with tlen := 0 } m.actual_length hpre
  have hx := txrx_short_send bus (tiny6212_setup_transfer bus (segment_entry bus hw m pre).hw
      (t.speed_hz % 4294967296) (m.mode % 256)).2 t (t.cs_change || post.isEmpty)
      hflush hgt h0 hne
  have hneg : (- EIO_errno) < 0 := by decide
  have hbody : transfer_body bus m.mode (segment_entry bus hw m pre).hw
      (segment_entry bus hw m pre).actual_length t (post.isEmpty && !false) =
      ⟨{ (framed_session bus m.mode (segment_entry bus hw m pre).hw t post.isEmpty) with
          client := (framed_session bus m.mode (segment_entry bus hw m pre).hw t
            post.isEmpty).client ++ [I2cCall.send
              ((framed_session bus m.mode (segment_entry bus hw m pre).hw t
                post.isEmpty).wbuf.take
                (framed_session bus m.mode (segment_entry bus hw m pre).hw t
                  post.isEmpty).tlen.toNat)] },
        t, (segment_entry bus hw m pre).actual_length, - EIO_errno⟩ := by
    unfold transfer_body
    simp only [hchk, hcfg, lt_self_iff_false, if_false, if_pos hlen, Bool.not_false,
      Bool.and_true, hx, if_pos hneg]
    rfl
  have hloop : transfer_loop bus m.mode false (segment_entry bus hw m pre).hw
      (segment_entry bus hw m pre).actual_length (t :: post) =
      ⟨{ (framed_session bus m.mode (segment_entry bus hw m pre).hw t post.isEmpty) with
          client := (framed_session bus m.mode (segment_entry bus hw m pre).hw t
            post.isEmpty).client ++ [I2cCall.send
              ((framed_session bus m.mode (segment_entry bus hw m pre).hw t
                post.isEmpty).wbuf.take
                (framed_session bus m.mode (segment_entry bus hw m pre).hw t
                  post.isEmpty).tlen.toNat)] },
        t :: post, (segment_entry bus hw m pre).actual_length, - EIO_errno⟩ := by
    rw [transfer_loop_cons, hbody, if_pos hneg]
  refine ⟨by rw [hx], ?_⟩
  unfold tiny6212_transfer_one
  simp only [hm, happ]
  unfold segment_entry at hloop
  simp only [hloop]
  exact ⟨trivial, trivial, rfl, rfl, rfl, rfl⟩

set_option maxRecDepth 100000 in
theorem short_transmit_send_witness :
    (tiny6212_transfer_one short_bus probe_session
      (demo_message [demo_write 3 7, { demo_write 2 8 with cs_change := true },
        demo_write 1 9])).1 = -5 ∧
    (tiny6212_transfer_one short_bus probe_session
      (demo_message [demo_write 3 7, { demo_write 2 8 with cs_change := true },
        demo_write 1 9])).2.1.tlen = 6 ∧
    (tiny6212_transfer_one short_bus probe_session
      (demo_message [demo_write 3 7, { demo_write 2 8 with cs_change := true },
        demo_write 1 9])).2.1.client = [I2cCall.send [1, 7, 7, 7, 8, 8]] ∧
    (tiny6212_transfer_one short_bus probe_session
      (demo_message [demo_write 3 7, { demo_write 2 8 with cs_change := true },
        demo_write 1 9])).2.2.actual_length = 3 :=
  have h := short_transmit_send short_bus probe_session
    (demo_message [demo_write 3 7, { demo_write 2 8 with cs_change := true }, demo_write 1 9])
    [demo_write 3 7] [demo_write 1 9] { demo_write 2 8 with cs_change := true } rfl
    (by decide) (by decide) (by decide) (by decide) (by decide) (by decide) (by decide)
    (by decide)
  ⟨h.2.1, h.2.2.2.1, h.2.2.2.2.1, h.2.2.2.2.2.1⟩

/-- Claim C10, evaluated at a CONFIGURE send that reports 0 bytes, or 1 byte,
sent out of 2: `tiny6212_setup_transfer` returns 0 and replaces the cached
control byte 4 by 12. -/
theorem configure_short_send_accepted :
    probe_session.ctrl = 4 ∧
    (tiny6212_setup_transfer (fun _ _ => ⟨0, 0⟩) probe_session 2000000 0).1 = 0 ∧
    (tiny6212_setup_transfer (fun _ _ => ⟨0, 0⟩) probe_session 2000000 0).2.ctrl = 12 ∧
    (tiny6212_setup_transfer (fun _ _ => ⟨0, 0⟩) probe_session 2000000 0).2.client =
      [I2cCall.send [2, 12]] ∧
    (tiny6212_setup_transfer (fun _ _ => ⟨1, 0⟩) probe_session 2000000 0).1 = 0 ∧
    (tiny6212_setup_transfer (fun _ _ => ⟨1, 0⟩) probe_session 2000000 0).2.ctrl = 12 := by
  decide

/-- Claim C11, first-error short-circuit.  The value returned is the status
stored in the message, and the message is finalized once.  An iteration ends
with status 0 exactly when validation, configuration and, for a segment of
nonzero length, `tiny6212_txrx` succeed.  The message status is 0 iff every
segment's iteration ends with status 0.  Otherwise there is a first failing
segment, all segments before it having succeeded: the message status is the
status of that iteration, the session is the one that iteration left behind
(no later transport call), the later segments are untouched and the total is
the one of that iteration.  For a failing segment shorter than `2^31` the
status is `-EINVAL` with no call made, or the negative code reported by the
last call of the log, or `-EIO` for a short send or an empty receive. -/
theorem first_error_short_circuit (bus : I2cBus) (hw : tiny6212) (m : spi_message) :
    (tiny6212_transfer_one bus hw m).1 = (tiny6212_transfer_one bus hw m).2.2.status ∧
    (tiny6212_transfer_one bus hw m).2.2.finalized = m.finalized + 1 ∧
    (∀ pre t post,
      (segment_result bus hw m pre t post).status = 0 ↔
        (tiny6212_check_transfer t (segment_entry bus hw m pre).hw.tlen = 0 ∧
          (tiny6212_setup_transfer bus (segment_entry bus hw m pre).hw
            (t.speed_hz % 4294967296) (m.mode % 256)).1 = 0 ∧
          (t.len ≠ 0 → 0 ≤ (tiny6212_txrx bus (tiny6212_setup_transfer bus
            (segment_entry bus hw m pre).hw (t.speed_hz % 4294967296) (m.mode % 256)).2 t
            (t.cs_change || post.isEmpty)).1))) ∧
    ((tiny6212_transfer_one bus hw m).1 = 0 ↔
      ∀ pre t post, m.transfers = pre ++ t :: post →
        (segment_result bus hw m pre t post).status = 0) ∧
    ((tiny6212_transfer_one bus hw m).1 ≠ 0 →
      ∃ pre t post, m.transfers = pre ++ t :: post ∧
        (segment_entry bus hw m pre).status = 0 ∧
        (segment_result bus hw m pre t post).status < 0 ∧
        (tiny6212_transfer_one bus hw m).1 = (segment_result bus hw m pre t post).status ∧
        (tiny6212_transfer_one bus hw m).2.1 = (segment_result bus hw m pre t post).hw ∧
        (tiny6212_transfer_one bus hw m).2.2.transfers =
          (segment_entry bus hw m pre).transfers ++
            (segment_result bus hw m pre t post).t :: post ∧
        (tiny6212_transfer_one bus hw m).2.2.actual_length =
          (segment_result bus hw m pre t post).actual_length) ∧
    (∀ pre t post, t.len < 2147483648 → (segment_result bus hw m pre t post).status < 0 →
      (segment_result bus hw m pre t post).t = t ∧
      (((segment_result bus hw m pre t post).status = - EINVAL_errno ∧
          (segment_result bus hw m pre t post).hw = (segment_entry bus hw m pre).hw) ∨
        ∃ init c, (segment_result bus hw m pre t post).hw.client = init ++ [c] ∧
          (segment_entry bus hw m pre).hw.client.length ≤ init.length ∧
          (((bus init.length c).ret < 0 ∧
              (segment_result bus hw m pre t post).status = (bus init.length c).ret) ∨
           ((segment_result bus hw m pre t post).status = - EIO_errno ∧
              0 ≤ (bus init.length c).ret ∧
              ((∃ b, c = I2cCall.send b ∧
                  (bus init.length c).ret ≠ (segment_result bus hw m pre t post).hw.tlen) ∨
               (c = I2cCall.recv 1 ∧ (bus init.length c).ret = 0)))))) := by
  refine ⟨rfl, rfl, ?_, ?_, ?_, ?_⟩
  · intro pre t post
    exact transfer_body_ok_iff bus m.mode _ _ t post.isEmpty
  · rcases transfer_one_outcome bus hw m with ⟨hs, hall⟩ | ⟨pre, t, post, hsplit, -, hfail, he, -⟩
    · exact ⟨fun _ pre t post h => (hall pre t post h).2, fun _ => hs⟩
    · constructor
      · intro h0
        rw [he] at h0
        omega
      · intro hall
        have := hall pre t post hsplit
        omega
  · intro hne
    rcases transfer_one_outcome bus hw m with ⟨hs, -⟩ | h
    · exact absurd hs hne
    · exact h
  · intro pre t post hlen hf
    exact (transfer_body_error bus m.mode _ _ t post.isEmpty hf).2 hlen

set_option maxRecDepth 100000 in
/-- Instance of C11: a message whose second segment is too long fails with the
status of that segment, after the first segment has succeeded. -/
theorem first_error_short_circuit_witness :
    ∃ pre t post,
      (demo_message [demo_write 3 7, demo_write 200 8, demo_write 1 9]).transfers =
        pre ++ t :: post ∧
      (segment_entry demo_bus probe_session
        (demo_message [demo_write 3 7, demo_write 200 8, demo_write 1 9]) pre).status = 0 ∧
      (segment_result demo_bus probe_session
        (demo_message [demo_write 3 7, demo_write 200 8, demo_write 1 9]) pre t post).status
          < 0 ∧
      (tiny6212_transfer_one demo_bus probe_session
        (demo_message [demo_write 3 7, demo_write 200 8, demo_write 1 9])).1 =
        (segment_result demo_bus probe_session
          (demo_message [demo_write 3 7, demo_write 200 8, demo_write 1 9]) pre t post).status :=
  have h := (first_error_short_circuit demo_bus probe_session
    (demo_message [demo_write 3 7, demo_write 200 8, demo_write 1 9])).2.2.2.2.1 (by decide)
  h.elim fun pre h1 => h1.elim fun t h2 => h2.elim fun post h3 =>
    ⟨pre, t, post, h3.1, h3.2.1, h3.2.2.1, h3.2.2.2.1⟩

/-- Claim C12, transferred-byte accounting.  For a message of 32-bit segment
lengths whose grand total does not overflow the unsigned 32-bit counter:
either the message succeeds and the total has grown by the sum of the lengths
of all segments, or there is a first failing segment and the total has grown
by the sum of the lengths of exactly the segments that precede it. -/
theorem transferred_byte_accounting (bus : I2cBus) (hw : tiny6212) (m : spi_message)
    (hlen : ∀ t ∈ m.transfers, t.len < 4294967296)
    (hal : m.actual_length + (m.transfers.map spi_transfer.len).sum < 4294967296) :
    ((tiny6212_transfer_one bus hw m).1 = 0 ∧
      (tiny6212_transfer_one bus hw m).2.2.actual_length =
        m.actual_length + (m.transfers.map spi_transfer.len).sum) ∨
    (∃ pre t post, m.transfers = pre ++ t :: post ∧
      (segment_entry bus hw m pre).status = 0 ∧
      (segment_result bus hw m pre t post).status < 0 ∧
      (tiny6212_transfer_one bus hw m).1 = (segment_result bus hw m pre t post).status ∧
      (tiny6212_transfer_one bus hw m).2.2.actual_length =
        m.actual_length + (pre.map spi_transfer.len).sum) := by
  rcases transfer_one_outcome bus hw m with
    ⟨hs, -⟩ | ⟨pre, t, post, hsplit, hpre, hfail, he, -, -, hal2⟩
  · left
    exact ⟨hs, transfer_loop_ok_total bus m.mode false m.transfers _ _ hs hlen hal⟩
  · right
    refine ⟨pre, t, post, hsplit, hpre, hfail, he, ?_⟩
    rw [hal2]
    have h1 := (transfer_body_error bus m.mode (segment_entry bus hw m pre).hw
      (segment_entry bus hw m pre).actual_length t post.isEmpty hfail).1
    have hsum : (pre.map spi_transfer.len).sum ≤ (m.transfers.map spi_transfer.len).sum := by
      rw [hsplit]
      simp
    have h2 := transfer_loop_ok_total bus m.mode true pre { hw with tlen := 0 }
      m.actual_length hpre
      (fun u hu => hlen u (by rw [hsplit]; exact List.mem_append_left _ hu)) (by omega)
    unfold segment_result
    rw [h1]
    exact h2

set_option maxRecDepth 100000 in
theorem transferred_byte_accounting_witness :
    ((tiny6212_transfer_one demo_bus probe_session
        (demo_message [{ demo_write 3 7 with cs_change := true }, demo_write 200 8,
          demo_write 5 9])).1 = 0 ∧
      (tiny6212_transfer_one demo_bus probe_session
        (demo_message [{ demo_write 3 7 with cs_change := true }, demo_write 200 8,
          demo_write 5 9])).2.2.actual_length = 0 + 208) ∨
    (∃ pre t post,
      [{ demo_write 3 7 with cs_change := true }, demo_write 200 8, demo_write 5 9] =
        pre ++ t :: post ∧
      (segment_entry demo_bus probe_session
        (demo_message [{ demo_write 3 7 with cs_change := true }, demo_write 200 8,
          demo_write 5 9]) pre).status = 0 ∧
      (segment_result demo_bus probe_session
        (demo_message [{ demo_write 3 7 with cs_change := true }, demo_write 200 8,
          demo_write 5 9]) pre t post).status < 0 ∧
      (tiny6212_transfer_one demo_bus probe_session
        (demo_message [{ demo_write 3 7 with cs_change := true }, demo_write 200 8,
          demo_write 5 9])).1 =
        (segment_result demo_bus probe_session
          (demo_message [{ demo_write 3 7 with cs_change := true }, demo_write 200 8,
            demo_write 5 9]) pre t post).status ∧
      (tiny6212_transfer_one demo_bus probe_session
        (demo_message [{ demo_write 3 7 with cs_change := true }, demo_write 200 8,
          demo_write 5 9])).2.2.actual_length = 0 + (pre.map spi_transfer.len).sum) :=
  transferred_byte_accounting demo_bus probe_session
    (demo_message [{ demo_write 3 7 with cs_change := true }, demo_write 200 8,
      demo_write 5 9]) (by decide) (by decide)

/-- Claim C13, read-phase failure.  Take a segment with a receive buffer of
`n = len < 2^31` bytes whose flush phase did not fail, and count the receives
from the session at the start of the read phase.  (1) When receive `i` is the
first to report zero or a negative code, `tiny6212_txrx` returns `-EIO`, or
that code unchanged, after exactly `i + 1` one-byte receives; the bytes of the
receives before it stand at scratch positions `0 .. i-1` and the segment, its
receive buffer included, is handed back unmodified.  (2) When all `n`
receives report a positive count, exactly `n` one-byte receives are issued,
their bytes stand at scratch positions `0 .. n-1`, are copied to the receive
buffer, and `n` is returned.  (3) A non-negative return value is only
possible when all `n` receives reported a positive count. -/
theorem read_phase_failure (bus : I2cBus) (hw : tiny6212) (t : spi_transfer) (d : Bool)
    (rx : List Nat) (hrx : t.rx_buf = some rx) (hrl : rx.length = t.len)
    (hn : t.len < 2147483648)
    (hfl : (txrx_flush bus (txrx_frame hw t d).1 (txrx_frame hw t d).2).1 = none) :
    (∀ i < t.len,
      (∀ p < i, 0 < (bus ((recv_entry bus hw t d).client.length + p) (I2cCall.recv 1)).ret) →
      (bus ((recv_entry bus hw t d).client.length + i) (I2cCall.recv 1)).ret ≤ 0 →
      (tiny6212_txrx bus hw t d).1 =
        (if (bus ((recv_entry bus hw t d).client.length + i) (I2cCall.recv 1)).ret < 0
          then (bus ((recv_entry bus hw t d).client.length + i) (I2cCall.recv 1)).ret
          else - EIO_errno) ∧
      (tiny6212_txrx bus hw t d).2.2 = t ∧
      (tiny6212_txrx bus hw t d).2.1.client =
        (recv_entry bus hw t d).client ++ List.replicate (i + 1) (I2cCall.recv 1) ∧
      (tiny6212_txrx bus hw t d).2.1.rbuf.take i =
        (List.range i).map (fun p =>
          (bus ((recv_entry bus hw t d).client.length + p) (I2cCall.recv 1)).data)) ∧
    ((∀ i < t.len,
        0 < (bus ((recv_entry bus hw t d).client.length + i) (I2cCall.recv 1)).ret) →
      (tiny6212_txrx bus hw t d).1 = (t.len : Int) ∧
      (tiny6212_txrx bus hw t d).2.1.client =
        (recv_entry bus hw t d).client ++ List.replicate t.len (I2cCall.recv 1) ∧
      (tiny6212_txrx bus hw t d).2.1.rbuf.take t.len =
        (List.range t.len).map (fun p =>
          (bus ((recv_entry bus hw t d).client.length + p) (I2cCall.recv 1)).data) ∧
      (tiny6212_txrx bus hw t d).2.2 =
        { t with rx_buf := some ((List.range t.len).map (fun p =>
          (bus ((recv_entry bus hw t d).client.length + p) (I2cCall.recv 1)).data)) }) ∧
    (0 ≤ (tiny6212_txrx bus hw t d).1 →
      ∀ i < t.len,
        0 < (bus ((recv_entry bus hw t d).client.length + i) (I2cCall.recv 1)).ret) := by
  have hio : (- EIO_errno) < 0 := by decide
  have hS : (txrx_flush bus (txrx_frame hw t d).1 (txrx_frame hw t d).2).2 =
      recv_entry bus hw t d := rfl
  refine ⟨?_, ?_, ?_⟩
  · intro i hi hpos hle
    rcases recv_loop_outcome bus t.len (recv_entry bus hw t d) 0 with
      ⟨hall, -⟩ | ⟨q, hq, hqpos, hqle, he, hcl⟩
    · have := hall i hi
      omega
    · have hqi : q = i := by
        rcases Nat.lt_trichotomy q i with h | h | h
        · have := hpos q h
          omega
        · exact h
        · have := hqpos i h
          omega
      subst hqi
      have hx := txrx_of_recv_err bus hw t d rx _ hfl hrx (by rw [hS]; exact he)
      rw [hx, hS]
      refine ⟨rfl, rfl, hcl, ?_⟩
      have := recv_loop_scratch bus t.len (recv_entry bus hw t d) 0 q (Nat.zero_le _)
        (le_of_lt hi) hpos
      simpa using this
  · intro hall
    obtain ⟨r1, r2, -⟩ := recv_loop_ok bus t.len (recv_entry bus hw t d) 0 (Nat.zero_le _) hall
    have hsc := recv_loop_scratch bus t.len (recv_entry bus hw t d) 0 t.len (Nat.zero_le _)
      (le_refl _) hall
    simp only [Nat.zero_add, List.take_zero, List.nil_append] at hsc
    have hx := txrx_of_recv_ok bus hw t d rx hfl hrx (by rw [hS]; exact r1)
    rw [hx, hS]
    refine ⟨s32_of_lt _ hn, r2, hsc, ?_⟩
    simp only [hsc]
    rw [memcpy_full _ _ (by simp [hrl])]
  · intro h0 i hi
    rcases recv_loop_outcome bus t.len (recv_entry bus hw t d) 0 with
      ⟨hall, -⟩ | ⟨q, -, -, -, he, -⟩
    · exact hall i hi
    · have hx := txrx_of_recv_err bus hw t d rx _ hfl hrx (by rw [hS]; exact he)
      rw [hx] at h0
      simp only at h0
      split_ifs at h0 with hneg
      · omega
      · omega

theorem read_phase_failure_witness :
    (tiny6212_txrx stall_bus probe_session (demo_read 4) true).1 = -5 ∧
    (tiny6212_txrx stall_bus probe_session (demo_read 4) true).2.2 = demo_read 4 ∧
    (tiny6212_txrx stall_bus probe_session (demo_read 4) true).2.1.client =
      List.replicate 3 (I2cCall.recv 1) :=
  have h := (read_phase_failure stall_bus probe_session (demo_read 4) true
    (List.replicate 4 0) rfl rfl (by decide) (by decide)).1 2 (by decide) (by decide)
    (by decide)
  ⟨h.1, h.2.1, h.2.2.1⟩

/-- Claim C14, divisor monotonicity.  The divisor encoded in the control byte
is `selected_div freq hz`, a function of the base and the requested frequency
alone, whatever the mode flags; it is the divisor of the cache after every
successful call of `tiny6212_setup_transfer`, whatever the cache held before;
and for `hz1 ≤ hz2` the divisor selected for `hz1` is at least the one
selected for `hz2`. -/
theorem divisor_monotonicity :
    (∀ freq hz mode : Nat, divisor_of_ctrl (setup_ctrl freq hz mode) = selected_div freq hz) ∧
    (∀ (bus : I2cBus) (hw : tiny6212) (hz mode : Nat),
      (tiny6212_setup_transfer bus hw hz mode).1 = 0 →
      divisor_of_ctrl (tiny6212_setup_transfer bus hw hz mode).2.ctrl =
        selected_div hw.freq hz) ∧
    (∀ freq hz1 hz2 mode1 mode2 : Nat, hz1 ≤ hz2 →
      divisor_of_ctrl (setup_ctrl freq hz2 mode2) ≤
        divisor_of_ctrl (setup_ctrl freq hz1 mode1)) := by
  refine ⟨divisor_of_setup_ctrl, ?_, ?_⟩
  · intro bus hw hz mode h
    obtain ⟨-, -, -, s4, s5⟩ := setup_transfer_calls bus hw hz mode
    by_cases hc : setup_ctrl hw.freq hz mode = hw.ctrl
    · rw [s4 hc, ← hc]
      exact divisor_of_setup_ctrl _ _ _
    · rw [(s5 hc).2 h]
      exact divisor_of_setup_ctrl _ _ _
  · intro freq hz1 hz2 mode1 mode2 h
    rw [divisor_of_setup_ctrl, divisor_of_setup_ctrl]
    exact selected_div_antitone freq hz1 hz2 h

theorem divisor_monotonicity_witness :
    divisor_of_ctrl (setup_ctrl 8000000 2000000 3) ≤
      divisor_of_ctrl (setup_ctrl 8000000 100000 8) :=
  divisor_monotonicity.2.2 8000000 100000 2000000 8 3 (by decide)

set_option maxRecDepth 100000 in
/-- Claim C15, evaluated at a segment of length 0 met at cursor 0.  As first
segment it fails validation: the message ends with `-EINVAL`, nothing is
sent and the segment behind it is not processed.  Right after a flush it
fails validation as well, once the frame of the flushed segment is out.  At
cursor 3 the same segment passes validation. -/
theorem zero_length_segment_rejected :
    tiny6212_check_transfer (demo_empty false) 0 = -22 ∧
    (tiny6212_transfer_one demo_bus probe_session
      (demo_message [demo_empty false, demo_write 1 9])).1 = -22 ∧
    (tiny6212_transfer_one demo_bus probe_session
      (demo_message [demo_empty false, demo_write 1 9])).2.1.client = [] ∧
    (tiny6212_transfer_one demo_bus probe_session
      (demo_message [{ demo_write 2 7 with cs_change := true }, demo_empty false,
        demo_write 1 9])).1 = -22 ∧
    (tiny6212_transfer_one demo_bus probe_session
      (demo_message [{ demo_write 2 7 with cs_change := true }, demo_empty false,
        demo_write 1 9])).2.1.client = [I2cCall.send [1, 7, 7]] ∧
    tiny6212_check_transfer (demo_empty false) 3 = 0 := by
  decide

set_option maxRecDepth 100000 in
/-- Claim C16 fails for a last segment of length 0: after three buffered
bytes the message ends with status 0, no call has been made and the cursor
is 4. -/
theorem flush_skipped_for_empty_segment :
    (tiny6212_transfer_one demo_bus probe_session
      (demo_message [demo_write 3 7, demo_empty true])).1 = 0 ∧
    (tiny6212_transfer_one demo_bus probe_session
      (demo_message [demo_write 3 7, demo_empty true])).2.1.client = [] ∧
    ¬ (tiny6212_transfer_one demo_bus probe_session
      (demo_message [demo_write 3 7, demo_empty true])).2.1.tlen ≤ 1 := by
  decide

/-- Claim C16 as amended.  (1) For every segment of nonzero length that marks
chip-select-change or is the last segment of its message, once its iteration
has ended without error: the calls it added are at most one CONFIGURE frame,
then, whenever the cursor stood above 1 after framing, one send of the whole
write buffer up to the cursor, then one-byte receives; and the cursor is at
most 1, also at the end of a message that succeeds.  When the segments before
it were processed without error and all segments up to it have a length of
at most 128 and outbound buffers of that length, the payloads of the TRANSMIT
frames sent since the start of the message are, in order, exactly the
outbound bytes of the segments up to and including this one.  (2) A segment
of length 0 causes no flush: whatever its flags and position, cursor, write
buffer and total stay as they are and the only call possible is a CONFIGURE
frame. -/
theorem flush_at_boundaries (bus : I2cBus) (hw : tiny6212) (m : spi_message)
    (pre post : List spi_transfer) (t : spi_transfer)
    (hm : m.transfers = pre ++ t :: post) :
    (t.len ≠ 0 → (t.cs_change = true ∨ post = []) →
      (segment_result bus hw m pre t post).status = 0 →
      (segment_result bus hw m pre t post).hw.tlen ≤ 1 ∧
      (∃ cfg n, (cfg = [] ∨ ∃ c, cfg = [I2cCall.send [2, c]]) ∧
        (segment_result bus hw m pre t post).hw.client =
          (segment_entry bus hw m pre).hw.client ++ cfg ++
            (if 1 < (framed_session bus m.mode (segment_entry bus hw m pre).hw t
                post.isEmpty).tlen then
              [I2cCall.send ((framed_session bus m.mode (segment_entry bus hw m pre).hw t
                  post.isEmpty).wbuf.take
                (framed_session bus m.mode (segment_entry bus hw m pre).hw t
                  post.isEmpty).tlen.toNat)]
            else []) ++ List.replicate n (I2cCall.recv 1)) ∧
      (post = [] → (tiny6212_transfer_one bus hw m).1 = 0 →
        (tiny6212_transfer_one bus hw m).2.1.tlen ≤ 1) ∧
      ((segment_entry bus hw m pre).status = 0 →
        (∀ u ∈ pre ++ [t], u.len ≤ TINY6212_BUFSIZ ∧
          ∀ b, u.tx_buf = some b → b.length = u.len) →
        ∃ new, (segment_result bus hw m pre t post).hw.client = hw.client ++ new ∧
          payloads new = ((pre ++ [t]).map (fun u => u.tx_buf.getD [])).flatten ∧
          ∀ c ∈ new, regular_call c)) ∧
    (t.len = 0 →
      (segment_result bus hw m pre t post).hw.tlen = (segment_entry bus hw m pre).hw.tlen ∧
      (segment_result bus hw m pre t post).hw.wbuf = (segment_entry bus hw m pre).hw.wbuf ∧
      (segment_result bus hw m pre t post).actual_length =
        (segment_entry bus hw m pre).actual_length ∧
      ∃ cfg, (cfg = [] ∨ ∃ c, cfg = [I2cCall.send [2, c]]) ∧
        (segment_result bus hw m pre t post).hw.client =
          (segment_entry bus hw m pre).hw.client ++ cfg) := by
  constructor
  · intro hl hb hok
    have hd : (t.cs_change || post.isEmpty) = true := by
      rcases hb with h | h
      · rw [h]; rfl
      · rw [h]; simp
    have hneg : (- EINVAL_errno) ≠ 0 := by decide
    have hbody : ∀ (hw1 : tiny6212) (al : Nat),
        (transfer_body bus m.mode hw1 al t post.isEmpty).status = 0 →
        (transfer_body bus m.mode hw1 al t post.isEmpty).hw.tlen ≤ 1 := by
      intro hw1 al hs
      rcases transfer_body_cases bus m.mode hw1 al t post.isEmpty with
        ⟨-, e⟩ | ⟨-, h1, e⟩ | ⟨-, -, -, hx, e⟩ | ⟨-, -, -, hx, e⟩ | ⟨-, -, h0, e⟩
      · rw [e] at hs
        exact absurd hs hneg
      · rw [e] at hs
        simp only at hs
        omega
      · rw [e] at hs
        simp only at hs
        omega
      · rw [e]
        simp only
        rw [hd] at hx ⊢
        exact txrx_flushed bus _ t true (by rw [txrx_frame_flag]; rfl) hx
      · exact absurd h0 hl
    refine ⟨hbody _ _ hok, ?_, ?_, ?_⟩
    · exact transfer_body_sent bus m.mode _ _ t post.isEmpty hl hd hok
    · intro hp hs
      subst hp
      rcases transfer_one_outcome bus hw m with ⟨-, hall⟩ | ⟨p1, u, p2, -, -, hfail, he, -⟩
      · obtain ⟨hpre, -⟩ := hall pre t [] hm
        rw [(transfer_one_last bus hw m pre t hm hpre).2]
        exact hbody _ _ hok
      · omega
    · intro hpre hseg
      have hF : Framed { hw with tlen := 0 } [] := Or.inl ⟨rfl, rfl⟩
      obtain ⟨new1, pend1, c1, c2, c3, c4, c5⟩ := transfer_loop_conservation_le bus m.mode true
        pre { hw with tlen := 0 } m.actual_length [] hF (Nat.zero_le _)
        (fun u hu => hseg u (List.mem_append_left _ hu)) hpre
      obtain ⟨h2, hwf⟩ := hseg t (List.mem_append_right _ (List.mem_singleton.2 rfl))
      obtain ⟨new2, pend2, b1, -, -, b4, b5, b6⟩ := transfer_body_conservation_le bus m.mode
        (segment_entry bus hw m pre).hw (segment_entry bus hw m pre).actual_length t
        post.isEmpty pend1 c2 c3 h2 hwf hok
      have hnil := b6 hl hd
      subst hnil
      have hmap : (pre ++ [t]).map (fun u => u.tx_buf.getD []) = (pre ++ [t]).map outbound := by
        apply List.map_congr_left
        intro u hu
        obtain ⟨-, hw2⟩ := hseg u hu
        unfold outbound
        cases htx : u.tx_buf with
        | none => rfl
        | some tx =>
          simp only [Option.getD_some]
          exact (List.take_of_length_le (le_of_eq (hw2 tx htx))).symm
      refine ⟨new1 ++ new2, ?_, ?_, ?_⟩
      · have e : (segment_result bus hw m pre t post).hw.client =
            (segment_entry bus hw m pre).hw.client ++ new2 := b1
        have e1 : (segment_entry bus hw m pre).hw.client = hw.client ++ new1 := c1
        rw [e, e1, List.append_assoc]
      · rw [hmap, payloads_append]
        have b4p : payloads new2 = pend1 ++ outbound t := by simpa using b4
        rw [b4p, ← List.append_assoc, c4]
        simp
      · intro c hc
        rcases List.mem_append.1 hc with h | h
        · exact c5 c h
        · exact b5 c h
  · intro hl
    obtain ⟨e1, e2, e3, -, e5⟩ := transfer_body_empty bus m.mode (segment_entry bus hw m pre).hw
      (segment_entry bus hw m pre).actual_length t post.isEmpty hl
    exact ⟨e1, e2, e3, e5⟩

set_option maxRecDepth 100000 in
/-- Instance of C16 as amended: behind a segment of three bytes, a last
segment of two bytes leaves the cursor at most 1 with all five bytes sent. -/
theorem flush_at_boundaries_witness :
    (segment_result demo_bus probe_session (demo_message [demo_write 3 7, demo_write 2 8])
      [demo_write 3 7] (demo_write 2 8) []).hw.tlen ≤ 1 ∧
    ∃ new, (segment_result demo_bus probe_session
        (demo_message [demo_write 3 7, demo_write 2 8])
        [demo_write 3 7] (demo_write 2 8) []).hw.client = probe_session.client ++ new ∧
      payloads new = (([demo_write 3 7] ++ [demo_write 2 8]).map
        (fun u => u.tx_buf.getD [])).flatten ∧
      ∀ c ∈ new, regular_call c :=
  have h := (flush_at_boundaries demo_bus probe_session
    (demo_message [demo_write 3 7, demo_write 2 8])
    [demo_write 3 7] [] (demo_write 2 8) rfl).1 (by decide) (Or.inr rfl) (by decide)
  ⟨h.1, h.2.2.2 (by decide) (by decide)⟩

set_option maxRecDepth 100000 in
/-- Claim C17, evaluated at a read-only segment that is neither last nor
marks chip-select-change and is met with three outbound bytes pending
(cursor 4): the message succeeds, both receives are issued first, and the
three bytes leave only afterwards, in the frame flushed by the last
segment. -/
theorem read_only_segment_not_flushed :
    (segment_entry demo_bus probe_session
      (demo_message [demo_write 3 7, demo_read 2, demo_write 1 9]) [demo_write 3 7]).hw.tlen
      = 4 ∧
    (segment_result demo_bus probe_session
      (demo_message [demo_write 3 7, demo_read 2, demo_write 1 9]) [demo_write 3 7]
      (demo_read 2) [demo_write 1 9]).hw.client = [I2cCall.recv 1, I2cCall.recv 1] ∧
    (tiny6212_transfer_one demo_bus probe_session
      (demo_message [demo_write 3 7, demo_read 2, demo_write 1 9])).1 = 0 ∧
    (tiny6212_transfer_one demo_bus probe_session
      (demo_message [demo_write 3 7, demo_read 2, demo_write 1 9])).2.1.client =
      [I2cCall.recv 1, I2cCall.recv 1, I2cCall.send [1, 7, 7, 7, 9]] := by
  decide

/-- Claim C18, no unnecessary flush.  In a message of 32-bit segment lengths
run from a session whose write buffer has its declared size, the calls made
while processing a segment `t` are: at most one CONFIGURE frame, then at most
one TRANSMIT frame, then one-byte receives.  A TRANSMIT frame is sent only if
`t` marks chip-select-change, is last or has a receive buffer, and only with
the cursor above 1; it holds the header and at least one more byte.  A
segment without receive buffer that is not last and does not mark
chip-select-change therefore adds nothing but a possible CONFIGURE frame.
Over the whole message no call is the bare header frame. -/
theorem no_unnecessary_flush (bus : I2cBus) (hw : tiny6212) (m : spi_message)
    (hlen : ∀ u ∈ m.transfers, u.len < 4294967296)
    (hwb : hw.wbuf.length = TINY6212_BUFSIZ + 1) :
    (∀ pre t post, m.transfers = pre ++ t :: post →
      ∃ cfg fl n, (segment_result bus hw m pre t post).hw.client =
          (segment_entry bus hw m pre).hw.client ++ cfg ++ fl ++
            List.replicate n (I2cCall.recv 1) ∧
        (cfg = [] ∨ ∃ c, cfg = [I2cCall.send [2, c]]) ∧
        (fl = [] ∨ ((∃ x xs, fl = [I2cCall.send (1 :: x :: xs)]) ∧
          (t.cs_change = true ∨ post = [] ∨ t.rx_buf.isSome = true) ∧
          1 < (framed_session bus m.mode (segment_entry bus hw m pre).hw t
            post.isEmpty).tlen)) ∧
        (t.rx_buf = none → n = 0) ∧
        (t.rx_buf = none → t.cs_change = false → post ≠ [] → fl = [])) ∧
    (∃ new, (tiny6212_transfer_one bus hw m).2.1.client = hw.client ++ new ∧
      I2cCall.send [1] ∉ new) := by
  have hH0 : Hdr { hw with tlen := 0 } := Or.inl rfl
  have hwb0 : 2 ≤ ({ hw with tlen := 0 } : tiny6212).wbuf.length := by
    show 2 ≤ hw.wbuf.length
    rw [hwb]
    decide
  constructor
  · intro pre t post hsplit
    obtain ⟨e1, e2, -⟩ := transfer_loop_no_bare_header bus m.mode true pre { hw with tlen := 0 }
      m.actual_length hH0 hwb0
      (fun u hu => hlen u (by rw [hsplit]; exact List.mem_append_left _ hu))
    obtain ⟨-, -, cfg, fl, n, b3, b4, b5, b6, b7⟩ := transfer_body_calls_detail bus m.mode
      (segment_entry bus hw m pre).hw (segment_entry bus hw m pre).actual_length t post.isEmpty
      e1 e2 (hlen t (by rw [hsplit]; simp))
    refine ⟨cfg, fl, n, b3, b4, ?_, b6, ?_⟩
    · rcases b5 with h | ⟨h1, h2, h3⟩
      · exact Or.inl h
      · refine Or.inr ⟨h1, ?_, h3⟩
        rcases h2 with h | h | h
        · exact Or.inl h
        · exact Or.inr (Or.inl (List.isEmpty_iff.1 h))
        · exact Or.inr (Or.inr h)
    · intro hnone hcs hpost
      apply b7 hnone hcs
      cases post with
      | nil => exact absurd rfl hpost
      | cons _ _ => rfl
  · obtain ⟨-, -, new, h1, h2⟩ := transfer_loop_no_bare_header bus m.mode false m.transfers
      { hw with tlen := 0 } m.actual_length hH0 hwb0 hlen
    exact ⟨new, h1, h2⟩

set_option maxRecDepth 100000 in
theorem no_unnecessary_flush_witness :
    ∃ new, (tiny6212_transfer_one demo_bus probe_session
        (demo_message [demo_write 3 7, demo_read 2, demo_write 1 9])).2.1.client =
        probe_session.client ++ new ∧
      I2cCall.send [1] ∉ new :=
  (no_unnecessary_flush demo_bus probe_session
    (demo_message [demo_write 3 7, demo_read 2, demo_write 1 9]) (by decide) (by decide)).2

/-- Claim C20, outbound data conservation.  For a message whose segments all
have a length in `1..128` and hold exactly that many outbound bytes when they
have an outbound buffer, and which `tiny6212_transfer_one` completes with
status 0: the payloads of the TRANSMIT frames added to the log, concatenated
in send order, are the outbound bytes of the segments concatenated in segment
order; every call added is a CONFIGURE frame, a TRANSMIT frame starting with
`0x01` and carrying at least one payload byte, or a one-byte receive; and the
cursor is at most 1 at the end. -/
theorem outbound_data_conservation (bus : I2cBus) (hw : tiny6212) (m : spi_message)
    (hseg : ∀ t ∈ m.transfers, 1 ≤ t.len ∧ t.len ≤ TINY6212_BUFSIZ ∧
      ∀ b, t.tx_buf = some b → b.length = t.len)
    (hok : (tiny6212_transfer_one bus hw m).1 = 0) :
    (∃ new, (tiny6212_transfer_one bus hw m).2.1.client = hw.client ++ new ∧
      payloads new = (m.transfers.map (fun t => t.tx_buf.getD [])).flatten ∧
      ∀ c ∈ new, regular_call c) ∧
    (tiny6212_transfer_one bus hw m).2.1.tlen ≤ 1 := by
  have hF : Framed { hw with tlen := 0 } [] := Or.inl ⟨rfl, rfl⟩
  have hmap : m.transfers.map (fun t => t.tx_buf.getD []) = m.transfers.map outbound := by
    apply List.map_congr_left
    intro t ht
    obtain ⟨-, -, hwf⟩ := hseg t ht
    unfold outbound
    cases htx : t.tx_buf with
    | none => rfl
    | some tx =>
      simp only [Option.getD_some]
      exact (List.take_of_length_le (le_of_eq (hwf tx htx))).symm
  obtain ⟨new, pend1, c1, c2, -, c4, c5, c6, c7⟩ := transfer_loop_conservation bus m.mode false
    m.transfers { hw with tlen := 0 } m.actual_length [] hF (Nat.zero_le _) hseg hok
  have hnil : pend1 = [] := by
    by_cases hr : m.transfers = []
    · exact c6 hr
    · exact c7 rfl hr
  subst hnil
  refine ⟨⟨new, c1, ?_, c5⟩, ?_⟩
  · rw [hmap]
    simpa using c4
  · have htl : (tiny6212_transfer_one bus hw m).2.1.tlen =
        (transfer_loop bus m.mode false { hw with tlen := 0 } m.actual_length
          m.transfers).hw.tlen := rfl
    rw [htl]
    rcases c2 with ⟨h, -⟩ | ⟨h, -⟩
    · rw [h]
      decide
    · rw [h]
      decide

set_option maxRecDepth 100000 in
theorem outbound_data_conservation_witness :
    ∃ new, (tiny6212_transfer_one demo_bus probe_session
        (demo_message [demo_write 3 7, demo_read 2, { demo_write 2 8 with cs_change := true },
          demo_write 1 9])).2.1.client = probe_session.client ++ new ∧
      payloads new = [7, 7, 7] ++ ([] ++ ([8, 8] ++ ([9] ++ []))) ∧
      ∀ c ∈ new, regular_call c :=
  (outbound_data_conservation demo_bus probe_session
    (demo_message [demo_write 3 7, demo_read 2, { demo_write 2 8 with cs_change := true },
      demo_write 1 9]) (by decide) (by decide)).1

/-- Claim C19, independence from leftovers of earlier messages.  The driver
starts a message by resetting the cursor: the first segment is entered with
cursor 0, and the call is the same as on the session with the cursor already
0.  For two sessions with the same base frequency, the same cached control
byte and the same transport history (so the bus answers the same), whatever
their cursors, write buffers and read buffers hold, the same message of well
formed segments yields the same return value, the same message afterwards
(segments with their receive data, status, transferred-byte total, finalized
count), the same transport calls with the same bytes and the same cached
control byte. -/
theorem independence_from_leftovers (bus : I2cBus) (hw1 hw2 : tiny6212) (m : spi_message)
    (hf : hw1.freq = hw2.freq) (hc : hw1.ctrl = hw2.ctrl) (hl : hw1.client = hw2.client)
    (hwf : ∀ t ∈ m.transfers, t.wf) :
    (segment_entry bus hw1 m []).hw.tlen = 0 ∧
    tiny6212_transfer_one bus hw1 m = tiny6212_transfer_one bus { hw1 with tlen := 0 } m ∧
    (tiny6212_transfer_one bus hw1 m).1 = (tiny6212_transfer_one bus hw2 m).1 ∧
    (tiny6212_transfer_one bus hw1 m).2.2 = (tiny6212_transfer_one bus hw2 m).2.2 ∧
    (tiny6212_transfer_one bus hw1 m).2.1.client = (tiny6212_transfer_one bus hw2 m).2.1.client ∧
    (tiny6212_transfer_one bus hw1 m).2.1.ctrl = (tiny6212_transfer_one bus hw2 m).2.1.ctrl := by
  have hA : Agree { hw1 with tlen := 0 } { hw2 with tlen := 0 } :=
    ⟨hc, hf, hl, rfl, rfl, Nat.zero_le _, Nat.zero_le _⟩
  have hH : Hdr { hw1 with tlen := 0 } := Or.inl rfl
  obtain ⟨i1, i2, i3, i4⟩ := transfer_loop_agree bus m.mode false m.transfers _ _
    m.actual_length hA hH hwf
  refine ⟨rfl, rfl, ?_, ?_, ?_, ?_⟩
  · exact i3
  · simp only [tiny6212_transfer_one, i1, i2, i3]
  · exact i4.2.2.1
  · exact i4.1

set_option maxRecDepth 100000 in
/-- Instance of C19: a fresh session and one left with cursor 57 and stale
buffers, on a message with a write segment followed by a read segment. -/
theorem independence_from_leftovers_witness :
    probe_session.tlen ≠ stale_session.tlen ∧
    probe_session.wbuf ≠ stale_session.wbuf ∧
    (tiny6212_transfer_one demo_bus probe_session
        (demo_message [demo_write 3 7, demo_read 2])).2.2 =
      (tiny6212_transfer_one demo_bus stale_session
        (demo_message [demo_write 3 7, demo_read 2])).2.2 ∧
    (tiny6212_transfer_one demo_bus probe_session
        (demo_message [demo_write 3 7, demo_read 2])).2.1.client =
      (tiny6212_transfer_one demo_bus stale_session
        (demo_message [demo_write 3 7, demo_read 2])).2.1.client :=
  ⟨by decide, by decide,
    (independence_from_leftovers demo_bus probe_session stale_session
      (demo_message [demo_write 3 7, demo_read 2]) rfl rfl rfl (by decide)).2.2.2.1,
    (independence_from_leftovers demo_bus probe_session stale_session
      (demo_message [demo_write 3 7, demo_read 2]) rfl rfl rfl (by decide)).2.2.2.2.1⟩

end Tiny6212
